import Mathlib

/-!
# FVENS implicit solver and output routines: a shallow embedding of `aimplicitsolver.cpp`
and `aoutput.cpp`

The floating-point type `a_real` is modelled by an arbitrary linearly ordered field `K`
(exact arithmetic; `ℚ` for evaluation), the index type `a_int` by `ℤ` for cell indices and by
`ℕ` for face indices, which the code only produces from loop counters.  A matrix
`amat::Matrix<a_real>` with `nvars = 4` columns is a function from the row index to `Fin 4 → K`.
Code that is not part of the translated file (the mesh class, the numerical flux, `sqrt`, the
reconstruction and limiter objects, the single-index accessor of `amat::Matrix`) is a parameter.
-/

namespace acfd

/-- A row of an `nvars`-column matrix: the conserved variables of one cell or one face side. -/
abbrev Vars (K : Type) := Fin 4 → K

/-- A dense `nvars x nvars` block. -/
abbrev Block (K : Type) := Matrix (Fin 4) (Fin 4) K

/-- The accessors of `UMesh2dh` that the solver and the output routines call. -/
structure UMesh2dh (K : Type) where
  /-- number of cells -/
  gnelem : ℕ
  /-- number of boundary faces -/
  gnbface : ℕ
  /-- number of all faces; boundary faces come first -/
  gnaface : ℕ
  /-- face data: column 0 the left cell, column 1 the right cell, columns 2 and 3 the nodes -/
  gintfac : ℕ → ℕ → ℤ
  /-- face data: columns 0 and 1 the unit normal, column 2 the length, column 3 the boundary tag -/
  ggallfa : ℕ → ℕ → K
  /-- number of faces of a cell -/
  gnfael : ℤ → ℕ
  /-- the faces of a cell -/
  gelemface : ℤ → ℕ → ℕ
  /-- cell area -/
  garea : ℤ → K
  /-- number of points -/
  gnpoin : ℕ
  /-- number of nodes of a cell -/
  gnnode : ℤ → ℕ
  /-- the points that are the nodes of a cell -/
  ginpoel : ℤ → ℕ → ℤ
  /-- number of nodes of a face -/
  gnnofa : ℕ
  /-- coordinates of a point -/
  gcoords : ℤ → ℕ → K
  /-- boundary markers of a boundary face; column 0 is the marker the output routines test -/
  gintfacbtags : ℕ → ℕ → ℤ
  /-- face data of the output routines: columns 0 and 1 the unit normal, column 2 the length -/
  gfacemetric : ℕ → ℕ → K

/-- Collaborators of the solver whose code is outside the translated file. -/
structure Externals (K : Type) where
  /-- `sqrt` of the C++ maths library -/
  sqrt : K → K
  /-- `inviflux->get_flux(ulp, urp, n, fluxp)`: the numerical flux of a left and a right state
  across a face with normal `(n0, n1)` -/
  get_flux : Vars K → Vars K → K → K → Vars K
  /-- `amat::Matrix::get` called with a single index on a matrix with one row per cell -/
  get : (ℤ → Vars K) → ℤ → K
  /-- `amat::Matrix::get` called with a single index on a matrix with one row per face -/
  getf : (ℕ → Vars K) → ℕ → K
  /-- `eulerflux->evaluate_flux_2(u, ielem, n, flux, row)`: the row written into `flux` -/
  evaluate_flux_2 : (ℤ → Vars K) → ℤ → K → K → Vars K
  /-- `rec->compute_gradients(); lim->compute_face_values();` from `u`, `ug` and the current
  `uleft`, `uright` to the new `uleft`, `uright` -/
  compute_face_values : (ℤ → Vars K) → (ℕ → Vars K) → (ℕ → Vars K) → (ℕ → Vars K) →
    (ℕ → Vars K) × (ℕ → Vars K)

/-- The block arrays of `ImplicitSolver` that `compute_LHS` writes. -/
structure ImplicitSolver (K : Type) where
  /-- diagonal block of each cell -/
  diag : ℤ → Block K
  /-- lower block of each face -/
  lower : ℕ → Block K
  /-- upper block of each face -/
  upper : ℕ → Block K

/-- The arrays of `ImplicitSolverMF` that `compute_LHS` writes. -/
structure ImplicitSolverMF (K : Type) where
  /-- diagonal block of each cell -/
  diag : ℤ → Block K
  /-- eigenvalue estimate of each face -/
  lambdaij : ℕ → K
  /-- Euler flux of the left (row 0) and right (row 1) cell at each face -/
  elemfaceflux : ℕ → Fin 2 → Vars K

/-- The fields of `ImplicitSolverBase` that `compute_RHS` reads or writes. -/
structure ImplicitSolverBase (K : Type) where
  /-- spatial order of accuracy -/
  order : ℤ
  /-- cell states -/
  u : ℤ → Vars K
  /-- free-stream state -/
  uinf : Vars K
  /-- ghost states of the boundary faces -/
  ug : ℕ → Vars K
  /-- left state at each face -/
  uleft : ℕ → Vars K
  /-- right state at each face -/
  uright : ℕ → Vars K
  /-- flux residual of each cell -/
  residual : ℤ → Vars K
  /-- integral of the maximum eigenvalue over the faces of each cell -/
  integ : ℤ → K

section defs

variable {K : Type} [LinearOrderedField K]

/-- Adiabatic index, `g = 1.4` in the constructor. -/
def g : K := 1.4

/-- Boundary tag of solid walls. -/
def solid_wall_id : K := 2

/-- Boundary tag of inflow/outflow boundaries. -/
def inflow_outflow_id : K := 4

/-- The assignment `A(i,j) = x`. -/
def setEntry {ι : Type} [DecidableEq ι] (A : ι → Vars K) (i : ι) (j : Fin 4) (x : K) :
    ι → Vars K :=
  Function.update A i (Function.update (A i) j x)

/-- The indices of a loop `for(i = lo; i < hi; i++)`. -/
def loopRange (lo hi : ℕ) : List ℕ := List.range' lo (hi - lo)

/-- The test `rel >= 0 && rel < m->gnelem()`. -/
def isCell (m : UMesh2dh K) (rel : ℤ) : Prop := 0 ≤ rel ∧ rel < (m.gnelem : ℤ)

instance (m : UMesh2dh K) (rel : ℤ) : Decidable (isCell m rel) :=
  inferInstanceAs (Decidable (0 ≤ rel ∧ rel < (m.gnelem : ℤ)))

/-- `ImplicitSolverBase::compute_boundary_states(ins, bs)`. -/
def compute_boundary_states (m : UMesh2dh K) (uinf : Vars K) (ins bs : ℕ → Vars K) :
    ℕ → Vars K :=
  (List.range m.gnbface).foldl (fun bs ied =>
    let nx := m.ggallfa ied 0
    let ny := m.ggallfa ied 1
    let vni := (ins ied 1 * nx + ins ied 2 * ny) / ins ied 0
    let bs1 :=
      if m.ggallfa ied 3 = solid_wall_id then
        let b0 := setEntry bs ied 0 (ins ied 0)
        let b1 := setEntry b0 ied 1 (ins ied 1 - 2 * vni * nx * b0 ied 0)
        let b2 := setEntry b1 ied 2 (ins ied 2 - 2 * vni * ny * b1 ied 0)
        setEntry b2 ied 3 (ins ied 3)
      else bs
    if m.ggallfa ied 3 = inflow_outflow_id then
      (List.finRange 4).foldl (fun b i => setEntry b ied i (uinf i)) bs1
    else bs1) bs

/-- The array `fluxp` of `compute_RHS` at face `ied` after `fluxp[ivar] *= len`: the numerical
flux of the face integrated over the face. -/
def fluxp (E : Externals K) (m : UMesh2dh K) (uleft uright : ℕ → Vars K) (ied : ℕ) : Vars K :=
  fun ivar => E.get_flux (uleft ied) (uright ied) (m.ggallfa ied 0) (m.ggallfa ied 1) ivar
    * m.ggallfa ied 2

/-- The body of the face loop of `compute_RHS`: the flux of face `ied`, scaled by the face
length, is scattered to the residuals, and the eigenvalue integral is accumulated. -/
def rhsFace (E : Externals K) (m : UMesh2dh K) (uleft uright : ℕ → Vars K)
    (acc : (ℤ → Vars K) × (ℤ → K)) (ied : ℕ) : (ℤ → Vars K) × (ℤ → K) :=
  let lel := m.gintfac ied 0
  let rel := m.gintfac ied 1
  let n0 := m.ggallfa ied 0
  let n1 := m.ggallfa ied 1
  let len := m.ggallfa ied 2
  let residual := (List.finRange 4).foldl (fun r ivar =>
    let r1 := setEntry r lel ivar (r lel ivar - fluxp E m uleft uright ied ivar)
    if isCell m rel then setEntry r1 rel ivar (r1 rel ivar + fluxp E m uleft uright ied ivar)
    else r1) acc.1
  let pi := (g - 1) * (uleft ied 3 - 0.5 * ((uleft ied 1) ^ 2 + (uleft ied 2) ^ 2) / uleft ied 0)
  let pj := (g - 1) * (uright ied 3 - 0.5 * ((uright ied 1) ^ 2 + (uright ied 2) ^ 2) / uright ied 0)
  let ci := E.sqrt (g * pi / uleft ied 0)
  let cj := E.sqrt (g * pj / uright ied 0)
  let vni := (uleft ied 1 * n0 + uleft ied 2 * n1) / uleft ied 0
  let vnj := (uright ied 1 * n0 + uright ied 2 * n1) / uright ied 0
  let integ1 := Function.update acc.2 lel (acc.2 lel + (|vni| + ci) * len)
  let integ2 := if isCell m rel then Function.update integ1 rel (integ1 rel + (|vnj| + cj) * len)
    else integ1
  (residual, integ2)

/-- `residual.zeros()`: every entry of the `gnelem x nvars` matrix is set to zero. -/
def zeros (m : UMesh2dh K) (A : ℤ → Vars K) : ℤ → Vars K :=
  fun c => if isCell m c then 0 else A c

/-- `ImplicitSolverBase::compute_RHS()`. -/
def compute_RHS (E : Externals K) (m : UMesh2dh K) (s : ImplicitSolverBase K) :
    ImplicitSolverBase K :=
  let residual0 := zeros m s.residual
  -- cell-centred values of boundary cells as left-side values of boundary faces
  let uleft1 := (List.range m.gnbface).foldl (fun ul ied =>
    (List.finRange 4).foldl (fun ul ivar => setEntry ul ied ivar (s.u (m.gintfac ied 0) ivar)) ul)
    s.uleft
  let ug1 := compute_boundary_states m s.uinf uleft1 s.ug
  let lr : (ℕ → Vars K) × (ℕ → Vars K) :=
    if s.order = 2 then E.compute_face_values s.u ug1 uleft1 s.uright
    else
      (loopRange m.gnbface m.gnaface).foldl (fun lr ied =>
        (List.finRange 4).foldl (fun lr ivar =>
          (setEntry lr.1 ied ivar (s.u (m.gintfac ied 0) ivar),
           setEntry lr.2 ied ivar (s.u (m.gintfac ied 1) ivar))) lr) (uleft1, s.uright)
  let uright1 := compute_boundary_states m s.uinf lr.1 lr.2
  let ri := (List.range m.gnaface).foldl (rhsFace E m lr.1 uright1) (residual0, s.integ)
  { s with ug := ug1, uleft := lr.1, uright := uright1, residual := ri.1, integ := ri.2 }

/-- The CFL number `curCFL` that `solve()` uses in outer iteration `step` (the same three-way
branch in `SteadyStateImplicitSolver::solve`, `SteadyStateImplicitSolverMF::solve` and
`LUSSORSteadyStateImplicitSolverMF::solve`); the `int` differences are taken in `ℤ` (signed
overflow is undefined in C++) and converted to `a_real`. -/
def curCFL (cfl_init cfl : K) (switchstepi switchstep step : ℤ) : K :=
  if step < switchstepi then cfl_init
  else if step < switchstep then
    cfl_init + (cfl - cfl_init) / ((switchstep - switchstepi : ℤ) : K)
      * ((step - switchstepi : ℤ) : K)
  else cfl

/-- The update `D[c](i,j) += x` of one entry of one block. -/
def addBlock {ι : Type} [DecidableEq ι] (D : ι → Block K) (c : ι) (i j : Fin 4) (x : K) :
    ι → Block K :=
  fun c' => if c' = c then Matrix.of (fun i' j' => if i' = i ∧ j' = j then D c i j + x
    else D c i' j') else D c'

/-- The assignment `D[c](i,j) = x` of one entry of one block. -/
def setBlock {ι : Type} [DecidableEq ι] (D : ι → Block K) (c : ι) (i j : Fin 4) (x : K) :
    ι → Block K :=
  fun c' => if c' = c then Matrix.of (fun i' j' => if i' = i ∧ j' = j then x
    else D c i' j') else D c'

/-- The eigenvalue estimate `lambdaij = fabs(vnij) + cij` that `compute_LHS` forms at a face
from the Roe averages of the left state `ul` and the right state `ur`. -/
def roeLambda (E : Externals K) (ul ur : Vars K) (n0 n1 : K) : K :=
  let pi := (g - 1.0) * (ul 3 - 0.5 * (ul 1 * ul 1 + ul 2 * ul 2) / ul 0)
  let pj := (g - 1.0) * (ur 3 - 0.5 * (ur 1 * ur 1 + ur 2 * ur 2) / ur 0)
  let hi := (ul 3 + pi) / ul 0
  let hj := (ur 3 + pj) / ur 0
  let Rij := E.sqrt (ur 0 / ul 0)
  let uij := (Rij * ur 1 / ur 0 + ul 1 / ul 0) / (Rij + 1.0)
  let vij := (Rij * ur 2 / ur 0 + ul 2 / ul 0) / (Rij + 1.0)
  let vnij := uij * n0 + vij * n1
  let hij := (Rij * hj + hi) / (Rij + 1.0)
  let cij := E.sqrt ((g - 1.0) * (hij - 0.5 * (uij * uij + vij * vij)))
  |vnij| + cij

/-- The right state that `compute_LHS` reads at a boundary face: `ug.get(0)`, ..., `ug.get(3)`,
each read with a single index. -/
def ugGet (E : Externals K) (ug : ℕ → Vars K) : Vars K := fun k => E.getf ug (k : ℕ)

/-- The matrix `Ji` (for `elem = ielem`) or `Jj` (for `elem = jelem`) that `compute_LHS`
fills for a face with normal `(n0, n1)`; entry `(1,1)` reads `u.get(0)`. -/
def fluxJacobian (E : Externals K) (u : ℤ → Vars K) (elem : ℤ) (n0 n1 : K) : Block K :=
  let u02 := u elem 0 * u elem 0
  let vn := (u elem 1 * n0 + u elem 2 * n1) / u elem 0
  !![0.0, n0, n1, 0.0;
     n0 * ((g - 1.0) * (u elem 1 * u elem 1 + u elem 2 * u elem 2) * 0.5 / u02
        - u elem 1 * u elem 1 / u02) - u elem 1 * u elem 2 * n1 / u02,
     n0 * u elem 1 / u elem 0 * (3.0 - g) + u elem 2 / E.get u 0 * n1,
     u elem 1 / u elem 0 * n1 - (g - 1.0) * u elem 2 / u elem 0 * n0,
     (g - 1.0) * n0;
     -u elem 1 * u elem 2 / u02 * n0
        + n1 * ((g - 1.0) * (u elem 1 * u elem 1 + u elem 2 * u elem 2) * 0.5 / u02
          - u elem 2 * u elem 2 / u02),
     u elem 2 / u elem 0 * n0 - (g - 1.0) * u elem 1 / u elem 0 * n1,
     u elem 1 / u elem 0 * n0 + n1 * (3.0 - g) * u elem 2 / u elem 0,
     (g - 1.0) * n1;
     vn * ((g - 1.0) * (u elem 1 * u elem 1 + u elem 2 * u elem 2) / u02
        - g * u elem 3 / u elem 0),
     g * u elem 3 / u elem 0 * n0 - (g - 1.0) / u02 * (1.5 * u elem 1 * u elem 1 * n0
        + 0.5 * u elem 2 * u elem 2 * n0 + u elem 1 * u elem 2 * n1),
     g * u elem 3 / u elem 0 * n1 - (g - 1.0) / u02 * (u elem 1 * u elem 2 * n0
        + 1.5 * u elem 2 * u elem 2 * n1 + 0.5 * u elem 1 * u elem 1 * n1),
     g * vn]

/-- The body of the boundary-face loop of `ImplicitSolver::compute_LHS`. -/
def lhsBoundaryFace (E : Externals K) (m : UMesh2dh K) (u : ℤ → Vars K) (ug : ℕ → Vars K)
    (s : ImplicitSolver K) (iface : ℕ) : ImplicitSolver K :=
  let ielem := m.gintfac iface 0
  let n0 := m.ggallfa iface 0
  let n1 := m.ggallfa iface 1
  let len := m.ggallfa iface 2
  let lambdaij := roeLambda E (u ielem) (ugGet E ug) n0 n1
  let Ji := fluxJacobian E u ielem n0 n1
  let d1 := (List.finRange 4).foldl (fun D i =>
    addBlock D ielem i i (0.5 * (Ji i i + lambdaij) * len)) s.diag
  let d2 := (List.finRange 4).foldl (fun D i => (List.finRange 4).foldl (fun D j =>
    if i = j then D else addBlock D ielem i j (0.5 * Ji i j * len)) D) d1
  { s with diag := d2 }

/-- The body of the interior-face loop of `ImplicitSolver::compute_LHS`. -/
def lhsInteriorFace (E : Externals K) (m : UMesh2dh K) (u : ℤ → Vars K)
    (s : ImplicitSolver K) (iface : ℕ) : ImplicitSolver K :=
  let ielem := m.gintfac iface 0
  let jelem := m.gintfac iface 1
  let n0 := m.ggallfa iface 0
  let n1 := m.ggallfa iface 1
  let len := m.ggallfa iface 2
  let lambdaij := roeLambda E (u ielem) (u jelem) n0 n1
  let Ji := fluxJacobian E u ielem n0 n1
  let Jj := fluxJacobian E u jelem n0 n1
  let s1 := (List.finRange 4).foldl (fun (s : ImplicitSolver K) i =>
    let da := addBlock s.diag ielem i i (0.5 * (Ji i i + lambdaij) * len)
    let db := addBlock da jelem i i (0.5 * (-Jj i i + lambdaij) * len)
    { diag := db,
      lower := setBlock s.lower iface i i (0.5 * (-Ji i i - lambdaij) * len),
      upper := setBlock s.upper iface i i (0.5 * (Jj i i - lambdaij) * len) }) s
  (List.finRange 4).foldl (fun (s : ImplicitSolver K) i =>
    (List.finRange 4).foldl (fun (s : ImplicitSolver K) j =>
      if i = j then s else
        let da := addBlock s.diag ielem i j (0.5 * Ji i j * len)
        let db := addBlock da jelem i j (-0.5 * Jj i j * len)
        { diag := db,
          lower := setBlock s.lower iface i j (0.5 * (-Ji i j) * len),
          upper := setBlock s.upper iface i j (0.5 * Jj i j * len) }) s) s1

/-- `diag[ielem].zeros()` for every cell `ielem` of the mesh. -/
def zeroBlocks (m : UMesh2dh K) (D : ℤ → Block K) : ℤ → Block K :=
  fun c => if isCell m c then 0 else D c

/-- `ImplicitSolver::compute_LHS()`; `u` and `ug` are the cell and ghost states of the base
class, which the function only reads. -/
def compute_LHS (E : Externals K) (m : UMesh2dh K) (u : ℤ → Vars K) (ug : ℕ → Vars K)
    (s : ImplicitSolver K) : ImplicitSolver K :=
  let s0 : ImplicitSolver K := { s with diag := zeroBlocks m s.diag }
  let s1 := (List.range m.gnbface).foldl (lhsBoundaryFace E m u ug) s0
  (loopRange m.gnbface m.gnaface).foldl (lhsInteriorFace E m u) s1

/-- The body of the loop over the faces of cell `ielem` in `ImplicitSolverMF::compute_LHS`. -/
def mfCellFace (E : Externals K) (m : UMesh2dh K) (u : ℤ → Vars K) (lambdaij : ℕ → K)
    (ielem : ℤ) (D : ℤ → Block K) (ifael : ℕ) : ℤ → Block K :=
  let u02 := u ielem 0 * u ielem 0
  let face := m.gelemface ielem ifael
  let n0 := m.ggallfa face 0
  let n1 := m.ggallfa face 1
  let len := m.ggallfa face 2
  let D := addBlock D ielem 0 0 (0.5 * lambdaij face * len)
  let D := addBlock D ielem 0 1 (0.5 * n0 * len)
  let D := addBlock D ielem 0 2 (0.5 * n1 * len)
  let D := addBlock D ielem 1 0 (0.5 * (n0 * ((g - 1.0) * (u ielem 1 * u ielem 1
    + u ielem 2 * u ielem 2) * 0.5 / u02 - u ielem 1 * u ielem 1 / u02)
    - u ielem 1 * u ielem 2 * n1 / u02) * len)
  let D := addBlock D ielem 1 1 (0.5 * (n0 * u ielem 1 / u ielem 0 * (3.0 - g)
    + u ielem 2 / E.get u 0 * n1 + lambdaij face) * len)
  let D := addBlock D ielem 1 2 (0.5 * (u ielem 1 / u ielem 0 * n1
    - (g - 1.0) * u ielem 2 / u ielem 0 * n0) * len)
  let D := addBlock D ielem 1 3 (0.5 * (g - 1.0) * n0 * len)
  let D := addBlock D ielem 2 0 (0.5 * (-u ielem 1 * u ielem 2 / u02 * n0
    + n1 * ((g - 1.0) * (u ielem 1 * u ielem 1 + u ielem 2 * u ielem 2) * 0.5 / u02
      - u ielem 2 * u ielem 2 / u02)) * len)
  let D := addBlock D ielem 2 1 (0.5 * (u ielem 2 / u ielem 0 * n0
    - (g - 1.0) * u ielem 1 / u ielem 0 * n1) * len)
  let D := addBlock D ielem 2 2 (0.5 * (u ielem 1 / u ielem 0 * n0
    + n1 * (3.0 - g) * u ielem 2 / u ielem 0 + lambdaij face) * len)
  let D := addBlock D ielem 2 3 (0.5 * (g - 1.0) * n1 * len)
  let vn := (u ielem 1 * n0 + u ielem 2 * n1) / u ielem 0
  let D := addBlock D ielem 3 0 (0.5 * (vn * ((g - 1.0) * (u ielem 1 * u ielem 1
    + u ielem 2 * u ielem 2) / u02 - g * u ielem 3 / u ielem 0)) * len)
  let D := addBlock D ielem 3 1 (0.5 * (g * u ielem 3 / u ielem 0 * n0
    - (g - 1.0) / u02 * (1.5 * u ielem 1 * u ielem 1 * n0 + 0.5 * u ielem 2 * u ielem 2 * n0
      + u ielem 1 * u ielem 2 * n1)) * len)
  let D := addBlock D ielem 3 2 (0.5 * (g * u ielem 3 / u ielem 0 * n1
    - (g - 1.0) / u02 * (u ielem 1 * u ielem 2 * n0 + 1.5 * u ielem 2 * u ielem 2 * n1
      + 0.5 * u ielem 1 * u ielem 1 * n1)) * len)
  addBlock D ielem 3 3 (0.5 * (g * vn + lambdaij face) * len)

/-- The body of the cell loop of `ImplicitSolverMF::compute_LHS`: the block of the cell is
zeroed and the contributions of the faces of the cell are added to it. -/
def mfCell (E : Externals K) (m : UMesh2dh K) (u : ℤ → Vars K) (lambdaij : ℕ → K)
    (D : ℤ → Block K) (ielem : ℕ) : ℤ → Block K :=
  (List.range (m.gnfael ielem)).foldl (mfCellFace E m u lambdaij ielem)
    (Function.update D (ielem : ℤ) 0)

/-- `ImplicitSolverMF::compute_LHS()`. -/
def compute_LHS_MF (E : Externals K) (m : UMesh2dh K) (u : ℤ → Vars K) (ug : ℕ → Vars K)
    (s : ImplicitSolverMF K) : ImplicitSolverMF K :=
  -- boundary faces
  let s1 := (List.range m.gnbface).foldl (fun (s : ImplicitSolverMF K) iface =>
    let ielem := m.gintfac iface 0
    let n0 := m.ggallfa iface 0
    let n1 := m.ggallfa iface 1
    { s with
      lambdaij := Function.update s.lambdaij iface (roeLambda E (u ielem) (ugGet E ug) n0 n1),
      elemfaceflux := Function.update s.elemfaceflux iface
        (Function.update (s.elemfaceflux iface) 0 (E.evaluate_flux_2 u ielem n0 n1)) }) s
  -- interior faces
  let s2 := (loopRange m.gnbface m.gnaface).foldl (fun (s : ImplicitSolverMF K) iface =>
    let ielem := m.gintfac iface 0
    let jelem := m.gintfac iface 1
    let n0 := m.ggallfa iface 0
    let n1 := m.ggallfa iface 1
    let e0 := Function.update s.elemfaceflux iface
      (Function.update (s.elemfaceflux iface) 0 (E.evaluate_flux_2 u ielem n0 n1))
    { s with
      lambdaij := Function.update s.lambdaij iface (roeLambda E (u ielem) (u jelem) n0 n1),
      elemfaceflux := Function.update e0 iface
        (Function.update (e0 iface) 1 (E.evaluate_flux_2 u jelem n0 n1)) }) s1
  -- diagonal blocks
  { s2 with diag := (List.range m.gnelem).foldl (mfCell E m u s2.lambdaij) s2.diag }

/-- What a boundary face `f` adds to entry `(a, b)` of the diagonal block of cell `c` in
`ImplicitSolver::compute_LHS`: `0.5*(Ji + lambdaij*I)*len` when `c` is the left cell. -/
def diagBoundary (E : Externals K) (m : UMesh2dh K) (u : ℤ → Vars K) (ug : ℕ → Vars K)
    (c : ℤ) (a b : Fin 4) (f : ℕ) : K :=
  if c = m.gintfac f 0 then
    0.5 * (fluxJacobian E u (m.gintfac f 0) (m.ggallfa f 0) (m.ggallfa f 1) a b
      + (if a = b then roeLambda E (u (m.gintfac f 0)) (ugGet E ug)
          (m.ggallfa f 0) (m.ggallfa f 1) else 0)) * m.ggallfa f 2
  else 0

/-- What an interior face `f` adds to entry `(a, b)` of the diagonal block of cell `c` in
`ImplicitSolver::compute_LHS`: `0.5*(Ji + lambdaij*I)*len` when `c` is the left cell, and
`0.5*(-Jj + lambdaij*I)*len` when `c` is the right cell. -/
def diagInterior (E : Externals K) (m : UMesh2dh K) (u : ℤ → Vars K)
    (c : ℤ) (a b : Fin 4) (f : ℕ) : K :=
  (if c = m.gintfac f 0 then
    0.5 * (fluxJacobian E u (m.gintfac f 0) (m.ggallfa f 0) (m.ggallfa f 1) a b
      + (if a = b then roeLambda E (u (m.gintfac f 0)) (u (m.gintfac f 1))
          (m.ggallfa f 0) (m.ggallfa f 1) else 0)) * m.ggallfa f 2
  else 0)
  + (if c = m.gintfac f 1 then
    0.5 * (-fluxJacobian E u (m.gintfac f 1) (m.ggallfa f 0) (m.ggallfa f 1) a b
      + (if a = b then roeLambda E (u (m.gintfac f 0)) (u (m.gintfac f 1))
          (m.ggallfa f 0) (m.ggallfa f 1) else 0)) * m.ggallfa f 2
  else 0)

/-- What face number `k` of cell `c` adds to entry `(a, b)` of the diagonal block of `c` in
`ImplicitSolverMF::compute_LHS`: `0.5*(J + lambdaij*I)*len` with the stored normal of the
face, whichever side of the face `c` lies on. -/
def diagMF (E : Externals K) (m : UMesh2dh K) (u : ℤ → Vars K) (lambdaij : ℕ → K)
    (c : ℤ) (a b : Fin 4) (k : ℕ) : K :=
  0.5 * (fluxJacobian E u c (m.ggallfa (m.gelemface c k) 0) (m.ggallfa (m.gelemface c k) 1) a b
    + (if a = b then lambdaij (m.gelemface c k) else 0)) * m.ggallfa (m.gelemface c k) 2

/-- The array `lambdaij` after the two face loops of `ImplicitSolverMF::compute_LHS`. -/
def lambdaMF (E : Externals K) (m : UMesh2dh K) (u : ℤ → Vars K) (ug : ℕ → Vars K)
    (lambdaij : ℕ → K) : ℕ → K :=
  fun f =>
    if f ∈ loopRange m.gnbface m.gnaface then
      roeLambda E (u (m.gintfac f 0)) (u (m.gintfac f 1)) (m.ggallfa f 0) (m.ggallfa f 1)
    else if f ∈ List.range m.gnbface then
      roeLambda E (u (m.gintfac f 0)) (ugGet E ug) (m.ggallfa f 0) (m.ggallfa f 1)
    else lambdaij f

/-- Modelled from the spec: the 2D Euler normal flux `F(U).n` (gamma = 1.4) of a conserved
state `U = (rho, rho u, rho v, E)` across a normal `(n0, n1)`, the function whose Jacobian
`compute_LHS` is said to form; the class `EulerFlux` is not part of the translated file. -/
def eulerNormalFlux (U : Vars K) (n0 n1 : K) : Vars K :=
  let p := (g - 1) * (U 3 - 0.5 * (U 1 * U 1 + U 2 * U 2) / U 0)
  let vn := (U 1 * n0 + U 2 * n1) / U 0
  ![U 0 * vn, U 1 * vn + p * n0, U 2 * vn + p * n1, (U 3 + p) * vn]

/-- A mesh of two unit squares, cell 0 below cell 1.  Faces 0 to 5 are the boundary faces,
counter-clockwise from the bottom of cell 0, with outward normals and ghost cells 2 to 7 on
their right; face 6 is the interior face, left cell 0, right cell 1, normal `(0, 1)`.
The bottom and the top are solid walls (tag 2), the sides inflow/outflow (tag 4). -/
def quadMesh : UMesh2dh K where
  gnelem := 2
  gnbface := 6
  gnaface := 7
  gintfac := fun f k => (([[0, 2, 0, 1], [0, 3, 1, 2], [1, 4, 2, 3], [1, 5, 3, 4],
    [1, 6, 4, 5], [0, 7, 5, 0], [0, 1, 5, 2]] : List (List ℤ)).getD f []).getD k 0
  ggallfa := fun f k => (([[0, -1, 1, 2], [1, 0, 1, 4], [1, 0, 1, 4], [0, 1, 1, 2],
    [-1, 0, 1, 4], [-1, 0, 1, 4], [0, 1, 1, 0]] : List (List K)).getD f []).getD k 0
  gnfael := fun _ => 4
  gelemface := fun c k => (([[0, 1, 6, 5], [6, 2, 3, 4]] : List (List ℕ)).getD c.toNat []).getD k 0
  garea := fun _ => 1
  gnpoin := 6
  gnnode := fun _ => 4
  ginpoel := fun c k => (([[0, 1, 2, 5], [5, 2, 3, 4]] : List (List ℤ)).getD c.toNat []).getD k 0
  gnnofa := 2
  gcoords := fun p k => (([[0, 0], [1, 0], [1, 1], [1, 2], [0, 2], [0, 1]] :
    List (List K)).getD p.toNat []).getD k 0
  gintfacbtags := fun f _ => ([2, 4, 4, 2, 4, 4] : List ℤ).getD f 0
  gfacemetric := fun f k => (([[0, -1, 1], [1, 0, 1], [1, 0, 1], [0, 1, 1],
    [-1, 0, 1], [-1, 0, 1], [0, 1, 1]] : List (List K)).getD f []).getD k 0

/-- Collaborators for evaluation: a central flux, the Euler flux, no reconstruction, a rational
stand-in for `sqrt` (one Newton step from 1), and the single-index accessor reading column 0 of
the given row (the default second argument of `amat::Matrix::get`). -/
def extStd : Externals K where
  sqrt := fun x => (x + 1) / 2
  get_flux := fun ul ur n0 n1 i => (eulerNormalFlux ul n0 n1 i + eulerNormalFlux ur n0 n1 i) / 2
  get := fun A i => A i 0
  getf := fun A i => A i 0
  evaluate_flux_2 := fun u c n0 n1 => eulerNormalFlux (u c) n0 n1
  compute_face_values := fun _ _ ul ur => (ul, ur)

/-- Cell states for evaluation: `(1, 0, 1, 3)` in cell 0 and `(2, 0, 1, 3)` in every other
cell (positive density and pressure, velocity along the second axis). -/
def uStd : ℤ → Vars K := fun c => if c = 0 then ![1, 0, 1, 3] else ![2, 0, 1, 3]

/-- Ghost and face states for evaluation. -/
def ugStd : ℕ → Vars K := fun _ => ![1, 0, 1, 3]

/-- A state of `ImplicitSolverBase` for evaluation, first order. -/
def baseStd : ImplicitSolverBase K where
  order := 1
  u := uStd
  uinf := ![1, 0, 1, 3]
  ug := ugStd
  uleft := ugStd
  uright := ugStd
  residual := fun _ => 0
  integ := fun _ => 0

/-- Block arrays of `ImplicitSolver` for evaluation, all entries 1 before the call. -/
def lhsStd : ImplicitSolver K where
  diag := fun _ _ _ => 1
  lower := fun _ _ _ => 1
  upper := fun _ _ _ => 1

/-- Arrays of `ImplicitSolverMF` for evaluation, all entries 1 before the call. -/
def mfStd : ImplicitSolverMF K where
  diag := fun _ _ _ => 1
  lambdaij := fun _ => 1
  elemfaceflux := fun _ _ _ => 1

/-- `ImplicitSolver::jacobianVectorProduct(du, ans)`; `du` is the array of the increments of
the cells. -/
def jacobianVectorProduct (m : UMesh2dh K) (s : ImplicitSolver K) (du : ℤ → Vars K)
    (ans : ℤ → Vars K) : ℤ → Vars K :=
  let a0 := zeros m ans
  let a1 := (List.range m.gnelem).foldl (fun a (ielem : ℕ) =>
    (List.finRange 4).foldl (fun a i => (List.finRange 4).foldl (fun a j =>
      setEntry a (ielem : ℤ) i (a ielem i + s.diag ielem i j * du ielem j)) a) a) a0
  (loopRange m.gnbface m.gnaface).foldl (fun a iface =>
    let ielem := m.gintfac iface 0
    let jelem := m.gintfac iface 1
    (List.finRange 4).foldl (fun a i => (List.finRange 4).foldl (fun a j =>
      let a' := setEntry a jelem i (a jelem i + s.lower iface i j * du ielem j)
      setEntry a' ielem i (a' ielem i + s.upper iface i j * du jelem j)) a) a) a1

/-- Collaborators of `solve()` whose code is outside the translated file. -/
structure LinearExternals (K : Type) where
  /-- `LUfactor(A, p)`: the factorised block and the pivot vector that replace `A` and `p` -/
  LUfactor : Block K → (Fin 4 → ℤ) → Block K × (Fin 4 → ℤ)
  /-- `solver->compute_update(ddu)`: the new `ddu` from the arrays the solver object points to
  (`afresidual`, `ludiag`, `diagp`, `lower`, `upper`) and the current `ddu` -/
  compute_update : (ℤ → Vars K) → (ℤ → Block K) → (ℤ → Fin 4 → ℤ) → (ℕ → Block K) →
    (ℕ → Block K) → (ℤ → Vars K) → (ℤ → Vars K)
  /-- the read `res.get(iel,i)` of the `nvars x 1` matrix `res`, which `res.ones()` filled -/
  resGet : ℤ → Fin 4 → K

/-- The constant members of `SteadyStateImplicitSolver` that `solve()` reads. -/
structure SteadyConfig (K : Type) where
  /-- initial CFL number -/
  cfl_init : K
  /-- final CFL number -/
  cfl : K
  /-- step at which the CFL ramp starts -/
  switchstepi : ℤ
  /-- step at which the CFL ramp ends -/
  switchstep : ℤ
  /-- tolerance of the outer loop -/
  steadytol : K
  /-- iteration cap of the outer loop -/
  steadymaxiter : ℤ
  /-- tolerance of the linear loop -/
  lintol : K
  /-- iteration cap of the linear loop -/
  linmaxiter : ℤ

/-- The members of `SteadyStateImplicitSolver` and the locals of `solve()`. -/
structure SteadyStateImplicitSolver (K : Type) where
  /-- members of `ImplicitSolverBase` -/
  base : ImplicitSolverBase K
  /-- block arrays `diag`, `lower`, `upper` -/
  lhs : ImplicitSolver K
  /-- LU-factorised diagonal blocks -/
  ludiag : ℤ → Block K
  /-- pivot vectors of the factorisations -/
  diagp : ℤ → Fin 4 → ℤ
  /-- residual of the linear system -/
  afresidual : ℤ → Vars K
  /-- time step of each cell -/
  dtl : ℤ → K
  /-- outer iteration counter -/
  step : ℤ
  /-- linear iteration counter -/
  linstep : ℤ
  /-- norm of the last increment -/
  resi : K
  /-- norm of the last linear update -/
  linresi : K
  /-- `resi` of the first outer iteration -/
  initres : K
  /-- `linresi` of the first linear iteration -/
  lininitres : K
  /-- current CFL number -/
  curCFL : K
  /-- increment of the state in this outer iteration -/
  du : ℤ → Vars K
  /-- update of the increment in this linear iteration -/
  ddu : ℤ → Vars K

/-- A loop `while(cond) body`, run for at most `fuel` passes: the state at the exit and the
number of passes executed. -/
def whileLoop {σ : Type} (cond : σ → Prop) [DecidablePred cond] (body : σ → σ) :
    ℕ → σ → σ × ℕ
  | 0, s => (s, 0)
  | fuel + 1, s =>
    if cond s then ((whileLoop cond body fuel (body s)).1, (whileLoop cond body fuel (body s)).2 + 1)
    else (s, 0)

/-- The time-step computation of `SteadyStateImplicitSolver::solve`: `dtmin` starts at `1.0`,
every cell gets `curCFL*(area/integ)` and lowers `dtmin`, then every cell gets `dtmin`. -/
def computeTimeSteps (m : UMesh2dh K) (curCFL : K) (integ dtl : ℤ → K) : ℤ → K :=
  let r := (List.range m.gnelem).foldl (fun (acc : (ℤ → K) × K) (iel : ℕ) =>
    let dtl1 := Function.update acc.1 (iel : ℤ) (curCFL * (m.garea iel / integ iel))
    (dtl1, if dtl1 iel < acc.2 then dtl1 iel else acc.2)) (dtl, 1.0)
  fun c => if isCell m c then r.2 else r.1 c

/-- The loop of `SteadyStateImplicitSolver::solve` after `compute_LHS()`: `area/dtl` is added
to the 4 diagonal entries of `diag[iel]`, the block is saved in `ludiag[iel]` and
`LUfactor(ludiag[iel], diagp[iel])` is called. -/
def addPseudoTimeAndFactor (L : LinearExternals K) (m : UMesh2dh K)
    (s : SteadyStateImplicitSolver K) : SteadyStateImplicitSolver K :=
  (List.range m.gnelem).foldl (fun (s : SteadyStateImplicitSolver K) (iel : ℕ) =>
    let d := addBlock s.lhs.diag (iel : ℤ) 0 0 (m.garea iel / s.dtl iel)
    let d := addBlock d (iel : ℤ) 1 1 (m.garea iel / s.dtl iel)
    let d := addBlock d (iel : ℤ) 2 2 (m.garea iel / s.dtl iel)
    let d := addBlock d (iel : ℤ) 3 3 (m.garea iel / s.dtl iel)
    let lu := Function.update s.ludiag (iel : ℤ) (d iel)
    { s with
      lhs := { s.lhs with diag := d },
      ludiag := Function.update lu (iel : ℤ) (L.LUfactor (lu iel) (s.diagp iel)).1,
      diagp := Function.update s.diagp (iel : ℤ) (L.LUfactor (lu iel) (s.diagp iel)).2 }) s

/-- Lines `compute_LHS(); for(iel...) { diag[iel](k,k) += area/dtl; ludiag[iel] = diag[iel];
LUfactor(ludiag[iel], diagp[iel]); }` of `SteadyStateImplicitSolver::solve`. -/
def assembleAndFactor (E : Externals K) (L : LinearExternals K) (m : UMesh2dh K)
    (s : SteadyStateImplicitSolver K) : SteadyStateImplicitSolver K :=
  addPseudoTimeAndFactor L m { s with lhs := compute_LHS E m s.base.u s.base.ug s.lhs }

/-- Lines `compute_LHS(); for(iel...) { diag[iel](k,k) += area/dtl; LUfactor(diag[iel],
diagp[iel]); }` of `SteadyStateImplicitSolverMF::solve`: the arrays of the matrix-free solver
and the pivot vectors after them. -/
def assembleAndFactorMF (E : Externals K) (L : LinearExternals K) (m : UMesh2dh K)
    (u : ℤ → Vars K) (ug : ℕ → Vars K) (dtl : ℤ → K) (t : ImplicitSolverMF K)
    (diagp : ℤ → Fin 4 → ℤ) : ImplicitSolverMF K × (ℤ → Fin 4 → ℤ) :=
  (List.range m.gnelem).foldl (fun (acc : ImplicitSolverMF K × (ℤ → Fin 4 → ℤ)) (iel : ℕ) =>
    let d := addBlock acc.1.diag (iel : ℤ) 0 0 (m.garea iel / dtl iel)
    let d := addBlock d (iel : ℤ) 1 1 (m.garea iel / dtl iel)
    let d := addBlock d (iel : ℤ) 2 2 (m.garea iel / dtl iel)
    let d := addBlock d (iel : ℤ) 3 3 (m.garea iel / dtl iel)
    ({ acc.1 with diag := Function.update d (iel : ℤ) (L.LUfactor (d iel) (acc.2 iel)).1 },
      Function.update acc.2 (iel : ℤ) (L.LUfactor (d iel) (acc.2 iel)).2))
    (compute_LHS_MF E m u ug t, diagp)

/-- The norm `sqrt(sum over cells of v[iel](0)*v[iel](0)*area(iel))` that `solve()` takes of
the increment `du` and of the linear update `ddu`. -/
def massResidual (E : Externals K) (m : UMesh2dh K) (v : ℤ → Vars K) : K :=
  E.sqrt ((List.range m.gnelem).foldl (fun (r : K) (iel : ℕ) =>
    r + v iel 0 * v iel 0 * m.garea iel) 0)

/-- The condition of the linear loop of `solve()`. -/
def linCond (cfg : SteadyConfig K) (s : SteadyStateImplicitSolver K) : Prop :=
  s.linresi / s.lininitres > cfg.lintol ∧ s.linstep < cfg.linmaxiter

instance (cfg : SteadyConfig K) : DecidablePred (linCond cfg) := fun s =>
  inferInstanceAs (Decidable (s.linresi / s.lininitres > cfg.lintol ∧ s.linstep < cfg.linmaxiter))

/-- The condition of the outer loop of `solve()`. -/
def steadyCond (cfg : SteadyConfig K) (s : SteadyStateImplicitSolver K) : Prop :=
  s.resi / s.initres > cfg.steadytol ∧ s.step < cfg.steadymaxiter

instance (cfg : SteadyConfig K) : DecidablePred (steadyCond cfg) := fun s =>
  inferInstanceAs (Decidable (s.resi / s.initres > cfg.steadytol ∧ s.step < cfg.steadymaxiter))

/-- The body of the linear loop of `SteadyStateImplicitSolver::solve`. -/
def linearIteration (E : Externals K) (L : LinearExternals K) (m : UMesh2dh K)
    (s : SteadyStateImplicitSolver K) : SteadyStateImplicitSolver K :=
  let ddu := L.compute_update s.afresidual s.ludiag s.diagp s.lhs.lower s.lhs.upper s.ddu
  -- norm of change
  let linresi := massResidual E m ddu
  let lininitres := if s.linstep = 0 then linresi else s.lininitres
  let linstep := s.linstep + 1
  -- update solution
  let du : ℤ → Vars K := fun c => if isCell m c then fun i => s.du c i + ddu c i else s.du c
  -- the matrix-vector product (dR/du) * du, then the residual of the linear system
  let afr := jacobianVectorProduct m s.lhs du s.afresidual
  let afr : ℤ → Vars K := fun c => if isCell m c then fun i => L.resGet c i - afr c i else afr c
  { s with ddu := ddu, linresi := linresi, lininitres := lininitres, linstep := linstep,
           du := du, afresidual := afr }

/-- The body of the outer loop of `SteadyStateImplicitSolver::solve`. -/
def solveIteration (E : Externals K) (L : LinearExternals K) (cfg : SteadyConfig K)
    (m : UMesh2dh K) (s : SteadyStateImplicitSolver K) : SteadyStateImplicitSolver K :=
  -- reset CFL data and the time update vector
  let base0 : ImplicitSolverBase K :=
    { s.base with integ := fun c => if isCell m c then 0 else s.base.integ c }
  let du0 := zeros m s.du
  -- fluxes
  let base1 := compute_RHS E m base0
  let afr : ℤ → Vars K := fun c => if isCell m c then base1.residual c else s.afresidual c
  let cur := curCFL cfg.cfl_init cfg.cfl cfg.switchstepi cfg.switchstep s.step
  -- dt based on CFL
  let dtl := computeTimeSteps m cur base1.integ s.dtl
  let s1 := assembleAndFactor E L m
    { s with base := base1, afresidual := afr, curCFL := cur, dtl := dtl, du := du0 }
  -- linear system
  let s2 := { s1 with linresi := 1.0, lininitres := 1.0, linstep := 0 }
  let s3 := (whileLoop (linCond cfg) (linearIteration E L m) cfg.linmaxiter.toNat s2).1
  -- new u and mass residual
  let u : ℤ → Vars K := fun c =>
    if isCell m c then fun i => s3.base.u c i + s3.du c i else s3.base.u c
  let resi := massResidual E m s3.du
  let initres := if s3.step = 0 then resi else s3.initres
  { s3 with base := { s3.base with u := u }, resi := resi, initres := initres,
            step := s3.step + 1 }

/-- `SteadyStateImplicitSolver::solve()`, its outer loop run for at most `fuel` passes: the
state at the exit of the loop and the number of outer iterations executed. -/
def solve (E : Externals K) (L : LinearExternals K) (cfg : SteadyConfig K) (m : UMesh2dh K)
    (s : SteadyStateImplicitSolver K) (fuel : ℕ) : SteadyStateImplicitSolver K × ℕ :=
  whileLoop (steadyCond cfg) (solveIteration E L cfg m) fuel
    { s with step := 0, resi := 1.0, initres := 1.0 }

/-- The inviscid flux classes that the constructor can create. -/
inductive FluxScheme where
  | VanLeerFlux
  | RoeFlux
  | HLLCFlux
  deriving DecidableEq

/-- The reconstruction classes that the constructor can create. -/
inductive ReconstructionScheme where
  | GreenGaussReconstruction
  | WeightedLeastSquaresReconstruction
  deriving DecidableEq

/-- The limiter classes that the constructor can create. -/
inductive LimiterScheme where
  | NoLimiter
  | WENOLimiter
  deriving DecidableEq

/-- The linear solver classes that the constructor can create. -/
inductive LinearSolverScheme where
  | SSOR_Solver
  | BJ_Solver
  deriving DecidableEq

/-- The lines that the constructors write to `std::cout`. -/
inductive Message where
  /-- "ImplicitSolverBase: Setting up implicit solver for spatial order ..." -/
  | settingUp (order : ℤ)
  /-- "ImplicitSolver: Using Roe fluxes." -/
  | usingRoe
  /-- "ImplicitSolver: Using HLLC fluxes." -/
  | usingHLLC
  /-- "ImplicitSolver: ! Flux scheme not available!" -/
  | fluxNotAvailable
  /-- "ImplicitSolver: Reconstruction scheme is ..." -/
  | reconstructionIs (reconst : String)
  /-- "ImplicitSolver: No reconstruction" -/
  | noReconstruction
  /-- "ImplicitSolver: No limiter will be used." -/
  | noLimiter
  /-- "ImplicitSolver: WENO limiter selected." -/
  | wenoSelected
  /-- "ImplicitSolver: Full-matrix SSOR solver will be used." -/
  | ssorUsed
  /-- "ImplicitSolver: Block Jacobi solver will be used." -/
  | bjUsed
  deriving DecidableEq

/-- What the constructors of `ImplicitSolverBase` and `ImplicitSolver` select: the pointer
members `inviflux`, `rec`, `lim`, `solver` (`none` for a pointer that no branch assigns) and the
lines written to `std::cout`. -/
structure SolverSetup where
  /-- the inviscid flux object -/
  inviflux : Option FluxScheme
  /-- the reconstruction object `rec` -/
  recon : ReconstructionScheme
  /-- the limiter object -/
  lim : Option LimiterScheme
  /-- the linear solver object -/
  solver : Option LinearSolverScheme
  /-- the lines written to `std::cout`, in order -/
  cout : List Message

/-- The scheme selection of the constructor `ImplicitSolverBase::ImplicitSolverBase`. -/
def ImplicitSolverBase_ctor (order : ℤ) (invflux reconst limiter : String) : SolverSetup :=
  let out : List Message := [Message.settingUp order]
  -- set inviscid flux scheme
  let fl : Option FluxScheme × List Message :=
    if invflux = "VANLEER" then (some FluxScheme.VanLeerFlux, out)
    else if invflux = "ROE" then (some FluxScheme.RoeFlux, out ++ [Message.usingRoe])
    else if invflux = "HLLC" then (some FluxScheme.HLLCFlux, out ++ [Message.usingHLLC])
    else (none, out ++ [Message.fluxNotAvailable])
  -- set reconstruction scheme
  let out := fl.2 ++ [Message.reconstructionIs reconst]
  let rc : ReconstructionScheme :=
    if reconst = "GREENGAUSS" then ReconstructionScheme.GreenGaussReconstruction
    else ReconstructionScheme.WeightedLeastSquaresReconstruction
  let out := if order = 1 then out ++ [Message.noReconstruction] else out
  -- set limiter
  let lm : Option LimiterScheme × List Message :=
    if limiter = "NONE" then (some LimiterScheme.NoLimiter, out ++ [Message.noLimiter])
    else if limiter = "WENO" then (some LimiterScheme.WENOLimiter, out ++ [Message.wenoSelected])
    else (none, out)
  { inviflux := fl.1, recon := rc, lim := lm.1, solver := none, cout := lm.2 }

/-- The scheme selection of the constructor `ImplicitSolver::ImplicitSolver`: the base class
constructor, then the linear solver. -/
def ImplicitSolver_ctor (order : ℤ) (invflux reconst limiter linear_solver : String) :
    SolverSetup :=
  let b := ImplicitSolverBase_ctor order invflux reconst limiter
  if linear_solver = "SSOR" then
    { b with solver := some LinearSolverScheme.SSOR_Solver, cout := b.cout ++ [Message.ssorUsed] }
  else if linear_solver = "BJ" then
    { b with solver := some LinearSolverScheme.BJ_Solver, cout := b.cout ++ [Message.bjUsed] }
  else b

/-- The constructor reported an error: the only error line that the constructors can write,
"! Flux scheme not available!", is among the lines written. -/
def reportsError (s : SolverSetup) : Prop := Message.fluxNotAvailable ∈ s.cout

instance (s : SolverSetup) : Decidable (reportsError s) :=
  inferInstanceAs (Decidable (Message.fluxNotAvailable ∈ s.cout))

/-- Every scheme pointer of the solver is set. -/
def usable (s : SolverSetup) : Prop :=
  s.inviflux.isSome ∧ s.lim.isSome ∧ s.solver.isSome

instance (s : SolverSetup) : Decidable (usable s) :=
  inferInstanceAs (Decidable (s.inviflux.isSome ∧ s.lim.isSome ∧ s.solver.isSome))

/-- Collaborators of `solve()` for evaluation: a factorisation that leaves the block as it
is, a point-Jacobi update with the diagonal entries of the blocks, and `res` read as ones. -/
def linStd : LinearExternals K where
  LUfactor := fun A p => (A, p)
  compute_update := fun afresidual ludiag _ _ _ _ => fun c i => afresidual c i / ludiag c i i
  resGet := fun _ _ => 1

/-- Constant members of the steady-state solver for evaluation. -/
def cfgStd : SteadyConfig K where
  cfl_init := 1
  cfl := 100
  switchstepi := 2
  switchstep := 10
  steadytol := 1 / 1000000
  steadymaxiter := 3
  lintol := 1 / 10
  linmaxiter := 2

/-- A state of `SteadyStateImplicitSolver` before `solve()` for evaluation. -/
def steadyStd : SteadyStateImplicitSolver K where
  base := baseStd
  lhs := lhsStd
  ludiag := fun _ _ _ => 1
  diagp := fun _ _ => 0
  afresidual := fun _ _ => 0
  dtl := fun _ => 1
  step := 0
  linstep := 0
  resi := 1
  linresi := 1
  initres := 1
  lininitres := 1
  curCFL := 1
  du := fun _ _ => 0
  ddu := fun _ _ => 0

/-- The two-cell mesh with every boundary face tagged inflow/outflow. -/
def farfieldMesh : UMesh2dh K :=
  { (quadMesh : UMesh2dh K) with
    ggallfa := fun f k => if k = 3 then (if f < 6 then 4 else 0)
      else (quadMesh : UMesh2dh K).ggallfa f k }

/-- A uniform state of `ImplicitSolverBase` for evaluation: `(1, 1, 0, 3)` in every cell and
as free-stream state, first order. -/
def uniformStd : ImplicitSolverBase K where
  order := 1
  u := fun _ => ![1, 1, 0, 3]
  uinf := ![1, 1, 0, 3]
  ug := ugStd
  uleft := ugStd
  uright := ugStd
  residual := fun _ _ => 1
  integ := fun _ => 0

/-- Block arrays that agree with `lhsStd` except in the lower and upper blocks of the boundary
faces. -/
def lhsStdBoundaryCleared : ImplicitSolver K where
  diag := (lhsStd : ImplicitSolver K).diag
  lower := fun f => if f < 6 then 0 else (lhsStd : ImplicitSolver K).lower f
  upper := fun f => if f < 6 then 0 else (lhsStd : ImplicitSolver K).upper f

/-- The quantity `fabs(vn) + c` that `compute_RHS` forms from one face state `U` and the face
normal `(n0, n1)`: pressure, sound speed and normal velocity of `U` alone. -/
def ownLambda (E : Externals K) (U : Vars K) (n0 n1 : K) : K :=
  let p := (g - 1) * (U 3 - 0.5 * ((U 1) ^ 2 + (U 2) ^ 2) / U 0)
  let c := E.sqrt (g * p / U 0)
  let vn := (U 1 * n0 + U 2 * n1) / U 0
  |vn| + c

/-- The CFL computation of `solve()` with the division checked: `none` when the divisor
`switchstep-switchstepi` of the interpolation branch is zero. -/
def curCFL_checked (cfl_init cfl : K) (switchstepi switchstep step : ℤ) : Option K :=
  if step < switchstepi then some cfl_init
  else if step < switchstep then
    if ((switchstep - switchstepi : ℤ) : K) = 0 then none
    else some (cfl_init + (cfl - cfl_init) / ((switchstep - switchstepi : ℤ) : K)
      * ((step - switchstepi : ℤ) : K))
  else some cfl

/-- The test that a read `res.get(iel,i)` lies inside the matrix `res`, which `solve()` sets
up with `nvars` rows and 1 column. -/
def resInBounds (iel : ℤ) (i : Fin 4) : Prop := (0 ≤ iel ∧ iel < 4) ∧ (i : ℕ) < 1

instance (iel : ℤ) (i : Fin 4) : Decidable (resInBounds iel i) :=
  inferInstanceAs (Decidable ((0 ≤ iel ∧ iel < 4) ∧ (i : ℕ) < 1))

/-- Cell states for evaluation with equal density, pressure and sound speed and different
velocity: `(1, 0, 0, 5/2)` in cell 0 and `(1, 0, 1, 3)` in every other cell. -/
def uShear : ℤ → Vars K := fun c => if c = 0 then ![1, 0, 0, 5 / 2] else ![1, 0, 1, 3]

/-- A first-order state of `ImplicitSolverBase` with the cell states `uShear`. -/
def shearStd : ImplicitSolverBase K where
  order := 1
  u := uShear
  uinf := ![1, 0, 1, 3]
  ug := ugStd
  uleft := ugStd
  uright := ugStd
  residual := fun _ _ => 0
  integ := fun _ => 0

/-- A state of `SteadyStateImplicitSolver` for evaluation inside the first outer iteration of
`solve()`, after `compute_RHS()` on the mesh `farfieldMesh` with the uniform state
`uniformStd`. -/
def steadyUniform : SteadyStateImplicitSolver K :=
  { (steadyStd : SteadyStateImplicitSolver K) with
    base := compute_RHS extStd farfieldMesh uniformStd }

/-- The test `0 <= ipoin < m->gnpoin()`: the rows of the point arrays. -/
def isPoint (m : UMesh2dh K) (p : ℤ) : Prop := 0 ≤ p ∧ p < (m.gnpoin : ℤ)

instance (m : UMesh2dh K) (p : ℤ) : Decidable (isPoint m p) :=
  inferInstanceAs (Decidable (0 ≤ p ∧ p < (m.gnpoin : ℤ)))

/-- The body of the loop over the variables for node `p` of a cell of area `area` and state
`U` in `postprocess_point`: `up(p,ivar) += U(ivar)*area; areasum(p) += area;`. -/
def pointAddCell (p : ℤ) (U : Vars K) (area : K) (acc : (ℤ → Vars K) × (ℤ → K)) :
    (ℤ → Vars K) × (ℤ → K) :=
  (List.finRange 4).foldl (fun (acc : (ℤ → Vars K) × (ℤ → K)) ivar =>
    (setEntry acc.1 p ivar (acc.1 p ivar + U ivar * area),
     Function.update acc.2 p (acc.2 p + area))) acc

/-- The body of the loop over the variables for a boundary face with end points `ip1`, `ip2`,
ghost state `U` and left-cell area `area` in `postprocess_point`. -/
def pointAddFace (ip1 ip2 : ℤ) (U : Vars K) (area : K) (acc : (ℤ → Vars K) × (ℤ → K)) :
    (ℤ → Vars K) × (ℤ → K) :=
  (List.finRange 4).foldl (fun (acc : (ℤ → Vars K) × (ℤ → K)) ivar =>
    let up1 := setEntry acc.1 ip1 ivar (acc.1 ip1 ivar + U ivar * area)
    let up2 := setEntry up1 ip2 ivar (up1 ip2 ivar + U ivar * area)
    let a1 := Function.update acc.2 ip1 (acc.2 ip1 + area)
    let a2 := Function.update a1 ip2 (a1 ip2 + area)
    (up2, a2)) acc

/-- The arrays `up` and `areasum` of `postprocess_point` after the loop over the cells and the
loop over the boundary faces, before the division. -/
def pointSums (m : UMesh2dh K) (u : ℤ → Vars K) (ug : ℕ → Vars K) : (ℤ → Vars K) × (ℤ → K) :=
  let acc1 := (List.range m.gnelem).foldl (fun acc (ielem : ℕ) =>
    (List.range (m.gnnode ielem)).foldl (fun acc inode =>
      pointAddCell (m.ginpoel ielem inode) (u ielem) (m.garea ielem) acc) acc)
    ((fun _ => 0, fun _ => 0) : (ℤ → Vars K) × (ℤ → K))
  (List.range m.gnbface).foldl (fun acc iface =>
    pointAddFace (m.gintfac iface 2) (m.gintfac iface 3) (ug iface)
      (m.garea (m.gintfac iface 0)) acc) acc1

/-- The arrays `scalars` (density, Mach number, pressure) and `velocities` that
`postprocess_point` fills. -/
structure PointData (K : Type) where
  /-- columns 0, 1, 2: density, Mach number, pressure -/
  scalars : ℤ → Fin 3 → K
  /-- columns 0, 1: the velocity components -/
  velocities : ℤ → Fin 2 → K

/-- `ImplicitSolverBase::postprocess_point()`; the rows outside `0 <= ipoin < gnpoin` are not
rows of the arrays and are given as 0. -/
def postprocess_point (E : Externals K) (m : UMesh2dh K) (u : ℤ → Vars K) (ug : ℕ → Vars K) :
    PointData K :=
  let s := pointSums m u ug
  let up : ℤ → Vars K := fun p ivar => s.1 p ivar / s.2 p
  let velocities : ℤ → Fin 2 → K := fun p => ![up p 1 / up p 0, up p 2 / up p 0]
  let vmag2 : ℤ → K := fun p => velocities p 0 ^ 2 + velocities p 1 ^ 2
  let pressure : ℤ → K := fun p => up p 0 * (g - 1) * (up p 3 / up p 0 - 0.5 * vmag2 p)
  let c : ℤ → K := fun p => E.sqrt (g * pressure p / up p 0)
  { scalars := fun p => if isPoint m p then ![up p 0, E.sqrt (vmag2 p) / c p, pressure p] else 0
    velocities := fun p => if isPoint m p then velocities p else 0 }

/-- The accessors of `amat::Array2d<double>` that the VTU writers call. -/
structure Array2d (K : Type) where
  /-- number of columns -/
  cols : ℕ
  /-- number of stored entries -/
  msize : ℕ
  /-- entry of a row and a column -/
  get : ℕ → ℕ → K

/-- The numbers that a VTU writer puts into the data arrays of the file, in the order written;
the XML text around them is left out. -/
structure VtuFile (K : Type) where
  /-- cell scalar data: one list of cell values per scalar -/
  cellScalars : List (List K)
  /-- cell vector data: one row per cell -/
  cellVectors : List (List K)
  /-- `Points`: one row of three coordinates per point -/
  points : List (List K)
  /-- `connectivity`: one row of point indices per cell -/
  connectivity : List (List ℤ)
  /-- `offsets`: one number per cell -/
  offsets : List ℕ
  /-- `types`: one VTK cell type code per cell -/
  types : List ℕ

/-- The `elemcode` that `writeMeshToVtu` writes for a cell with `nnode` nodes. -/
def elemcode_writeMeshToVtu (nnode : ℕ) : ℕ :=
  if nnode = 4 then 9
  else if nnode = 6 then 22
  else if nnode = 8 then 23
  else if nnode = 9 then 23
  else 5

/-- The `elemcode` that `writeScalarsVectorToVtu_CellData` writes for a cell with `nnode`
nodes. -/
def elemcode_CellData (nnode : ℕ) : ℕ :=
  if nnode = 4 then 9
  else if nnode = 6 then 22
  else if nnode = 8 then 23
  else if nnode = 9 then 28
  else 5

/-- The row of point indices `m.ginpoel(i,j)`, `j < m.gnnode(i)`, written for cell `i`. -/
def connectivityRow (m : UMesh2dh K) (i : ℕ) : List ℤ :=
  (List.range (m.gnnode (i : ℤ))).map (fun j => m.ginpoel (i : ℤ) j)

/-- `writeMeshToVtu(fname, m)`: the numbers written to the file. -/
def writeMeshToVtu (m : UMesh2dh K) : VtuFile K where
  cellScalars := []
  cellVectors := []
  points := (List.range m.gnpoin).map (fun (i : ℕ) => [m.gcoords (i : ℤ) 0, m.gcoords (i : ℤ) 1, 0.0])
  connectivity := (List.range m.gnelem).map (connectivityRow m)
  offsets := (List.range m.gnelem).map (fun (i : ℕ) => m.gnnode (i : ℤ) * (i + 1))
  types := (List.range m.gnelem).map (fun (i : ℕ) => elemcode_writeMeshToVtu (m.gnnode (i : ℤ)))

/-- `writeScalarsVectorToVtu_CellData(fname, m, x, scaname, y, vecname)`: the numbers written
to the file.  The offsets are the values of the running total `totalcells`. -/
def writeScalarsVectorToVtu_CellData (m : UMesh2dh K) (x y : Array2d K) : VtuFile K where
  cellScalars :=
    if x.msize > 0 then
      (List.range x.cols).map (fun nsca => (List.range m.gnelem).map (fun i => x.get i nsca))
    else []
  cellVectors :=
    if y.msize > 0 then
      (List.range m.gnelem).map (fun i =>
        (List.range y.cols).map (fun idim => y.get i idim) ++ (if y.cols = 2 then [0.0] else []))
    else []
  points := (List.range m.gnpoin).map (fun (i : ℕ) =>
    (List.range 2).map (fun idim => m.gcoords (i : ℤ) idim) ++ [0.0])
  connectivity := (List.range m.gnelem).map (connectivityRow m)
  offsets := ((List.range m.gnelem).foldl (fun (acc : ℕ × List ℕ) (i : ℕ) =>
    (acc.1 + m.gnnode (i : ℤ), acc.2 ++ [acc.1 + m.gnnode (i : ℤ)])) (0, [])).2
  types := (List.range m.gnelem).map (fun (i : ℕ) => elemcode_CellData (m.gnnode (i : ℤ)))

/-- A hybrid mesh for evaluation: the triangle with the points `(0,0)`, `(4,0)`, `(4,3)`
(cell 0) and the rectangle with the points `(4,0)`, `(5,0)`, `(5,3)`, `(4,3)` (cell 1).
Faces 0 to 4 are the boundary faces, all inflow/outflow; face 5 is the interior face between
the points 1 and 2, left cell 0, right cell 1, normal `(1, 0)`. -/
def hybridMesh : UMesh2dh K where
  gnelem := 2
  gnbface := 5
  gnaface := 6
  gintfac := fun f k => (([[0, 2, 0, 1], [1, 3, 1, 3], [1, 4, 3, 4], [1, 5, 4, 2],
    [0, 6, 2, 0], [0, 1, 1, 2]] : List (List ℤ)).getD f []).getD k 0
  ggallfa := fun f k => (([[0, -1, 4, 4], [0, -1, 1, 4], [1, 0, 3, 4], [0, 1, 1, 4],
    [-3 / 5, 4 / 5, 5, 4], [1, 0, 3, 0]] : List (List K)).getD f []).getD k 0
  gnfael := fun c => if c = 0 then 3 else 4
  gelemface := fun c k => (([[0, 5, 4], [1, 2, 3, 5]] : List (List ℕ)).getD c.toNat []).getD k 0
  garea := fun c => if c = 0 then 6 else 3
  gnpoin := 5
  gnnode := fun c => if c = 0 then 3 else 4
  ginpoel := fun c k => (([[0, 1, 2], [1, 3, 4, 2]] : List (List ℤ)).getD c.toNat []).getD k 0
  gnnofa := 2
  gcoords := fun p k => (([[0, 0], [4, 0], [4, 3], [5, 0], [5, 3]] :
    List (List K)).getD p.toNat []).getD k 0
  gintfacbtags := fun f _ => ([4, 4, 4, 4, 4] : List ℤ).getD f 0
  gfacemetric := fun f k => (([[0, -1, 4], [0, -1, 1], [1, 0, 3], [0, 1, 1],
    [-3 / 5, 4 / 5, 5], [1, 0, 3]] : List (List K)).getD f []).getD k 0

/-- A mesh of one 9-node quadrilateral for evaluation: the square with corners `(0,0)`,
`(2,0)`, `(2,2)`, `(0,2)` (points 0 to 3), the mid-side points 4 to 7 and the cell-centred
point 8; the four sides are the boundary faces, all inflow/outflow, with 3 nodes each. -/
def quad9Mesh : UMesh2dh K where
  gnelem := 1
  gnbface := 4
  gnaface := 4
  gintfac := fun f k => (([[0, 1, 0, 1, 4], [0, 2, 1, 2, 5], [0, 3, 2, 3, 6],
    [0, 4, 3, 0, 7]] : List (List ℤ)).getD f []).getD k 0
  ggallfa := fun f k => (([[0, -1, 2, 4], [1, 0, 2, 4], [0, 1, 2, 4], [-1, 0, 2, 4]] :
    List (List K)).getD f []).getD k 0
  gnfael := fun _ => 4
  gelemface := fun _ k => ([0, 1, 2, 3] : List ℕ).getD k 0
  garea := fun _ => 4
  gnpoin := 9
  gnnode := fun _ => 9
  ginpoel := fun _ k => ([0, 1, 2, 3, 4, 5, 6, 7, 8] : List ℤ).getD k 0
  gnnofa := 3
  gcoords := fun p k => (([[0, 0], [2, 0], [2, 2], [0, 2], [1, 0], [2, 1], [1, 2], [0, 1],
    [1, 1]] : List (List K)).getD p.toNat []).getD k 0
  gintfacbtags := fun f _ => ([4, 4, 4, 4] : List ℤ).getD f 0
  gfacemetric := fun f k => (([[0, -1, 2], [1, 0, 2], [0, 1, 2], [-1, 0, 2]] :
    List (List K)).getD f []).getD k 0

/-- The functions of `IdealGasPhysics` that `FlowOutput` calls; their code is outside the
translated files. -/
structure IdealGasPhysics (K : Type) where
  /-- `getFreestreamPressure()` -/
  getFreestreamPressure : K
  /-- `getPressureFromConserved(&u(lelem,0))`, applied to the state of cell `lelem` -/
  getPressureFromConserved : Vars K → K
  /-- `getViscosityCoeffFromConserved(&u(lelem,0))`, applied to the state of cell `lelem` -/
  getViscosityCoeffFromConserved : Vars K → K

/-- The members of `FlowOutput` besides the mesh, and what its code leaves open. -/
structure FlowOutput (K : Type) where
  /-- the physics object `phy` -/
  phy : IdealGasPhysics K
  /-- unit vector `av` in the direction of the free-stream flow -/
  av : Fin 2 → K
  /-- `space->getGradients(u, grad)`: the gradients of the conserved variables of each cell,
  first index the direction, second index the variable -/
  getGradients : (ℤ → Vars K) → (ℤ → Fin 2 → Vars K)
  /-- the value read by `ijp[inofa]` for `inofa >= NDIM`, outside the array `ijp` -/
  ijpBeyond : ℕ → ℤ

/-- The locals of `computeSurfaceData` that its face loop updates, and the positions of
`output` that the loop has accessed so far, in order. -/
structure SurfaceData (K : Type) where
  /-- face iteration counter for this boundary marker -/
  facecoun : ℕ
  /-- total length of the faces with this boundary marker -/
  totallen : K
  /-- friction drag -/
  Cdf : K
  /-- pressure drag -/
  Cdp : K
  /-- lift -/
  Cl : K
  /-- the matrix `output`: columns 0 and 1 the face centre, column 2 `Cp`, column 3 `Cf` -/
  output : ℕ → Vars K
  /-- the pairs (row, column) of the accesses `output(row, column)` -/
  accesses : List (ℕ × ℕ)

/-- The velocity gradient tensor `gradu` that `computeSurfaceData` forms from the state `U` of
the left cell and the gradients `G` of its conserved variables. -/
def gradu (U : Vars K) (G : Fin 2 → Vars K) : Matrix (Fin 2) (Fin 2) K :=
  !![(G 0 1 * U 0 - U 1 * G 0 0) / (U 0 * U 0), (G 1 1 * U 0 - U 1 * G 1 0) / (U 0 * U 0);
     (G 0 2 * U 0 - U 2 * G 0 0) / (U 0 * U 0), (G 1 2 * U 0 - U 2 * G 1 0) / (U 0 * U 0)]

/-- The wall shear stress `tauw` of `computeSurfaceData` at boundary face `iface`. -/
def tauw (F : FlowOutput K) (m : UMesh2dh K) (u : ℤ → Vars K) (grad : ℤ → Fin 2 → Vars K)
    (iface : ℕ) : K :=
  let lelem := m.gintfac iface 0
  let n : Fin 2 → K := fun j => m.gfacemetric iface j
  let muhat := F.phy.getViscosityCoeffFromConserved (u lelem)
  let gu := gradu (u lelem) (grad lelem)
  muhat * ((2.0 * gu 0 0 * n 0 + (gu 0 1 + gu 1 0) * n 1) * n 1
    + ((gu 1 0 + gu 0 1) * n 0 + 2.0 * gu 1 1 * n 1) * (-n 0))

/-- The coordinate `coord[j]` of the centre of boundary face `iface` in `computeSurfaceData`:
the mean over `inofa < m->gnnofa()` of the coordinates of the points `ijp[inofa]`. -/
def faceCentre (F : FlowOutput K) (m : UMesh2dh K) (iface : ℕ) (j : ℕ) : K :=
  let ijp : ℕ → ℤ := fun inofa =>
    if inofa = 0 then m.gintfac iface 2 else if inofa = 1 then m.gintfac iface 3
    else F.ijpBeyond inofa
  (List.range m.gnnofa).foldl (fun c inofa => c + m.gcoords (ijp inofa) j) 0 / (m.gnnofa : K)

/-- The body of the face loop of `FlowOutput::computeSurfaceData` for a face with the marker
`iwbcm`. -/
def surfaceFace (F : FlowOutput K) (m : UMesh2dh K) (u : ℤ → Vars K)
    (grad : ℤ → Fin 2 → Vars K) (acc : SurfaceData K) (iface : ℕ) : SurfaceData K :=
  let pinf := F.phy.getFreestreamPressure
  let flownormal : Fin 2 → K := ![-F.av 1, F.av 0]
  let lelem := m.gintfac iface 0
  let n : Fin 2 → K := fun j => m.gfacemetric iface j
  let len := m.gfacemetric iface 2
  let out := setEntry acc.output acc.facecoun 0 (faceCentre F m iface 0)
  let out := setEntry out acc.facecoun 1 (faceCentre F m iface 1)
  let out := setEntry out acc.facecoun 2
    ((F.phy.getPressureFromConserved (u lelem) - pinf) * 2.0)
  let out := setEntry out acc.facecoun 3 (2.0 * tauw F m u grad iface)
  -- face normal dot free-stream direction, dot the direction perpendicular to it, and face
  -- tangent dot free-stream direction
  let ndotf := n 0 * F.av 0 + n 1 * F.av 1
  let ndotnf := n 0 * flownormal 0 + n 1 * flownormal 1
  let tdotf := n 1 * F.av 0 - n 0 * F.av 1
  { facecoun := acc.facecoun + 1
    totallen := acc.totallen + len
    Cdp := acc.Cdp + out acc.facecoun 2 * ndotf * len
    Cdf := acc.Cdf + out acc.facecoun 3 * tdotf * len
    Cl := acc.Cl + out acc.facecoun 2 * ndotnf * len
    output := out
    accesses := acc.accesses ++ [(acc.facecoun, 0), (acc.facecoun, 1), (acc.facecoun, 2),
      (acc.facecoun, 3), (acc.facecoun, 2), (acc.facecoun, 3), (acc.facecoun, 2)] }

/-- The face loop of `FlowOutput::computeSurfaceData` over the first `n` boundary faces. -/
def surfaceLoop (F : FlowOutput K) (m : UMesh2dh K) (u : ℤ → Vars K)
    (grad : ℤ → Fin 2 → Vars K) (iwbcm : ℤ) (output : ℕ → Vars K) (n : ℕ) : SurfaceData K :=
  (List.range n).foldl (fun acc iface =>
    if m.gintfacbtags iface 0 = iwbcm then surfaceFace F m u grad acc iface else acc)
    { facecoun := 0, totallen := 0, Cdf := 0, Cdp := 0, Cl := 0, output := output,
      accesses := [] }

/-- `FlowOutput::computeSurfaceData(u, grad, iwbcm, output)`: the locals at the return, with
`Cl`, `Cdp`, `Cdf` the members of the returned tuple, and `output` as the function leaves it. -/
def computeSurfaceData (F : FlowOutput K) (m : UMesh2dh K) (u : ℤ → Vars K)
    (grad : ℤ → Fin 2 → Vars K) (iwbcm : ℤ) (output : ℕ → Vars K) : SurfaceData K :=
  let acc := surfaceLoop F m u grad iwbcm output m.gnbface
  -- normalize drag and lift by reference area
  { acc with Cdp := acc.Cdp / acc.totallen, Cdf := acc.Cdf / acc.totallen,
             Cl := acc.Cl / acc.totallen }

/-- The counting loop of `FlowOutput::exportSurfaceData`: `nwbfaces[im]` and `nobfaces[im]`,
the numbers of boundary faces whose marker is `wbcm[im]` and `obcm[im]`. -/
def countMarkerFaces (m : UMesh2dh K) (wbcm obcm : List ℤ) : (ℕ → ℕ) × (ℕ → ℕ) :=
  (List.range m.gnbface).foldl (fun (acc : (ℕ → ℕ) × (ℕ → ℕ)) iface =>
    let nw := (List.range wbcm.length).foldl (fun (nw : ℕ → ℕ) im =>
      if m.gintfacbtags iface 0 = wbcm.getD im 0 then Function.update nw im (nw im + 1)
      else nw) acc.1
    let no := (List.range obcm.length).foldl (fun (no : ℕ → ℕ) im =>
      if m.gintfacbtags iface 0 = obcm.getD im 0 then Function.update no im (no im + 1)
      else no) acc.2
    (nw, no)) (fun _ => 0, fun _ => 0)

/-- What `exportSurfaceData` holds for one boundary marker when it writes the file of that
marker: the number of rows of the matrix `output` it allocated, and the matrix, the face
counter and the coefficients after the face loop. -/
structure SurfaceFile (K : Type) where
  /-- `output.rows()` -/
  rows : ℕ
  /-- `output.cols()` -/
  cols : ℕ
  /-- the locals after the face loop -/
  data : SurfaceData K

/-- The body of the face loop of `exportSurfaceData` for a face with an `other' marker: the
face centre and the two velocity components of the left cell. -/
def otherFace (F : FlowOutput K) (m : UMesh2dh K) (u : ℤ → Vars K) (acc : SurfaceData K)
    (iface : ℕ) : SurfaceData K :=
  let lelem := m.gintfac iface 0
  let out := setEntry acc.output acc.facecoun 0 (faceCentre F m iface 0)
  let out := setEntry out acc.facecoun 1 (faceCentre F m iface 1)
  let out := setEntry out acc.facecoun 2 (u lelem 1 / u lelem 0)
  let out := setEntry out acc.facecoun 3 (u lelem 2 / u lelem 0)
  { acc with
    facecoun := acc.facecoun + 1
    output := out
    accesses := acc.accesses ++ [(acc.facecoun, 0), (acc.facecoun, 1), (acc.facecoun, 2),
      (acc.facecoun, 3)] }

/-- `FlowOutput::exportSurfaceData(u, wbcm, obcm, basename)`: for every wall marker and for
every other marker what the function holds when it writes the file of the marker.  `fresh`
is the content of a matrix `output` right after its allocation. -/
def exportSurfaceData (F : FlowOutput K) (m : UMesh2dh K) (u : ℤ → Vars K)
    (wbcm obcm : List ℤ) (fresh : ℕ → Vars K) : List (SurfaceFile K) × List (SurfaceFile K) :=
  let grad := F.getGradients u
  let n := countMarkerFaces m wbcm obcm
  ((List.range wbcm.length).map (fun im =>
      { rows := n.1 im, cols := 2 + 2,
        data := computeSurfaceData F m u grad (wbcm.getD im 0) fresh }),
    (List.range obcm.length).map (fun im =>
      { rows := n.2 im, cols := 2 + 2,
        data := (List.range m.gnbface).foldl (fun acc iface =>
          if m.gintfacbtags iface 0 = obcm.getD im 0 then otherFace F m u acc iface else acc)
          { facecoun := 0, totallen := 0, Cdf := 0, Cdp := 0, Cl := 0, output := fresh,
            accesses := [] } }))

/-- Collaborators of `FlowOutput` for evaluation: free-stream pressure 1, the pressure of the
ideal gas with `g = 1.4`, viscosity coefficient 1, free stream along the x axis, and a
velocity field `(y, 0)` times the density as gradients of the conserved variables. -/
def flowStd : FlowOutput K where
  phy :=
    { getFreestreamPressure := 1
      getPressureFromConserved := fun U =>
        (g - 1) * (U 3 - 0.5 * ((U 1) ^ 2 + (U 2) ^ 2) / U 0)
      getViscosityCoeffFromConserved := fun _ => 1 }
  av := ![1, 0]
  getGradients := fun u c => ![![0, 0, 0, 0], ![0, u c 0, 0, 0]]
  ijpBeyond := fun _ => 0

/-- The number of boundary faces before face `f` that carry the marker `iwbcm`. -/
def markerRank (m : UMesh2dh K) (iwbcm : ℤ) (f : ℕ) : ℕ :=
  (List.range f).countP (fun k => decide (m.gintfacbtags k 0 = iwbcm))

/-- The pressure coefficient of a boundary face as the claim states it: `2*(p - p_inf)` with
`p` the pressure of the left cell. -/
def surfaceCp (F : FlowOutput K) (m : UMesh2dh K) (u : ℤ → Vars K) (f : ℕ) : K :=
  2 * (F.phy.getPressureFromConserved (u (m.gintfac f 0)) - F.phy.getFreestreamPressure)

/-- The skin-friction coefficient of a boundary face as the claim states it: `2*tau_w` with
`tau_w = mu*((grad v + grad v^T) n).t`, `n` the face normal, `t = (n1, -n0)` and `grad v` the
velocity gradient tensor of the left cell. -/
def surfaceCf (F : FlowOutput K) (m : UMesh2dh K) (u : ℤ → Vars K) (grad : ℤ → Fin 2 → Vars K)
    (f : ℕ) : K :=
  2 * (F.phy.getViscosityCoeffFromConserved (u (m.gintfac f 0))
    * Matrix.dotProduct
        ((gradu (u (m.gintfac f 0)) (grad (m.gintfac f 0))
          + (gradu (u (m.gintfac f 0)) (grad (m.gintfac f 0))).transpose).mulVec
          ![m.gfacemetric f 0, m.gfacemetric f 1])
        ![m.gfacemetric f 1, -m.gfacemetric f 0])

end defs

section theorems

variable {K : Type} [LinearOrderedField K]

theorem finRange_four : List.finRange 4 = [0, 1, 2, 3] := by decide

theorem foldl_range_succ {α : Type} (f : α → ℕ → α) (a : α) (n : ℕ) :
    (List.range (n + 1)).foldl f a = f ((List.range n).foldl f a) n := by
  simp [List.range_succ]

omit [LinearOrderedField K] in
theorem setEntry_apply {ι : Type} [DecidableEq ι] (A : ι → Vars K) (i : ι) (j : Fin 4) (x : K)
    (i' : ι) (j' : Fin 4) :
    setEntry A i j x i' j' = if i' = i ∧ j' = j then x else A i' j' := by
  unfold setEntry
  by_cases hi : i' = i
  · subst hi
    by_cases hj : j' = j
    · subst hj; simp
    · simp [hj]
  · simp [hi]

/-- A loop over the variables whose pass `j` adds `D c j` to entry `(c, j)` of every row `c`
adds `D` entrywise. -/
theorem foldl_entrywise {ι : Type} (step : (ι → Vars K) → Fin 4 → (ι → Vars K))
    (D : ι → Vars K)
    (hstep : ∀ r j c v, step r j c v = r c v + (if v = j then D c v else 0))
    (L : List (Fin 4)) (hL : L.Nodup) (r : ι → Vars K) (c : ι) (v : Fin 4) :
    (L.foldl step r) c v = r c v + (if v ∈ L then D c v else 0) := by
  induction L generalizing r with
  | nil => simp
  | cons j L ih =>
    have hj : j ∉ L := (List.nodup_cons.mp hL).1
    rw [List.foldl_cons, ih (List.nodup_cons.mp hL).2, hstep]
    by_cases h1 : v = j
    · subst h1; simp [hj]
    · simp [h1]

theorem foldl_finRange_entrywise {ι : Type} (step : (ι → Vars K) → Fin 4 → (ι → Vars K))
    (D : ι → Vars K)
    (hstep : ∀ r j c v, step r j c v = r c v + (if v = j then D c v else 0))
    (r : ι → Vars K) (c : ι) (v : Fin 4) :
    ((List.finRange 4).foldl step r) c v = r c v + D c v := by
  rw [foldl_entrywise step D hstep _ (List.nodup_finRange 4)]
  simp

/-- Closed form of the residual after the scatter of one face. -/
theorem rhsFace_residual (E : Externals K) (m : UMesh2dh K) (uleft uright : ℕ → Vars K)
    (acc : (ℤ → Vars K) × (ℤ → K)) (ied : ℕ) (c : ℤ) (ivar : Fin 4) :
    (rhsFace E m uleft uright acc ied).1 c ivar
      = acc.1 c ivar + (-(if c = m.gintfac ied 0 then fluxp E m uleft uright ied ivar else 0)
        + (if isCell m (m.gintfac ied 1) ∧ c = m.gintfac ied 1
            then fluxp E m uleft uright ied ivar else 0)) := by
  simp only [rhsFace]
  refine foldl_finRange_entrywise _ (fun c v => -(if c = m.gintfac ied 0 then
    fluxp E m uleft uright ied v else 0) + (if isCell m (m.gintfac ied 1) ∧ c = m.gintfac ied 1
      then fluxp E m uleft uright ied v else 0)) ?_ acc.1 c ivar
  intro r j c v
  generalize m.gintfac ied 0 = lel
  generalize m.gintfac ied 1 = rel
  generalize fluxp E m uleft uright ied = F
  by_cases hv : v = j
  · subst hv
    by_cases hlr : lel = rel
    · subst hlr
      by_cases hr : isCell m lel <;> by_cases h0 : c = lel <;>
        simp [hr, h0, setEntry_apply, sub_eq_add_neg]
    · have hrl : ¬ rel = lel := fun h => hlr h.symm
      by_cases hr : isCell m rel <;> by_cases h0 : c = lel <;> by_cases h1 : c = rel <;>
        simp_all [setEntry_apply] <;> ring
  · by_cases hr : isCell m rel <;> simp [hr, hv, setEntry_apply]

/-- The sum of the residuals over the cells changes, at one face with its left cell in the
mesh, by the flux of the face when the face has no right cell, and not at all otherwise. -/
theorem rhsFace_sum (E : Externals K) (m : UMesh2dh K) (uleft uright : ℕ → Vars K)
    (acc : (ℤ → Vars K) × (ℤ → K)) (ied : ℕ) (ivar : Fin 4)
    (hl : isCell m (m.gintfac ied 0)) :
    ∑ c in Finset.Ico (0 : ℤ) m.gnelem, (rhsFace E m uleft uright acc ied).1 c ivar
      = ∑ c in Finset.Ico (0 : ℤ) m.gnelem, acc.1 c ivar
        - (if isCell m (m.gintfac ied 1) then 0 else fluxp E m uleft uright ied ivar) := by
  simp only [rhsFace_residual, Finset.sum_add_distrib, Finset.sum_neg_distrib]
  have h0 : ∑ c in Finset.Ico (0 : ℤ) m.gnelem,
      (if c = m.gintfac ied 0 then fluxp E m uleft uright ied ivar else 0)
        = fluxp E m uleft uright ied ivar := by
    rw [Finset.sum_ite_eq']
    simp [Finset.mem_Ico, hl.1, hl.2]
  rw [h0]
  by_cases hr : isCell m (m.gintfac ied 1)
  · have h1 : ∑ c in Finset.Ico (0 : ℤ) m.gnelem,
        (if isCell m (m.gintfac ied 1) ∧ c = m.gintfac ied 1
          then fluxp E m uleft uright ied ivar else 0) = fluxp E m uleft uright ied ivar := by
      simp only [hr, true_and]
      rw [Finset.sum_ite_eq']
      simp [Finset.mem_Ico, hr.1, hr.2]
    rw [h1]; simp [hr]
  · simp [hr, sub_eq_add_neg]

/-- The sum of the residuals over the cells after the first `n` faces of the face loop. -/
theorem rhsFace_foldl_sum (E : Externals K) (m : UMesh2dh K) (uleft uright : ℕ → Vars K)
    (acc : (ℤ → Vars K) × (ℤ → K)) (ivar : Fin 4) (n : ℕ)
    (hl : ∀ f, f < n → isCell m (m.gintfac f 0)) :
    ∑ c in Finset.Ico (0 : ℤ) m.gnelem,
        ((List.range n).foldl (rhsFace E m uleft uright) acc).1 c ivar
      = ∑ c in Finset.Ico (0 : ℤ) m.gnelem, acc.1 c ivar
        - ∑ f in Finset.range n,
            (if isCell m (m.gintfac f 1) then 0 else fluxp E m uleft uright f ivar) := by
  induction n with
  | zero => simp
  | succ n ih =>
    rw [foldl_range_succ, rhsFace_sum _ _ _ _ _ _ _ (hl n (Nat.lt_succ_self n)),
      ih (fun f hf => hl f (Nat.lt_succ_of_lt hf)), Finset.sum_range_succ]
    ring

/-- C1 (flux scatter of an interior face): at a face whose right cell is a cell of the mesh
and differs from its left cell, for every variable the loop body of `compute_RHS` subtracts
the length-scaled flux `fluxp` from the residual of the left cell and adds the very same
value `fluxp` to the residual of the right cell. -/
theorem compute_RHS_interior_face_scatter (E : Externals K) (m : UMesh2dh K)
    (uleft uright : ℕ → Vars K) (acc : (ℤ → Vars K) × (ℤ → K)) (ied : ℕ) (ivar : Fin 4)
    (hrel : isCell m (m.gintfac ied 1)) (hne : m.gintfac ied 0 ≠ m.gintfac ied 1) :
    (rhsFace E m uleft uright acc ied).1 (m.gintfac ied 0) ivar
        = acc.1 (m.gintfac ied 0) ivar - fluxp E m uleft uright ied ivar
      ∧ (rhsFace E m uleft uright acc ied).1 (m.gintfac ied 1) ivar
        = acc.1 (m.gintfac ied 1) ivar + fluxp E m uleft uright ied ivar := by
  constructor
  · rw [rhsFace_residual]
    simp [hne, sub_eq_add_neg]
  · rw [rhsFace_residual]
    simp [hrel, Ne.symm hne]

/-- C2 (flux conservation): on a mesh whose boundary faces come first, whose faces all have
their left cell in the mesh, whose interior faces have their right cell in the mesh and whose
boundary faces do not, after `compute_RHS` the residuals of each variable sum over the cells
to minus the sum over the boundary faces of the length-scaled face flux. -/
theorem compute_RHS_conservation (E : Externals K) (m : UMesh2dh K) (s : ImplicitSolverBase K)
    (ivar : Fin 4) (hface : m.gnbface ≤ m.gnaface)
    (hleft : ∀ f, f < m.gnaface → isCell m (m.gintfac f 0))
    (hint : ∀ f, m.gnbface ≤ f → f < m.gnaface → isCell m (m.gintfac f 1))
    (hbnd : ∀ f, f < m.gnbface → ¬ isCell m (m.gintfac f 1)) :
    ∑ c in Finset.Ico (0 : ℤ) m.gnelem, (compute_RHS E m s).residual c ivar
      = - ∑ f in Finset.range m.gnbface,
          fluxp E m (compute_RHS E m s).uleft (compute_RHS E m s).uright f ivar := by
  simp only [compute_RHS]
  rw [rhsFace_foldl_sum _ _ _ _ _ _ _ hleft]
  have hz : ∑ c in Finset.Ico (0 : ℤ) m.gnelem, (zeros m s.residual, s.integ).1 c ivar = 0 := by
    apply Finset.sum_eq_zero
    intro c hc
    have hc' : isCell m c := Finset.mem_Ico.mp hc
    simp [zeros, hc']
  rw [hz, zero_sub, neg_inj, Finset.range_eq_Ico,
    ← Finset.sum_Ico_consecutive _ (Nat.zero_le _) hface]
  have h2 : ∀ (F : ℕ → K), ∑ f in Finset.Ico m.gnbface m.gnaface,
      (if isCell m (m.gintfac f 1) then 0 else F f) = 0 := by
    intro F
    apply Finset.sum_eq_zero
    intro f hf
    rw [Finset.mem_Ico] at hf
    simp [hint f hf.1 hf.2]
  rw [h2, add_zero]
  apply Finset.sum_congr rfl
  intro f hf
  rw [Finset.mem_Ico] at hf
  simp [hbnd f hf.2]

/-- The ramp term `(cfl - cfl_init)/(switchstep - switchstepi)*(step - switchstepi)` is a
fraction `θ` in `[0, 1]` of `cfl - cfl_init`. -/
theorem ramp_fraction (a b : K) (d t : ℤ) (ht : 0 ≤ t) (htd : t < d) :
    ∃ θ : K, 0 ≤ θ ∧ θ < 1 ∧ θ = (t : K) / (d : K) ∧ (b - a) / (d : K) * (t : K) = (b - a) * θ := by
  have hd : (0 : K) < (d : K) := by exact_mod_cast lt_of_le_of_lt ht htd
  have ht' : (0 : K) ≤ (t : K) := by exact_mod_cast ht
  have htd' : (t : K) < (d : K) := by exact_mod_cast htd
  refine ⟨(t : K) / (d : K), div_nonneg ht' hd.le, (div_lt_one hd).mpr htd', rfl, ?_⟩
  field_simp

/-- C5 (CFL plateaux): before the ramp start `switchstepi` the CFL number is `cfl_init`, and,
when `switchstepi <= switchstep`, from the ramp end `switchstep` on it is `cfl`. -/
theorem curCFL_plateaux (cfl_init cfl : K) (switchstepi switchstep step : ℤ) :
    (step < switchstepi → curCFL cfl_init cfl switchstepi switchstep step = cfl_init)
      ∧ (switchstepi ≤ switchstep → switchstep ≤ step →
          curCFL cfl_init cfl switchstepi switchstep step = cfl) := by
  constructor
  · intro h
    simp [curCFL, h]
  · intro h1 h2
    have h3 : ¬ step < switchstepi := not_lt.mpr (le_trans h1 h2)
    have h4 : ¬ step < switchstep := not_lt.mpr h2
    simp [curCFL, h3, h4]

/-- The CFL number always lies between `cfl_init` and `cfl` when `cfl_init <= cfl`. -/
theorem curCFL_mem_Icc (cfl_init cfl : K) (switchstepi switchstep step : ℤ)
    (h : cfl_init ≤ cfl) :
    cfl_init ≤ curCFL cfl_init cfl switchstepi switchstep step
      ∧ curCFL cfl_init cfl switchstepi switchstep step ≤ cfl := by
  unfold curCFL
  split_ifs with h1 h2
  · exact ⟨le_refl _, h⟩
  · obtain ⟨θ, h0, h1', -, he⟩ := ramp_fraction cfl_init cfl (switchstep - switchstepi)
      (step - switchstepi) (by omega) (by omega)
    rw [he]
    constructor <;> nlinarith
  · exact ⟨h, le_refl _⟩

/-- C6 (CFL ramp): for `switchstepi <= step < switchstep` the CFL number is
`cfl_init + (cfl - cfl_init)*(step - switchstepi)/(switchstep - switchstepi)` and lies between
`min cfl_init cfl` and `max cfl_init cfl`; and when `cfl_init <= cfl` the schedule is
non-decreasing in the step index over all steps (in exact arithmetic). -/
theorem curCFL_ramp (cfl_init cfl : K) (switchstepi switchstep : ℤ) :
    (∀ step : ℤ, switchstepi ≤ step → step < switchstep →
        curCFL cfl_init cfl switchstepi switchstep step
            = cfl_init + (cfl - cfl_init) * ((step : K) - (switchstepi : K))
                / ((switchstep : K) - (switchstepi : K))
          ∧ min cfl_init cfl ≤ curCFL cfl_init cfl switchstepi switchstep step
          ∧ curCFL cfl_init cfl switchstepi switchstep step ≤ max cfl_init cfl)
      ∧ (cfl_init ≤ cfl → ∀ step₁ step₂ : ℤ, step₁ ≤ step₂ →
          curCFL cfl_init cfl switchstepi switchstep step₁
            ≤ curCFL cfl_init cfl switchstepi switchstep step₂) := by
  constructor
  · intro step h1 h2
    have e : curCFL cfl_init cfl switchstepi switchstep step
        = cfl_init + (cfl - cfl_init) / ((switchstep - switchstepi : ℤ) : K)
            * ((step - switchstepi : ℤ) : K) := by
      simp [curCFL, not_lt.mpr h1, h2]
    obtain ⟨θ, h0, h1', -, he⟩ := ramp_fraction cfl_init cfl (switchstep - switchstepi)
      (step - switchstepi) (by omega) (by omega)
    refine ⟨?_, ?_, ?_⟩
    · rw [e]; push_cast; ring
    · rw [e, he]
      rcases le_total cfl_init cfl with hc | hc
      · rw [min_eq_left hc]; nlinarith
      · rw [min_eq_right hc]; nlinarith
    · rw [e, he]
      rcases le_total cfl_init cfl with hc | hc
      · rw [max_eq_right hc]; nlinarith
      · rw [max_eq_left hc]; nlinarith
  · intro hc s1 s2 h12
    by_cases a1 : s1 < switchstepi
    · have : curCFL cfl_init cfl switchstepi switchstep s1 = cfl_init := by simp [curCFL, a1]
      rw [this]
      exact (curCFL_mem_Icc cfl_init cfl switchstepi switchstep s2 hc).1
    · by_cases b2 : s2 < switchstep
      · have a2 : ¬ s2 < switchstepi := by omega
        have b1 : s1 < switchstep := by omega
        have e1 : curCFL cfl_init cfl switchstepi switchstep s1
            = cfl_init + (cfl - cfl_init) / ((switchstep - switchstepi : ℤ) : K)
                * ((s1 - switchstepi : ℤ) : K) := by simp [curCFL, a1, b1]
        have e2 : curCFL cfl_init cfl switchstepi switchstep s2
            = cfl_init + (cfl - cfl_init) / ((switchstep - switchstepi : ℤ) : K)
                * ((s2 - switchstepi : ℤ) : K) := by simp [curCFL, a2, b2]
        rw [e1, e2]
        have hd : (0 : K) < ((switchstep - switchstepi : ℤ) : K) := by
          exact_mod_cast (show (0 : ℤ) < switchstep - switchstepi by omega)
        have hs : ((s1 - switchstepi : ℤ) : K) ≤ ((s2 - switchstepi : ℤ) : K) := by
          exact_mod_cast (show s1 - switchstepi ≤ s2 - switchstepi by omega)
        have hq : 0 ≤ (cfl - cfl_init) / ((switchstep - switchstepi : ℤ) : K) :=
          div_nonneg (sub_nonneg.mpr hc) hd.le
        have := mul_le_mul_of_nonneg_left hs hq
        linarith
      · have a2 : ¬ s2 < switchstepi := by omega
        have : curCFL cfl_init cfl switchstepi switchstep s2 = cfl := by simp [curCFL, a2, b2]
        rw [this]
        exact (curCFL_mem_Icc cfl_init cfl switchstepi switchstep s1 hc).2

theorem addBlock_apply {ι : Type} [DecidableEq ι] (D : ι → Block K) (c : ι)
    (i j : Fin 4) (x : K) (c' : ι) (i' j' : Fin 4) :
    addBlock D c i j x c' i' j' = D c' i' j' + (if c' = c ∧ i' = i ∧ j' = j then x else 0) := by
  unfold addBlock
  by_cases hc : c' = c
  · subst hc
    by_cases hij : i' = i ∧ j' = j
    · obtain ⟨h1, h2⟩ := hij
      subst h1; subst h2; simp
    · simp [hij]
  · simp [hc]

omit [LinearOrderedField K] in
theorem setBlock_apply {ι : Type} [DecidableEq ι] (D : ι → Block K) (c : ι)
    (i j : Fin 4) (x : K) (c' : ι) (i' j' : Fin 4) :
    setBlock D c i j x c' i' j' = if c' = c ∧ i' = i ∧ j' = j then x else D c' i' j' := by
  unfold setBlock
  by_cases hc : c' = c
  · subst hc
    by_cases hij : i' = i ∧ j' = j
    · simp [hij]
    · simp [hij]
  · simp [hc]

theorem sum_finRange_ite (a : Fin 4) (x : Fin 4 → K) :
    ((List.finRange 4).map (fun i => if a = i then x i else 0)).sum = x a := by
  fin_cases a <;> simp [finRange_four]

/-- A loop each of whose passes adds `δ j` to an observed quantity adds the sum of the `δ j`. -/
theorem foldl_ev_add {σ β : Type} (step : σ → β → σ) (ev : σ → K) (δ : β → K)
    (h : ∀ S j, ev (step S j) = ev S + δ j) (L : List β) (S : σ) :
    ev (L.foldl step S) = ev S + (L.map δ).sum := by
  induction L generalizing S with
  | nil => simp
  | cons j L ih => rw [List.foldl_cons, ih, h, List.map_cons, List.sum_cons, add_assoc]

/-- A loop each of whose passes either assigns the fixed value `X` to an observed quantity
or leaves it alone. -/
theorem foldl_ev_set {σ β α : Type} (step : σ → β → σ) (ev : σ → α) (P : β → Prop)
    [DecidablePred P] (X : α) (h : ∀ S j, ev (step S j) = if P j then X else ev S)
    (L : List β) (S : σ) :
    ev (L.foldl step S) = if ∃ j ∈ L, P j then X else ev S := by
  induction L generalizing S with
  | nil => simp
  | cons j L ih =>
    rw [List.foldl_cons, ih, h]
    by_cases h1 : ∃ j ∈ L, P j
    · have h2 : ∃ j' ∈ j :: L, P j' := by
        obtain ⟨k, hk, hp⟩ := h1
        exact ⟨k, List.mem_cons_of_mem j hk, hp⟩
      rw [if_pos h1, if_pos h2]
    · by_cases h3 : P j
      · have h2 : ∃ j' ∈ j :: L, P j' := ⟨j, List.mem_cons_self j L, h3⟩
        rw [if_neg h1, if_pos h3, if_pos h2]
      · have h2 : ¬ ∃ j' ∈ j :: L, P j' := by
          rintro ⟨k, hk, hp⟩
          rcases List.mem_cons.mp hk with rfl | hk
          · exact h3 hp
          · exact h1 ⟨k, hk, hp⟩
        rw [if_neg h1, if_neg h3, if_neg h2]

/-- Closed form of the lower block array after the body of the interior-face loop. -/
theorem lhsInteriorFace_lower (E : Externals K) (m : UMesh2dh K) (u : ℤ → Vars K)
    (s : ImplicitSolver K) (iface f : ℕ) (a b : Fin 4) :
    (lhsInteriorFace E m u s iface).lower f a b
      = if f = iface then
          0.5 * (-fluxJacobian E u (m.gintfac iface 0) (m.ggallfa iface 0) (m.ggallfa iface 1) a b
            - (if a = b then roeLambda E (u (m.gintfac iface 0)) (u (m.gintfac iface 1))
                (m.ggallfa iface 0) (m.ggallfa iface 1) else 0)) * m.ggallfa iface 2
        else s.lower f a b := by
  simp only [lhsInteriorFace]
  generalize fluxJacobian E u (m.gintfac iface 0) (m.ggallfa iface 0) (m.ggallfa iface 1) = Ji
  generalize fluxJacobian E u (m.gintfac iface 1) (m.ggallfa iface 0) (m.ggallfa iface 1) = Jj
  generalize roeLambda E (u (m.gintfac iface 0)) (u (m.gintfac iface 1))
                (m.ggallfa iface 0) (m.ggallfa iface 1) = lam
  generalize m.ggallfa iface 2 = len
  rw [foldl_ev_set _ (fun S : ImplicitSolver K => S.lower f a b)
    (fun i => (f = iface ∧ a ≠ b) ∧ a = i) (0.5 * (-Ji a b) * len)]
  · rw [foldl_ev_set _ (fun S : ImplicitSolver K => S.lower f a b)
      (fun i => (f = iface ∧ a = b) ∧ a = i) (0.5 * (-Ji a b - lam) * len)]
    · by_cases hf : f = iface <;> by_cases hab : a = b <;> simp [hf, hab]
    · intro S i
      simp only [setBlock_apply]
      by_cases hf : f = iface <;> by_cases hab : a = b <;> by_cases hai : a = i <;>
        simp_all
      intro h; exact absurd h.symm hab
  · intro S i
    rw [foldl_ev_set _ (fun S : ImplicitSolver K => S.lower f a b)
      (fun j => (f = iface ∧ a = i ∧ i ≠ j) ∧ b = j) (0.5 * (-Ji a b) * len)]
    · by_cases hf : f = iface <;> by_cases hab : a = b <;> by_cases hai : a = i <;>
        simp_all
    · intro S j
      by_cases hij : i = j
      · simp [hij]
      · simp only [if_neg hij, setBlock_apply]
        by_cases hf : f = iface <;> by_cases hai : a = i <;> by_cases hbj : b = j <;>
          simp_all

/-- Closed form of the upper block array after the body of the interior-face loop. -/
theorem lhsInteriorFace_upper (E : Externals K) (m : UMesh2dh K) (u : ℤ → Vars K)
    (s : ImplicitSolver K) (iface f : ℕ) (a b : Fin 4) :
    (lhsInteriorFace E m u s iface).upper f a b
      = if f = iface then
          0.5 * (fluxJacobian E u (m.gintfac iface 1) (m.ggallfa iface 0) (m.ggallfa iface 1) a b
            - (if a = b then roeLambda E (u (m.gintfac iface 0)) (u (m.gintfac iface 1))
                (m.ggallfa iface 0) (m.ggallfa iface 1) else 0)) * m.ggallfa iface 2
        else s.upper f a b := by
  simp only [lhsInteriorFace]
  generalize fluxJacobian E u (m.gintfac iface 0) (m.ggallfa iface 0) (m.ggallfa iface 1) = Ji
  generalize fluxJacobian E u (m.gintfac iface 1) (m.ggallfa iface 0) (m.ggallfa iface 1) = Jj
  generalize roeLambda E (u (m.gintfac iface 0)) (u (m.gintfac iface 1))
                (m.ggallfa iface 0) (m.ggallfa iface 1) = lam
  generalize m.ggallfa iface 2 = len
  rw [foldl_ev_set _ (fun S : ImplicitSolver K => S.upper f a b)
    (fun i => (f = iface ∧ a ≠ b) ∧ a = i) (0.5 * Jj a b * len)]
  · rw [foldl_ev_set _ (fun S : ImplicitSolver K => S.upper f a b)
      (fun i => (f = iface ∧ a = b) ∧ a = i) (0.5 * (Jj a b - lam) * len)]
    · by_cases hf : f = iface <;> by_cases hab : a = b <;> simp [hf, hab]
    · intro S i
      simp only [setBlock_apply]
      by_cases hf : f = iface <;> by_cases hab : a = b <;> by_cases hai : a = i <;>
        simp_all
      intro h; exact absurd h.symm hab
  · intro S i
    rw [foldl_ev_set _ (fun S : ImplicitSolver K => S.upper f a b)
      (fun j => (f = iface ∧ a = i ∧ i ≠ j) ∧ b = j) (0.5 * Jj a b * len)]
    · by_cases hf : f = iface <;> by_cases hab : a = b <;> by_cases hai : a = i <;>
        simp_all
    · intro S j
      by_cases hij : i = j
      · simp [hij]
      · simp only [if_neg hij, setBlock_apply]
        by_cases hf : f = iface <;> by_cases hai : a = i <;> by_cases hbj : b = j <;>
          simp_all

/-- Closed form of the diagonal blocks after the body of the interior-face loop. -/
theorem lhsInteriorFace_diag (E : Externals K) (m : UMesh2dh K) (u : ℤ → Vars K)
    (s : ImplicitSolver K) (iface : ℕ) (c : ℤ) (a b : Fin 4) :
    (lhsInteriorFace E m u s iface).diag c a b
      = s.diag c a b
        + ((if c = m.gintfac iface 0 then
            0.5 * (fluxJacobian E u (m.gintfac iface 0) (m.ggallfa iface 0) (m.ggallfa iface 1) a b
              + (if a = b then roeLambda E (u (m.gintfac iface 0)) (u (m.gintfac iface 1))
                  (m.ggallfa iface 0) (m.ggallfa iface 1) else 0)) * m.ggallfa iface 2
          else 0)
        + (if c = m.gintfac iface 1 then
            0.5 * (-fluxJacobian E u (m.gintfac iface 1) (m.ggallfa iface 0) (m.ggallfa iface 1) a b
              + (if a = b then roeLambda E (u (m.gintfac iface 0)) (u (m.gintfac iface 1))
                  (m.ggallfa iface 0) (m.ggallfa iface 1) else 0)) * m.ggallfa iface 2
          else 0)) := by
  simp only [lhsInteriorFace]
  generalize fluxJacobian E u (m.gintfac iface 0) (m.ggallfa iface 0) (m.ggallfa iface 1) = Ji
  generalize fluxJacobian E u (m.gintfac iface 1) (m.ggallfa iface 0) (m.ggallfa iface 1) = Jj
  generalize roeLambda E (u (m.gintfac iface 0)) (u (m.gintfac iface 1))
                (m.ggallfa iface 0) (m.ggallfa iface 1) = lam
  generalize m.ggallfa iface 2 = len
  generalize m.gintfac iface 0 = ielem
  generalize m.gintfac iface 1 = jelem
  rw [foldl_ev_add _ (fun S : ImplicitSolver K => S.diag c a b)
    (fun i => if a = i then ((List.finRange 4).map (fun j => if b = j then (if i = j then 0 else
      (if c = ielem then 0.5 * Ji i j * len else 0)
      + (if c = jelem then -0.5 * Jj i j * len else 0)) else 0)).sum else 0)]
  · rw [foldl_ev_add _ (fun S : ImplicitSolver K => S.diag c a b)
      (fun i => if a = i then (if c = ielem ∧ b = i then 0.5 * (Ji i i + lam) * len else 0)
        + (if c = jelem ∧ b = i then 0.5 * (-Jj i i + lam) * len else 0) else 0)]
    · rw [sum_finRange_ite, sum_finRange_ite, sum_finRange_ite]
      by_cases hab : a = b
      · subst hab
        by_cases hi : c = ielem <;> by_cases hj : c = jelem <;> simp [hi, hj]
      · have hba : ¬ b = a := fun h => hab h.symm
        by_cases hi : c = ielem <;> by_cases hj : c = jelem <;> simp [hi, hj, hab, hba]
    · intro S i
      simp only [addBlock_apply]
      by_cases hai : a = i
      · subst hai; simp; ring
      · simp [hai]
  · intro S i
    by_cases hai : a = i
    · subst hai
      simp only [if_true]
      rw [foldl_ev_add _ (fun S : ImplicitSolver K => S.diag c a b)
        (fun j => if b = j then (if a = j then 0 else
        (if c = ielem then 0.5 * Ji a j * len else 0)
        + (if c = jelem then -0.5 * Jj a j * len else 0)) else 0)]
      intro S j
      by_cases hij : a = j
      · simp [hij]
      · simp only [if_neg hij, addBlock_apply]
        by_cases hbj : b = j
        · subst hbj; simp; ring
        · simp [hbj]
    · simp only [if_neg hai, add_zero]
      rw [foldl_ev_add _ (fun S : ImplicitSolver K => S.diag c a b) (fun _ => 0)]
      · simp
      · intro S j
        by_cases hij : i = j
        · simp [hij]
        · simp only [if_neg hij, addBlock_apply]
          simp [hai]

/-- Closed form of the diagonal blocks after the body of the boundary-face loop. -/
theorem lhsBoundaryFace_diag (E : Externals K) (m : UMesh2dh K) (u : ℤ → Vars K)
    (ug : ℕ → Vars K) (s : ImplicitSolver K) (iface : ℕ) (c : ℤ) (a b : Fin 4) :
    (lhsBoundaryFace E m u ug s iface).diag c a b
      = s.diag c a b
        + (if c = m.gintfac iface 0 then
            0.5 * (fluxJacobian E u (m.gintfac iface 0) (m.ggallfa iface 0) (m.ggallfa iface 1) a b
              + (if a = b then roeLambda E (u (m.gintfac iface 0)) (ugGet E ug)
                  (m.ggallfa iface 0) (m.ggallfa iface 1) else 0)) * m.ggallfa iface 2
          else 0) := by
  simp only [lhsBoundaryFace]
  generalize fluxJacobian E u (m.gintfac iface 0) (m.ggallfa iface 0) (m.ggallfa iface 1) = Ji
  generalize roeLambda E (u (m.gintfac iface 0)) (ugGet E ug)
                (m.ggallfa iface 0) (m.ggallfa iface 1) = lam
  generalize m.ggallfa iface 2 = len
  generalize m.gintfac iface 0 = ielem
  rw [foldl_ev_add _ (fun D : ℤ → Block K => D c a b)
    (fun i => if a = i then ((List.finRange 4).map (fun j => if b = j then (if i = j then 0 else
      (if c = ielem then 0.5 * Ji i j * len else 0)) else 0)).sum else 0)]
  · rw [foldl_ev_add _ (fun D : ℤ → Block K => D c a b)
      (fun i => if a = i then (if c = ielem ∧ b = i then 0.5 * (Ji i i + lam) * len else 0)
        else 0)]
    · rw [sum_finRange_ite, sum_finRange_ite, sum_finRange_ite]
      by_cases hab : a = b
      · subst hab
        by_cases hi : c = ielem <;> simp [hi]
      · have hba : ¬ b = a := fun h => hab h.symm
        by_cases hi : c = ielem <;> simp [hi, hab, hba]
    · intro S i
      simp only [addBlock_apply]
      by_cases hai : a = i
      · subst hai; simp
      · simp [hai]
  · intro S i
    by_cases hai : a = i
    · subst hai
      simp only [if_true]
      rw [foldl_ev_add _ (fun D : ℤ → Block K => D c a b)
        (fun j => if b = j then (if a = j then 0 else
        (if c = ielem then 0.5 * Ji a j * len else 0)) else 0)]
      intro S j
      by_cases hij : a = j
      · simp [hij]
      · simp only [if_neg hij, addBlock_apply]
        by_cases hbj : b = j
        · subst hbj; simp
        · simp [hbj]
    · simp only [if_neg hai, add_zero]
      rw [foldl_ev_add _ (fun D : ℤ → Block K => D c a b) (fun _ => 0)]
      · simp
      · intro S j
        by_cases hij : i = j
        · simp [hij]
        · simp only [if_neg hij, addBlock_apply]
          simp [hai]

theorem mem_loopRange (lo hi f : ℕ) : f ∈ loopRange lo hi ↔ lo ≤ f ∧ f < hi := by
  unfold loopRange
  rw [List.mem_range'_1]
  omega

/-- The lower and upper blocks after the interior-face loop over the faces `L`. -/
theorem lhsInterior_foldl_lower_upper (E : Externals K) (m : UMesh2dh K) (u : ℤ → Vars K)
    (s : ImplicitSolver K) (L : List ℕ) (f : ℕ) (a b : Fin 4) :
    (L.foldl (lhsInteriorFace E m u) s).lower f a b
        = (if f ∈ L then
            0.5 * (-fluxJacobian E u (m.gintfac f 0) (m.ggallfa f 0) (m.ggallfa f 1) a b
              - (if a = b then roeLambda E (u (m.gintfac f 0)) (u (m.gintfac f 1))
                  (m.ggallfa f 0) (m.ggallfa f 1) else 0)) * m.ggallfa f 2
          else s.lower f a b)
      ∧ (L.foldl (lhsInteriorFace E m u) s).upper f a b
        = (if f ∈ L then
            0.5 * (fluxJacobian E u (m.gintfac f 1) (m.ggallfa f 0) (m.ggallfa f 1) a b
              - (if a = b then roeLambda E (u (m.gintfac f 0)) (u (m.gintfac f 1))
                  (m.ggallfa f 0) (m.ggallfa f 1) else 0)) * m.ggallfa f 2
          else s.upper f a b) := by
  constructor
  · rw [foldl_ev_set _ (fun S : ImplicitSolver K => S.lower f a b) (fun iface => f = iface)
      (0.5 * (-fluxJacobian E u (m.gintfac f 0) (m.ggallfa f 0) (m.ggallfa f 1) a b
              - (if a = b then roeLambda E (u (m.gintfac f 0)) (u (m.gintfac f 1))
                  (m.ggallfa f 0) (m.ggallfa f 1) else 0)) * m.ggallfa f 2)]
    · simp
    · intro S iface
      rw [lhsInteriorFace_lower]
      by_cases h : f = iface
      · subst h; simp
      · simp [h]
  · rw [foldl_ev_set _ (fun S : ImplicitSolver K => S.upper f a b) (fun iface => f = iface)
      (0.5 * (fluxJacobian E u (m.gintfac f 1) (m.ggallfa f 0) (m.ggallfa f 1) a b
              - (if a = b then roeLambda E (u (m.gintfac f 0)) (u (m.gintfac f 1))
                  (m.ggallfa f 0) (m.ggallfa f 1) else 0)) * m.ggallfa f 2)]
    · simp
    · intro S iface
      rw [lhsInteriorFace_upper]
      by_cases h : f = iface
      · subst h; simp
      · simp [h]

/-- The boundary-face loop leaves the lower and upper blocks alone. -/
theorem lhsBoundary_foldl_lower_upper (E : Externals K) (m : UMesh2dh K) (u : ℤ → Vars K)
    (ug : ℕ → Vars K) (s : ImplicitSolver K) (L : List ℕ) :
    (L.foldl (lhsBoundaryFace E m u ug) s).lower = s.lower
      ∧ (L.foldl (lhsBoundaryFace E m u ug) s).upper = s.upper := by
  induction L generalizing s with
  | nil => exact ⟨rfl, rfl⟩
  | cons j L ih =>
    rw [List.foldl_cons]
    exact ih _

/-- The lower and upper blocks of an interior face after `ImplicitSolver::compute_LHS`. -/
theorem lhs_lower_upper_entry (E : Externals K) (m : UMesh2dh K) (u : ℤ → Vars K)
    (ug : ℕ → Vars K) (s : ImplicitSolver K) (f : ℕ) (hlo : m.gnbface ≤ f)
    (hhi : f < m.gnaface) (a b : Fin 4) :
    (compute_LHS E m u ug s).lower f a b
        = 0.5 * (-fluxJacobian E u (m.gintfac f 0) (m.ggallfa f 0) (m.ggallfa f 1) a b
              - (if a = b then roeLambda E (u (m.gintfac f 0)) (u (m.gintfac f 1))
                  (m.ggallfa f 0) (m.ggallfa f 1) else 0)) * m.ggallfa f 2
      ∧ (compute_LHS E m u ug s).upper f a b
        = 0.5 * (fluxJacobian E u (m.gintfac f 1) (m.ggallfa f 0) (m.ggallfa f 1) a b
              - (if a = b then roeLambda E (u (m.gintfac f 0)) (u (m.gintfac f 1))
                  (m.ggallfa f 0) (m.ggallfa f 1) else 0)) * m.ggallfa f 2 := by
  have hmem : f ∈ loopRange m.gnbface m.gnaface := (mem_loopRange _ _ _).mpr ⟨hlo, hhi⟩
  have h := lhsInterior_foldl_lower_upper E m u
    ((List.range m.gnbface).foldl (lhsBoundaryFace E m u ug)
      { s with diag := zeroBlocks m s.diag }) (loopRange m.gnbface m.gnaface) f a b
  rw [if_pos hmem, if_pos hmem] at h
  exact h

/-- C10 (off-diagonal blocks): after `ImplicitSolver::compute_LHS`, for every interior face `f`
with left cell `i` and right cell `j`, `lower[f] = 0.5*(-J_i - lambda*I)*len` and
`upper[f] = 0.5*(J_j - lambda*I)*len`, with `J_i`, `J_j` the matrices `Ji`, `Jj` that the code
fills for the two cells, `lambda` the `fabs(vnij) + cij` of the Roe averages of the two cell
states and `len` the face length. -/
theorem compute_LHS_lower_upper (E : Externals K) (m : UMesh2dh K) (u : ℤ → Vars K)
    (ug : ℕ → Vars K) (s : ImplicitSolver K) (f : ℕ) (hlo : m.gnbface ≤ f)
    (hhi : f < m.gnaface) :
    (compute_LHS E m u ug s).lower f
        = m.ggallfa f 2 • ((0.5 : K) •
            (-fluxJacobian E u (m.gintfac f 0) (m.ggallfa f 0) (m.ggallfa f 1)
              - roeLambda E (u (m.gintfac f 0)) (u (m.gintfac f 1)) (m.ggallfa f 0)
                  (m.ggallfa f 1) • (1 : Block K)))
      ∧ (compute_LHS E m u ug s).upper f
        = m.ggallfa f 2 • ((0.5 : K) •
            (fluxJacobian E u (m.gintfac f 1) (m.ggallfa f 0) (m.ggallfa f 1)
              - roeLambda E (u (m.gintfac f 0)) (u (m.gintfac f 1)) (m.ggallfa f 0)
                  (m.ggallfa f 1) • (1 : Block K))) := by
  constructor
  · ext a b
    rw [(lhs_lower_upper_entry E m u ug s f hlo hhi a b).1]
    simp only [Matrix.smul_apply, Matrix.sub_apply, Matrix.neg_apply, Matrix.one_apply,
      smul_eq_mul]
    by_cases hab : a = b <;> simp [hab] <;> ring
  · ext a b
    rw [(lhs_lower_upper_entry E m u ug s f hlo hhi a b).2]
    simp only [Matrix.smul_apply, Matrix.sub_apply, Matrix.neg_apply, Matrix.one_apply,
      smul_eq_mul]
    by_cases hab : a = b <;> simp [hab] <;> ring

/-- Entry `(a, b)` of the diagonal block of a cell `c` of the mesh after
`ImplicitSolver::compute_LHS`: the sum of the contributions of the boundary faces and of the
interior faces, whatever the block held before. -/
theorem compute_LHS_diag_apply (E : Externals K) (m : UMesh2dh K) (u : ℤ → Vars K)
    (ug : ℕ → Vars K) (s : ImplicitSolver K) (c : ℤ) (hc : isCell m c) (a b : Fin 4) :
    (compute_LHS E m u ug s).diag c a b
      = ((List.range m.gnbface).map (diagBoundary E m u ug c a b)).sum
        + ((loopRange m.gnbface m.gnaface).map (diagInterior E m u c a b)).sum := by
  simp only [compute_LHS]
  rw [foldl_ev_add _ (fun S : ImplicitSolver K => S.diag c a b) (diagInterior E m u c a b),
    foldl_ev_add _ (fun S : ImplicitSolver K => S.diag c a b) (diagBoundary E m u ug c a b)]
  · simp [zeroBlocks, hc]
  · intro S f
    simp only [lhsBoundaryFace_diag, diagBoundary]
  · intro S f
    simp only [lhsInteriorFace_diag, diagInterior]

set_option maxHeartbeats 4000000 in
/-- Closed form of the body of the face loop of `ImplicitSolverMF::compute_LHS`: face `ifael`
of cell `ielem` adds `0.5*(J + lambdaij*I)*len` to the diagonal block of `ielem`, with `J` the
same matrix that the matrix-based `compute_LHS` calls `Ji`, taken with the stored normal of
the face. -/
theorem mfCellFace_apply (E : Externals K) (m : UMesh2dh K) (u : ℤ → Vars K)
    (lambdaij : ℕ → K) (ielem : ℤ) (D : ℤ → Block K) (ifael : ℕ) (c : ℤ) (a b : Fin 4) :
    mfCellFace E m u lambdaij ielem D ifael c a b
      = D c a b + (if c = ielem then
          0.5 * (fluxJacobian E u ielem (m.ggallfa (m.gelemface ielem ifael) 0)
              (m.ggallfa (m.gelemface ielem ifael) 1) a b
            + (if a = b then lambdaij (m.gelemface ielem ifael) else 0))
            * m.ggallfa (m.gelemface ielem ifael) 2
        else 0) := by
  simp only [mfCellFace, addBlock_apply]
  by_cases hc : c = ielem
  · subst hc
    fin_cases a <;> fin_cases b <;>
      simp [fluxJacobian, -mul_eq_mul_left_iff, -mul_eq_mul_right_iff, -mul_eq_zero,
        -add_right_inj, -add_left_inj] <;> ring
  · simp [hc]

/-- Closed form of the body of the cell loop of `ImplicitSolverMF::compute_LHS`. -/
theorem mfCell_apply (E : Externals K) (m : UMesh2dh K) (u : ℤ → Vars K)
    (lambdaij : ℕ → K) (D : ℤ → Block K) (n : ℕ) (c : ℤ) (a b : Fin 4) :
    mfCell E m u lambdaij D n c a b
      = if c = (n : ℤ) then ((List.range (m.gnfael c)).map (diagMF E m u lambdaij c a b)).sum
        else D c a b := by
  unfold mfCell
  rw [foldl_ev_add _ (fun D : ℤ → Block K => D c a b)
    (fun k => if c = (n : ℤ) then diagMF E m u lambdaij c a b k else 0)]
  · by_cases hc : c = (n : ℤ)
    · subst hc; simp
    · simp [hc, Function.update_noteq hc]
  · intro S k
    rw [mfCellFace_apply]
    by_cases hc : c = (n : ℤ)
    · subst hc; simp [diagMF]
    · simp [hc]

omit [LinearOrderedField K] in
theorem isCell_iff_mem_range (m : UMesh2dh K) (c : ℤ) :
    isCell m c ↔ ∃ n ∈ List.range m.gnelem, c = (n : ℤ) := by
  unfold isCell
  constructor
  · rintro ⟨h0, h1⟩
    refine ⟨c.toNat, ?_, ?_⟩
    · rw [List.mem_range]; omega
    · omega
  · rintro ⟨n, hn, rfl⟩
    rw [List.mem_range] at hn
    omega

/-- The array `lambdaij` after `ImplicitSolverMF::compute_LHS`. -/
theorem compute_LHS_MF_lambdaij (E : Externals K) (m : UMesh2dh K) (u : ℤ → Vars K)
    (ug : ℕ → Vars K) (s : ImplicitSolverMF K) :
    (compute_LHS_MF E m u ug s).lambdaij = lambdaMF E m u ug s.lambdaij := by
  funext f
  simp only [compute_LHS_MF, lambdaMF]
  rw [foldl_ev_set _ (fun S : ImplicitSolverMF K => S.lambdaij f) (fun iface => f = iface)
    (roeLambda E (u (m.gintfac f 0)) (u (m.gintfac f 1)) (m.ggallfa f 0) (m.ggallfa f 1)),
    foldl_ev_set _ (fun S : ImplicitSolverMF K => S.lambdaij f) (fun iface => f = iface)
    (roeLambda E (u (m.gintfac f 0)) (ugGet E ug) (m.ggallfa f 0) (m.ggallfa f 1))]
  · simp
  · intro S iface
    by_cases h : f = iface
    · subst h; simp
    · simp [h, Function.update_noteq h]
  · intro S iface
    by_cases h : f = iface
    · subst h; simp
    · simp [h, Function.update_noteq h]

/-- Entry `(a, b)` of the diagonal block of a cell `c` of the mesh after
`ImplicitSolverMF::compute_LHS`: the sum over the faces of the cell of their contributions,
whatever the block held before. -/
theorem compute_LHS_MF_diag_apply (E : Externals K) (m : UMesh2dh K) (u : ℤ → Vars K)
    (ug : ℕ → Vars K) (s : ImplicitSolverMF K) (c : ℤ) (hc : isCell m c) (a b : Fin 4) :
    (compute_LHS_MF E m u ug s).diag c a b
      = ((List.range (m.gnfael c)).map
          (diagMF E m u (lambdaMF E m u ug s.lambdaij) c a b)).sum := by
  have hl := compute_LHS_MF_lambdaij E m u ug s
  simp only [compute_LHS_MF] at hl ⊢
  rw [hl]
  rw [foldl_ev_set _ (fun D : ℤ → Block K => D c a b) (fun n : ℕ => c = (n : ℤ))
    (((List.range (m.gnfael c)).map
          (diagMF E m u (lambdaMF E m u ug s.lambdaij) c a b)).sum)]
  · rw [if_pos ((isCell_iff_mem_range m c).mp hc)]
  · intro S n
    rw [mfCell_apply]

theorem lambdaMF_idem (E : Externals K) (m : UMesh2dh K) (u : ℤ → Vars K) (ug : ℕ → Vars K)
    (lambdaij : ℕ → K) :
    lambdaMF E m u ug (lambdaMF E m u ug lambdaij) = lambdaMF E m u ug lambdaij := by
  funext f
  unfold lambdaMF
  split_ifs <;> rfl

/-- C7 (idempotence of assembly): a second call of `ImplicitSolver::compute_LHS` with the same
`u`, `ug` and mesh leaves the diagonal block of every cell and the lower and upper block of
every interior face as the first call left them, and a second call of
`ImplicitSolverMF::compute_LHS` leaves the diagonal block of every cell as the first call
left it. -/
theorem compute_LHS_idempotent (E : Externals K) (m : UMesh2dh K) (u : ℤ → Vars K)
    (ug : ℕ → Vars K) (s : ImplicitSolver K) (t : ImplicitSolverMF K) :
    (∀ c : ℤ, isCell m c →
        (compute_LHS E m u ug (compute_LHS E m u ug s)).diag c = (compute_LHS E m u ug s).diag c)
      ∧ (∀ f : ℕ, m.gnbface ≤ f → f < m.gnaface →
        (compute_LHS E m u ug (compute_LHS E m u ug s)).lower f = (compute_LHS E m u ug s).lower f
        ∧ (compute_LHS E m u ug (compute_LHS E m u ug s)).upper f
            = (compute_LHS E m u ug s).upper f)
      ∧ (∀ c : ℤ, isCell m c →
        (compute_LHS_MF E m u ug (compute_LHS_MF E m u ug t)).diag c
          = (compute_LHS_MF E m u ug t).diag c) := by
  refine ⟨?_, ?_, ?_⟩
  · intro c hc
    ext a b
    rw [compute_LHS_diag_apply _ _ _ _ _ _ hc, compute_LHS_diag_apply _ _ _ _ _ _ hc]
  · intro f hlo hhi
    constructor
    · ext a b
      rw [(lhs_lower_upper_entry E m u ug _ f hlo hhi a b).1,
        (lhs_lower_upper_entry E m u ug s f hlo hhi a b).1]
    · ext a b
      rw [(lhs_lower_upper_entry E m u ug _ f hlo hhi a b).2,
        (lhs_lower_upper_entry E m u ug s f hlo hhi a b).2]
  · intro c hc
    ext a b
    rw [compute_LHS_MF_diag_apply _ _ _ _ _ _ hc, compute_LHS_MF_diag_apply _ _ _ _ _ _ hc,
      compute_LHS_MF_lambdaij, lambdaMF_idem]

/-- C8, evaluated on the two-cell mesh: entry `(0, 2)` of the diagonal block of cell 1, the
right cell of the interior face, is `1` after `ImplicitSolverMF::compute_LHS` and `0` after
`ImplicitSolver::compute_LHS`, although the cell-to-face table lists for each cell exactly its
faces. -/
theorem compute_LHS_MF_diag_differs :
    (compute_LHS_MF extStd quadMesh uStd ugStd (mfStd : ImplicitSolverMF ℚ)).diag 1 0 2 = 1
      ∧ (compute_LHS extStd quadMesh uStd ugStd (lhsStd : ImplicitSolver ℚ)).diag 1 0 2 = 0 := by
  constructor
  · rw [compute_LHS_MF_diag_apply _ _ _ _ _ _ (by decide)]
    simp [diagMF, fluxJacobian, quadMesh, List.range_succ]
    norm_num
  · rw [compute_LHS_diag_apply _ _ _ _ _ _ (by decide)]
    simp [diagBoundary, diagInterior, fluxJacobian, quadMesh, List.range_succ, loopRange]

/-- C9, evaluated at the interior face of the two-cell mesh with cell states `(1, 0, 1, 3)`
and `(2, 0, 1, 3)`: entry `(1, 1)` of the matrix `Jj` that `compute_LHS` fills for the right
cell is `1`, whereas the derivative of component 1 of the Euler normal flux with respect to
component 1 of that cell's own state is `1/2`; so `Jj` is not the Jacobian at the cell's own
state.  Whatever the single-index accessor `u.get(0)` returns, entry `(1, 1)` misses the
own-state value `u(elem,2)/u(elem,0)` (normal `(0, 1)`) in cell 0 or in cell 1. -/
theorem fluxJacobian_not_own_state_jacobian :
    fluxJacobian (extStd : Externals ℝ) uStd ((quadMesh : UMesh2dh ℝ).gintfac 6 1)
        ((quadMesh : UMesh2dh ℝ).ggallfa 6 0) ((quadMesh : UMesh2dh ℝ).ggallfa 6 1) 1 1 = 1
      ∧ HasDerivAt (fun t : ℝ => eulerNormalFlux
          (Function.update (uStd ((quadMesh : UMesh2dh ℝ).gintfac 6 1)) 1 t)
          ((quadMesh : UMesh2dh ℝ).ggallfa 6 0) ((quadMesh : UMesh2dh ℝ).ggallfa 6 1) 1)
          (1 / 2) (uStd ((quadMesh : UMesh2dh ℝ).gintfac 6 1) 1)
      ∧ ¬ HasDerivAt (fun t : ℝ => eulerNormalFlux
          (Function.update (uStd ((quadMesh : UMesh2dh ℝ).gintfac 6 1)) 1 t)
          ((quadMesh : UMesh2dh ℝ).ggallfa 6 0) ((quadMesh : UMesh2dh ℝ).ggallfa 6 1) 1)
          (fluxJacobian (extStd : Externals ℝ) uStd ((quadMesh : UMesh2dh ℝ).gintfac 6 1)
            ((quadMesh : UMesh2dh ℝ).ggallfa 6 0) ((quadMesh : UMesh2dh ℝ).ggallfa 6 1) 1 1)
          (uStd ((quadMesh : UMesh2dh ℝ).gintfac 6 1) 1)
      ∧ ∀ E : Externals ℝ,
          fluxJacobian E uStd 0 0 1 1 1 ≠ uStd 0 2 / uStd 0 0
            ∨ fluxJacobian E uStd 1 0 1 1 1 ≠ uStd 1 2 / uStd 1 0 := by
  have hJ : fluxJacobian (extStd : Externals ℝ) uStd ((quadMesh : UMesh2dh ℝ).gintfac 6 1)
      ((quadMesh : UMesh2dh ℝ).ggallfa 6 0) ((quadMesh : UMesh2dh ℝ).ggallfa 6 1) 1 1 = 1 := by
    simp [fluxJacobian, quadMesh, extStd, uStd]
  have hF : (fun t : ℝ => eulerNormalFlux
      (Function.update (uStd ((quadMesh : UMesh2dh ℝ).gintfac 6 1)) 1 t)
      ((quadMesh : UMesh2dh ℝ).ggallfa 6 0) ((quadMesh : UMesh2dh ℝ).ggallfa 6 1) 1)
      = fun t : ℝ => t * (1 / 2) := by
    funext t
    simp [eulerNormalFlux, quadMesh, uStd, Function.update]
  have hD : HasDerivAt (fun t : ℝ => eulerNormalFlux
      (Function.update (uStd ((quadMesh : UMesh2dh ℝ).gintfac 6 1)) 1 t)
      ((quadMesh : UMesh2dh ℝ).ggallfa 6 0) ((quadMesh : UMesh2dh ℝ).ggallfa 6 1) 1)
      (1 / 2) (uStd ((quadMesh : UMesh2dh ℝ).gintfac 6 1) 1) := by
    rw [hF]
    simpa using (hasDerivAt_id (uStd ((quadMesh : UMesh2dh ℝ).gintfac 6 1) 1 : ℝ)).mul_const
      (1 / 2 : ℝ)
  refine ⟨hJ, hD, ?_, ?_⟩
  · intro h
    rw [hJ] at h
    have := h.unique hD
    norm_num at this
  · intro E
    by_contra hcon
    push_neg at hcon
    obtain ⟨h0, h1⟩ := hcon
    simp [fluxJacobian, uStd] at h0 h1
    rw [h0] at h1
    norm_num at h1

theorem compute_RHS_interior_face_scatter_witness :
    (isCell (quadMesh : UMesh2dh ℚ) ((quadMesh : UMesh2dh ℚ).gintfac 6 1)
      ∧ (quadMesh : UMesh2dh ℚ).gintfac 6 0 ≠ (quadMesh : UMesh2dh ℚ).gintfac 6 1)
    ∧ ((rhsFace (extStd : Externals ℚ) quadMesh ugStd ugStd (uStd, fun _ => 0) 6).1
          ((quadMesh : UMesh2dh ℚ).gintfac 6 0) 0
        = uStd ((quadMesh : UMesh2dh ℚ).gintfac 6 0) 0
          - fluxp (extStd : Externals ℚ) quadMesh ugStd ugStd 6 0
      ∧ (rhsFace (extStd : Externals ℚ) quadMesh ugStd ugStd (uStd, fun _ => 0) 6).1
          ((quadMesh : UMesh2dh ℚ).gintfac 6 1) 0
        = uStd ((quadMesh : UMesh2dh ℚ).gintfac 6 1) 0
          + fluxp (extStd : Externals ℚ) quadMesh ugStd ugStd 6 0) :=
  ⟨⟨by decide, by decide⟩,
    compute_RHS_interior_face_scatter extStd quadMesh ugStd ugStd (uStd, fun _ => 0) 6 0
      (by decide) (by decide)⟩

theorem quadMesh_interior_faces (f : ℕ) (h1 : (quadMesh : UMesh2dh ℚ).gnbface ≤ f)
    (h2 : f < (quadMesh : UMesh2dh ℚ).gnaface) : f = 6 := by
  simp only [quadMesh] at h1 h2
  omega

theorem compute_RHS_conservation_witness :
    ((quadMesh : UMesh2dh ℚ).gnbface ≤ (quadMesh : UMesh2dh ℚ).gnaface
      ∧ (∀ f, f < (quadMesh : UMesh2dh ℚ).gnaface →
          isCell (quadMesh : UMesh2dh ℚ) ((quadMesh : UMesh2dh ℚ).gintfac f 0))
      ∧ (∀ f, f < (quadMesh : UMesh2dh ℚ).gnbface →
          ¬ isCell (quadMesh : UMesh2dh ℚ) ((quadMesh : UMesh2dh ℚ).gintfac f 1)))
    ∧ ∑ c in Finset.Ico (0 : ℤ) (quadMesh : UMesh2dh ℚ).gnelem,
        (compute_RHS extStd quadMesh (baseStd : ImplicitSolverBase ℚ)).residual c 0
      = - ∑ f in Finset.range (quadMesh : UMesh2dh ℚ).gnbface,
          fluxp extStd quadMesh (compute_RHS extStd quadMesh (baseStd : ImplicitSolverBase ℚ)).uleft
            (compute_RHS extStd quadMesh (baseStd : ImplicitSolverBase ℚ)).uright f 0 :=
  ⟨⟨by decide, by decide, by decide⟩,
    compute_RHS_conservation extStd quadMesh baseStd 0 (by decide) (by decide)
      (fun f h1 h2 => by rw [quadMesh_interior_faces f h1 h2]; decide) (by decide)⟩

theorem curCFL_plateaux_witness :
    ((1 : ℤ) < 2 ∧ (2 : ℤ) ≤ 10 ∧ (10 : ℤ) ≤ 12)
    ∧ curCFL (1 : ℚ) 100 2 10 1 = 1 ∧ curCFL (1 : ℚ) 100 2 10 12 = 100 :=
  ⟨by decide, (curCFL_plateaux (1 : ℚ) 100 2 10 1).1 (by decide),
    (curCFL_plateaux (1 : ℚ) 100 2 10 12).2 (by decide) (by decide)⟩

theorem curCFL_ramp_witness :
    ((2 : ℤ) ≤ 4 ∧ (4 : ℤ) < 10 ∧ (1 : ℚ) ≤ 100 ∧ (4 : ℤ) ≤ 5)
    ∧ (curCFL (1 : ℚ) 100 2 10 4 = 1 + (100 - 1) * (((4 : ℤ) : ℚ) - ((2 : ℤ) : ℚ))
          / (((10 : ℤ) : ℚ) - ((2 : ℤ) : ℚ))
        ∧ min (1 : ℚ) 100 ≤ curCFL (1 : ℚ) 100 2 10 4
        ∧ curCFL (1 : ℚ) 100 2 10 4 ≤ max (1 : ℚ) 100)
    ∧ curCFL (1 : ℚ) 100 2 10 4 ≤ curCFL (1 : ℚ) 100 2 10 5 :=
  ⟨⟨by decide, by decide, by norm_num, by decide⟩,
    (curCFL_ramp (1 : ℚ) 100 2 10).1 4 (by decide) (by decide),
    (curCFL_ramp (1 : ℚ) 100 2 10).2 (by norm_num) 4 5 (by decide)⟩

theorem compute_LHS_idempotent_witness :
    (isCell (quadMesh : UMesh2dh ℚ) 1
      ∧ (quadMesh : UMesh2dh ℚ).gnbface ≤ 6 ∧ 6 < (quadMesh : UMesh2dh ℚ).gnaface)
    ∧ (compute_LHS extStd quadMesh uStd ugStd
          (compute_LHS extStd quadMesh uStd ugStd (lhsStd : ImplicitSolver ℚ))).diag 1
        = (compute_LHS extStd quadMesh uStd ugStd (lhsStd : ImplicitSolver ℚ)).diag 1
    ∧ ((compute_LHS extStd quadMesh uStd ugStd
          (compute_LHS extStd quadMesh uStd ugStd (lhsStd : ImplicitSolver ℚ))).lower 6
        = (compute_LHS extStd quadMesh uStd ugStd (lhsStd : ImplicitSolver ℚ)).lower 6
      ∧ (compute_LHS extStd quadMesh uStd ugStd
          (compute_LHS extStd quadMesh uStd ugStd (lhsStd : ImplicitSolver ℚ))).upper 6
        = (compute_LHS extStd quadMesh uStd ugStd (lhsStd : ImplicitSolver ℚ)).upper 6)
    ∧ (compute_LHS_MF extStd quadMesh uStd ugStd
          (compute_LHS_MF extStd quadMesh uStd ugStd (mfStd : ImplicitSolverMF ℚ))).diag 1
        = (compute_LHS_MF extStd quadMesh uStd ugStd (mfStd : ImplicitSolverMF ℚ)).diag 1 :=
  ⟨⟨by decide, by decide, by decide⟩,
    (compute_LHS_idempotent extStd quadMesh uStd ugStd lhsStd mfStd).1 1 (by decide),
    (compute_LHS_idempotent extStd quadMesh uStd ugStd lhsStd mfStd).2.1 6 (by decide)
      (by decide),
    (compute_LHS_idempotent extStd quadMesh uStd ugStd lhsStd mfStd).2.2 1 (by decide)⟩

theorem compute_LHS_lower_upper_witness :
    ((quadMesh : UMesh2dh ℚ).gnbface ≤ 6 ∧ 6 < (quadMesh : UMesh2dh ℚ).gnaface)
    ∧ ((compute_LHS extStd quadMesh uStd ugStd (lhsStd : ImplicitSolver ℚ)).lower 6
        = (quadMesh : UMesh2dh ℚ).ggallfa 6 2 • ((0.5 : ℚ) •
            (-fluxJacobian extStd uStd ((quadMesh : UMesh2dh ℚ).gintfac 6 0)
                ((quadMesh : UMesh2dh ℚ).ggallfa 6 0) ((quadMesh : UMesh2dh ℚ).ggallfa 6 1)
              - roeLambda extStd (uStd ((quadMesh : UMesh2dh ℚ).gintfac 6 0))
                  (uStd ((quadMesh : UMesh2dh ℚ).gintfac 6 1))
                  ((quadMesh : UMesh2dh ℚ).ggallfa 6 0) ((quadMesh : UMesh2dh ℚ).ggallfa 6 1)
                • (1 : Block ℚ)))
      ∧ (compute_LHS extStd quadMesh uStd ugStd (lhsStd : ImplicitSolver ℚ)).upper 6
        = (quadMesh : UMesh2dh ℚ).ggallfa 6 2 • ((0.5 : ℚ) •
            (fluxJacobian extStd uStd ((quadMesh : UMesh2dh ℚ).gintfac 6 1)
                ((quadMesh : UMesh2dh ℚ).ggallfa 6 0) ((quadMesh : UMesh2dh ℚ).ggallfa 6 1)
              - roeLambda extStd (uStd ((quadMesh : UMesh2dh ℚ).gintfac 6 0))
                  (uStd ((quadMesh : UMesh2dh ℚ).gintfac 6 1))
                  ((quadMesh : UMesh2dh ℚ).ggallfa 6 0) ((quadMesh : UMesh2dh ℚ).ggallfa 6 1)
                • (1 : Block ℚ)))) :=
  ⟨⟨by decide, by decide⟩,
    compute_LHS_lower_upper extStd quadMesh uStd ugStd lhsStd 6 (by decide) (by decide)⟩

omit [LinearOrderedField K] in
/-- A loop over the variables that assigns `x i` to entry `(ied, i)` of a matrix. -/
theorem foldl_setEntry_row {ι : Type} [DecidableEq ι] (b : ι → Vars K) (ied : ι) (x : Vars K)
    (f : ι) (v : Fin 4) :
    ((List.finRange 4).foldl (fun b i => setEntry b ied i (x i)) b) f v
      = if f = ied then x v else b f v := by
  rw [foldl_ev_set _ (fun b : ι → Vars K => b f v) (fun i => f = ied ∧ v = i) (x v)]
  · by_cases h : f = ied
    · simp [h]
    · simp [h]
  · intro S i
    rw [setEntry_apply]
    by_cases h : f = ied ∧ v = i
    · rw [if_pos h, if_pos h, h.2]
    · rw [if_neg h, if_neg h]

/-- The body of the loop of `compute_boundary_states` only writes the row of its own face, and
at an inflow/outflow face it leaves the free-stream state there. -/
theorem compute_boundary_states_row (m : UMesh2dh K) (uinf : Vars K) (ins bs : ℕ → Vars K)
    (f : ℕ) (htag : m.ggallfa f 3 = inflow_outflow_id) (L : List ℕ) :
    (L.foldl (fun bs ied =>
      let nx := m.ggallfa ied 0
      let ny := m.ggallfa ied 1
      let vni := (ins ied 1 * nx + ins ied 2 * ny) / ins ied 0
      let bs1 :=
        if m.ggallfa ied 3 = solid_wall_id then
          let b0 := setEntry bs ied 0 (ins ied 0)
          let b1 := setEntry b0 ied 1 (ins ied 1 - 2 * vni * nx * b0 ied 0)
          let b2 := setEntry b1 ied 2 (ins ied 2 - 2 * vni * ny * b1 ied 0)
          setEntry b2 ied 3 (ins ied 3)
        else bs
      if m.ggallfa ied 3 = inflow_outflow_id then
        (List.finRange 4).foldl (fun b i => setEntry b ied i (uinf i)) bs1
      else bs1) bs) f = if f ∈ L then uinf else bs f := by
  rw [foldl_ev_set _ (fun b : ℕ → Vars K => b f) (fun ied => f = ied) uinf]
  · simp
  · intro S ied
    by_cases h : f = ied
    · subst h
      simp only [htag, if_true]
      funext v
      rw [foldl_setEntry_row]
      simp
    · simp only [if_neg h]
      funext v
      by_cases h4 : m.ggallfa ied 3 = inflow_outflow_id
      · simp only [h4, if_true]
        rw [foldl_setEntry_row, if_neg h]
        by_cases h2 : m.ggallfa ied 3 = solid_wall_id
        · rw [← h4, if_pos h2]
          simp [setEntry_apply, h]
        · rw [← h4, if_neg h2]
      · simp only [if_neg h4]
        by_cases h2 : m.ggallfa ied 3 = solid_wall_id
        · rw [if_pos h2]
          simp [setEntry_apply, h]
        · rw [if_neg h2]

/-- C19 (inflow/outflow ghost state): for every boundary face tagged with the inflow/outflow
id, `compute_boundary_states` sets all 4 components of the ghost state to the free-stream
state `uinf`, whatever the interior states `ins`, the previous ghost states `bs` and the face
normals are. -/
theorem compute_boundary_states_inflow (m : UMesh2dh K) (uinf : Vars K) (ins bs : ℕ → Vars K)
    (f : ℕ) (hf : f < m.gnbface) (htag : m.ggallfa f 3 = inflow_outflow_id) :
    compute_boundary_states m uinf ins bs f = uinf := by
  unfold compute_boundary_states
  rw [compute_boundary_states_row m uinf ins bs f htag, if_pos (List.mem_range.mpr hf)]

theorem rhsFace_integ (E : Externals K) (m : UMesh2dh K) (uleft uright : ℕ → Vars K)
    (acc : (ℤ → Vars K) × (ℤ → K)) (ied : ℕ) (c : ℤ)
    (hrel : ¬ isCell m (m.gintfac ied 1)) (hc : c ≠ m.gintfac ied 0) :
    (rhsFace E m uleft uright acc ied).2 c = acc.2 c := by
  simp only [rhsFace, if_neg hrel]
  rw [Function.update_noteq hc]

/-- C20 (frame of a boundary face): when the right index of a face is not a cell of the mesh,
the loop body of `compute_RHS` leaves the residual and the eigenvalue integral `integ` of every
cell other than the left cell of the face as they were. -/
theorem compute_RHS_boundary_face_frame (E : Externals K) (m : UMesh2dh K)
    (uleft uright : ℕ → Vars K) (acc : (ℤ → Vars K) × (ℤ → K)) (ied : ℕ) (c : ℤ)
    (hrel : ¬ isCell m (m.gintfac ied 1)) (hc : c ≠ m.gintfac ied 0) :
    (rhsFace E m uleft uright acc ied).1 c = acc.1 c
      ∧ (rhsFace E m uleft uright acc ied).2 c = acc.2 c := by
  constructor
  · funext v
    rw [rhsFace_residual]
    simp [hrel, hc]
  · exact rhsFace_integ E m uleft uright acc ied c hrel hc


/-- The double loop `ans(r,i) += x i j` over `i` and `j` adds the row sums of `x` to row `r`. -/
theorem foldl_addEntry_row (a : ℤ → Vars K) (r : ℤ) (x : Fin 4 → Fin 4 → K) (c : ℤ) (v : Fin 4) :
    ((List.finRange 4).foldl (fun a i => (List.finRange 4).foldl (fun a j =>
      setEntry a r i (a r i + x i j)) a) a) c v
      = a c v + (if c = r then ((List.finRange 4).map (x v)).sum else 0) := by
  rw [foldl_ev_add _ (fun a : ℤ → Vars K => a c v)
    (fun i => if v = i then (if c = r then ((List.finRange 4).map (x i)).sum else 0) else 0)]
  · rw [sum_finRange_ite]
  · intro S i
    rw [foldl_ev_add _ (fun a : ℤ → Vars K => a c v) (fun j => if c = r ∧ v = i then x i j else 0)]
    · by_cases hv : v = i
      · subst hv
        by_cases hc : c = r
        · simp [hc]
        · simp [hc]
      · simp [hv]
    · intro S j
      rw [setEntry_apply]
      by_cases h : c = r ∧ v = i
      · rw [if_pos h, if_pos h, h.1, h.2]
      · rw [if_neg h, if_neg h, add_zero]

/-- The double loop of `jacobianVectorProduct` over `i` and `j` at one interior face. -/
theorem foldl_addEntry_two_rows (a : ℤ → Vars K) (r₁ r₂ : ℤ) (x y : Fin 4 → Fin 4 → K) (c : ℤ)
    (v : Fin 4) :
    ((List.finRange 4).foldl (fun a i => (List.finRange 4).foldl (fun a j =>
      let a' := setEntry a r₁ i (a r₁ i + x i j)
      setEntry a' r₂ i (a' r₂ i + y i j)) a) a) c v
      = a c v + ((if c = r₁ then ((List.finRange 4).map (x v)).sum else 0)
        + (if c = r₂ then ((List.finRange 4).map (y v)).sum else 0)) := by
  rw [foldl_ev_add _ (fun a : ℤ → Vars K => a c v)
    (fun i => if v = i then ((if c = r₁ then ((List.finRange 4).map (x i)).sum else 0)
        + (if c = r₂ then ((List.finRange 4).map (y i)).sum else 0)) else 0)]
  · rw [sum_finRange_ite]
  · intro S i
    rw [foldl_ev_add _ (fun a : ℤ → Vars K => a c v)
      (fun j => if v = i then ((if c = r₁ then x i j else 0) + (if c = r₂ then y i j else 0))
        else 0)]
    · by_cases hv : v = i
      · simp only [if_pos hv]
        rw [List.sum_map_add]
        by_cases h1 : c = r₁
        · by_cases h2 : c = r₂
          · simp only [if_pos h1, if_pos h2]
          · simp only [if_pos h1, if_neg h2]
            simp
        · by_cases h2 : c = r₂
          · simp only [if_neg h1, if_pos h2]
            simp
          · simp only [if_neg h1, if_neg h2]
            simp
      · simp only [if_neg hv]
        simp
    · intro S j
      simp only [setEntry_apply]
      by_cases hv : v = i
      · subst hv
        by_cases h1 : c = r₁ <;> by_cases h2 : c = r₂ <;> by_cases h12 : r₂ = r₁ <;>
          first
          | (simp_all; done)
          | (simp_all; ring)
      · simp [hv]

theorem sum_map_ite_cell (m : UMesh2dh K) (c : ℤ) (hc : isCell m c) (x : K) :
    ((List.range m.gnelem).map (fun k : ℕ => if c = (k : ℤ) then x else 0)).sum = x := by
  obtain ⟨h0, h1⟩ := hc
  have key : ∀ n : ℕ, ((List.range n).map (fun k : ℕ => if c = (k : ℤ) then x else 0)).sum
      = if c < (n : ℤ) then x else 0 := by
    intro n
    induction n with
    | zero => simp [not_lt.mpr h0]
    | succ n ih =>
      rw [List.range_succ, List.map_append, List.sum_append, ih]
      have h3 : (c < ((n + 1 : ℕ) : ℤ)) ↔ (c < (n : ℤ) ∨ c = (n : ℤ)) := by
        push_cast; omega
      simp only [h3, List.map_cons, List.map_nil, List.sum_cons, List.sum_nil, add_zero]
      by_cases h : c < (n : ℤ)
      · have h2 : ¬ c = (n : ℤ) := by omega
        simp [h, h2]
      · by_cases h2 : c = (n : ℤ)
        · simp [h, h2]
        · simp [h, h2]
  rw [key, if_pos h1]

theorem sum_loopRange (lo hi : ℕ) (x : ℕ → K) :
    ((loopRange lo hi).map x).sum = ∑ f in Finset.Ico lo hi, x f := by
  rfl

theorem sum_finRange_mulVec (M : Block K) (x : Vars K) (v : Fin 4) :
    ((List.finRange 4).map (fun j => M v j * x j)).sum = M.mulVec x v := by
  rw [Matrix.mulVec, Matrix.dotProduct, Fin.sum_univ_def]

/-- Entry `v` of row `c` of the result of `jacobianVectorProduct`, for a cell `c` of the mesh. -/
theorem jacobianVectorProduct_entry (m : UMesh2dh K) (s : ImplicitSolver K) (du ans : ℤ → Vars K)
    (c : ℤ) (hc : isCell m c) (v : Fin 4) :
    jacobianVectorProduct m s du ans c v
      = (s.diag c).mulVec (du c) v
        + ∑ f in Finset.Ico m.gnbface m.gnaface,
            ((if c = m.gintfac f 1 then (s.lower f).mulVec (du (m.gintfac f 0)) v else 0)
            + (if c = m.gintfac f 0 then (s.upper f).mulVec (du (m.gintfac f 1)) v else 0)) := by
  unfold jacobianVectorProduct
  simp only []
  rw [foldl_ev_add _ (fun a : ℤ → Vars K => a c v)
    (fun f => (if c = m.gintfac f 1 then (s.lower f).mulVec (du (m.gintfac f 0)) v else 0)
            + (if c = m.gintfac f 0 then (s.upper f).mulVec (du (m.gintfac f 1)) v else 0)),
    foldl_ev_add _ (fun a : ℤ → Vars K => a c v)
    (fun k : ℕ => if c = (k : ℤ) then (s.diag c).mulVec (du c) v else 0)]
  · rw [sum_map_ite_cell m c hc, sum_loopRange]
    simp [zeros, hc]
  · intro S k
    rw [foldl_addEntry_row S (k : ℤ) (fun i j => s.diag k i j * du k j) c v]
    by_cases h : c = (k : ℤ)
    · subst h
      simp only [if_true]
      rw [sum_finRange_mulVec]
    · simp [h]
  · intro S f
    rw [foldl_addEntry_two_rows S (m.gintfac f 1) (m.gintfac f 0)
      (fun i j => s.lower f i j * du (m.gintfac f 0) j)
      (fun i j => s.upper f i j * du (m.gintfac f 1) j) c v]
    rw [sum_finRange_mulVec, sum_finRange_mulVec]

/-- C13 (Jacobian-vector product): for every cell `c` of the mesh, `jacobianVectorProduct`
sets `ans(c,:) = diag[c]*du[c]` plus the sum over the interior faces with right cell `c` of
`lower[f]*du[left(f)]` plus the sum over the interior faces with left cell `c` of
`upper[f]*du[right(f)]`, whatever `ans` held before the call. -/
theorem jacobianVectorProduct_apply (m : UMesh2dh K) (s : ImplicitSolver K)
    (du ans : ℤ → Vars K) (c : ℤ) (hc : isCell m c) :
    jacobianVectorProduct m s du ans c
      = (s.diag c).mulVec (du c)
        + ∑ f in Finset.Ico m.gnbface m.gnaface,
            (if m.gintfac f 1 = c then (s.lower f).mulVec (du (m.gintfac f 0)) else 0)
        + ∑ f in Finset.Ico m.gnbface m.gnaface,
            (if m.gintfac f 0 = c then (s.upper f).mulVec (du (m.gintfac f 1)) else 0) := by
  funext v
  rw [jacobianVectorProduct_entry m s du ans c hc v]
  simp only [Pi.add_apply, Finset.sum_apply, Finset.sum_add_distrib, add_assoc]
  congr 2
  · apply Finset.sum_congr rfl
    intro f _
    by_cases h : c = m.gintfac f 1
    · simp [h]
    · simp [h, Ne.symm h]
  · apply Finset.sum_congr rfl
    intro f _
    by_cases h : c = m.gintfac f 0
    · simp [h]
    · simp [h, Ne.symm h]

/-- `ImplicitSolver::compute_LHS` leaves the lower and upper block of every face outside the
interior-face range as it was. -/
theorem compute_LHS_lower_upper_frame (E : Externals K) (m : UMesh2dh K) (u : ℤ → Vars K)
    (ug : ℕ → Vars K) (s : ImplicitSolver K) (f : ℕ)
    (hf : f ∉ loopRange m.gnbface m.gnaface) :
    (compute_LHS E m u ug s).lower f = s.lower f
      ∧ (compute_LHS E m u ug s).upper f = s.upper f := by
  have hb := lhsBoundary_foldl_lower_upper E m u ug
    { s with diag := zeroBlocks m s.diag } (List.range m.gnbface)
  constructor
  · ext a b
    have h := (lhsInterior_foldl_lower_upper E m u
      ((List.range m.gnbface).foldl (lhsBoundaryFace E m u ug)
        { s with diag := zeroBlocks m s.diag }) (loopRange m.gnbface m.gnaface) f a b).1
    rw [if_neg hf, hb.1] at h
    exact h
  · ext a b
    have h := (lhsInterior_foldl_lower_upper E m u
      ((List.range m.gnbface).foldl (lhsBoundaryFace E m u ug)
        { s with diag := zeroBlocks m s.diag }) (loopRange m.gnbface m.gnaface) f a b).2
    rw [if_neg hf, hb.2] at h
    exact h

/-- `jacobianVectorProduct` reads the diagonal blocks and the lower and upper blocks of the
interior faces only. -/
theorem jacobianVectorProduct_congr (m : UMesh2dh K) (s₁ s₂ : ImplicitSolver K)
    (du ans : ℤ → Vars K) (hd : s₁.diag = s₂.diag)
    (hlu : ∀ f, m.gnbface ≤ f → f < m.gnaface →
      s₁.lower f = s₂.lower f ∧ s₁.upper f = s₂.upper f) :
    jacobianVectorProduct m s₁ du ans = jacobianVectorProduct m s₂ du ans := by
  unfold jacobianVectorProduct
  simp only [hd]
  apply List.foldl_ext
  intro a f hf
  obtain ⟨h1, h2⟩ := (mem_loopRange _ _ _).mp hf
  rw [(hlu f h1 h2).1, (hlu f h1 h2).2]

/-- C14 (boundary faces have no off-diagonal blocks): `ImplicitSolver::compute_LHS` leaves
`lower[f]` and `upper[f]` of every boundary face `f < nbface` unchanged, and the result of
`jacobianVectorProduct` is the same for any two block arrays that agree on the diagonal blocks
and on the lower and upper blocks of the interior faces, whatever the blocks of the boundary
faces hold. -/
theorem compute_LHS_boundary_blocks_untouched (E : Externals K) (m : UMesh2dh K)
    (u : ℤ → Vars K) (ug : ℕ → Vars K) (s : ImplicitSolver K) :
    (∀ f, f < m.gnbface →
        (compute_LHS E m u ug s).lower f = s.lower f
          ∧ (compute_LHS E m u ug s).upper f = s.upper f)
      ∧ (∀ (s₁ s₂ : ImplicitSolver K) (du ans : ℤ → Vars K), s₁.diag = s₂.diag →
          (∀ f, m.gnbface ≤ f → f < m.gnaface →
            s₁.lower f = s₂.lower f ∧ s₁.upper f = s₂.upper f) →
          jacobianVectorProduct m s₁ du ans = jacobianVectorProduct m s₂ du ans) := by
  constructor
  · intro f hf
    apply compute_LHS_lower_upper_frame
    rw [mem_loopRange]
    omega
  · intro s₁ s₂ du ans hd hlu
    exact jacobianVectorProduct_congr m s₁ s₂ du ans hd hlu

/-- A quantity that no pass of a loop changes is the same after the loop. -/
theorem foldl_preserve {σ β α : Type} (step : σ → β → σ) (p : σ → α)
    (h : ∀ S j, p (step S j) = p S) (L : List β) (S : σ) : p (L.foldl step S) = p S := by
  induction L generalizing S with
  | nil => rfl
  | cons j L ih => rw [List.foldl_cons, ih, h]

/-- A quantity that the body of a `while` loop does not change is the same at the exit. -/
theorem whileLoop_preserve {σ α : Type} (cond : σ → Prop) [DecidablePred cond] (body : σ → σ)
    (p : σ → α) (h : ∀ s, p (body s) = p s) (fuel : ℕ) (s : σ) :
    p (whileLoop cond body fuel s).1 = p s := by
  induction fuel generalizing s with
  | zero => rfl
  | succ fuel ih =>
    unfold whileLoop
    by_cases hc : cond s
    · rw [if_pos hc]
      simp only
      rw [ih, h]
    · rw [if_neg hc]

/-- A `while` loop whose body advances a counter by one and whose condition requires the
counter to be below `N`: with fuel for the remaining count it executes at most
`max (N - counter) 0` passes, exits with its condition false, has advanced the counter by the
number of passes, and more fuel changes nothing. -/
theorem whileLoop_counter {σ : Type} (cond : σ → Prop) [DecidablePred cond] (body : σ → σ)
    (ctr : σ → ℤ) (N : ℤ) (hbody : ∀ s, ctr (body s) = ctr s + 1)
    (hcond : ∀ s, cond s → ctr s < N) (fuel : ℕ) (s : σ) (hfuel : (N - ctr s).toNat ≤ fuel) :
    ((whileLoop cond body fuel s).2 : ℤ) ≤ max (N - ctr s) 0
      ∧ ¬ cond (whileLoop cond body fuel s).1
      ∧ ctr (whileLoop cond body fuel s).1 = ctr s + (whileLoop cond body fuel s).2
      ∧ whileLoop cond body fuel s = whileLoop cond body (N - ctr s).toNat s := by
  induction fuel generalizing s with
  | zero =>
    have h0 : (N - ctr s).toNat = 0 := Nat.le_zero.mp hfuel
    have hn : ¬ cond s := fun hc => by
      have := hcond s hc
      omega
    rw [h0]
    exact ⟨by simp [whileLoop], by simpa [whileLoop] using hn, by simp [whileLoop], rfl⟩
  | succ fuel ih =>
    by_cases hc : cond s
    · have hlt := hcond s hc
      have hb := hbody s
      have hf : (N - ctr (body s)).toNat ≤ fuel := by omega
      obtain ⟨i1, i2, i3, i4⟩ := ih (body s) hf
      have hk : (N - ctr s).toNat = (N - ctr (body s)).toNat + 1 := by omega
      have e1 : whileLoop cond body (fuel + 1) s
          = ((whileLoop cond body fuel (body s)).1, (whileLoop cond body fuel (body s)).2 + 1) := by
        rw [whileLoop, if_pos hc]
      have e2 : whileLoop cond body ((N - ctr (body s)).toNat + 1) s
          = ((whileLoop cond body (N - ctr (body s)).toNat (body s)).1,
              (whileLoop cond body (N - ctr (body s)).toNat (body s)).2 + 1) := by
        rw [whileLoop, if_pos hc]
      rw [hk, e1, e2]
      refine ⟨?_, i2, ?_, ?_⟩
      · simp only
        push_cast
        have : max (N - ctr (body s)) 0 + 1 ≤ max (N - ctr s) 0 := by
          rw [hb]
          rcases le_total (N - (ctr s + 1)) 0 with h | h
          · rw [max_eq_right h]
            have : (1 : ℤ) ≤ N - ctr s := by omega
            exact le_trans (by omega) (le_max_left _ _)
          · rw [max_eq_left h]
            exact le_trans (by omega) (le_max_left _ _)
        omega
      · simp only
        rw [i3, hb]
        push_cast
        ring
      · rw [i4]
    · have e1 : whileLoop cond body (fuel + 1) s = (s, 0) := by
        rw [whileLoop, if_neg hc]
      have e2 : whileLoop cond body (N - ctr s).toNat s = (s, 0) := by
        cases (N - ctr s).toNat with
        | zero => rfl
        | succ k => rw [whileLoop, if_neg hc]
      rw [e1, e2]
      refine ⟨?_, hc, ?_, rfl⟩
      · simp
      · simp

theorem addPseudoTimeAndFactor_step (L : LinearExternals K) (m : UMesh2dh K)
    (s : SteadyStateImplicitSolver K) :
    (addPseudoTimeAndFactor L m s).step = s.step
      ∧ (addPseudoTimeAndFactor L m s).initres = s.initres := by
  unfold addPseudoTimeAndFactor
  constructor
  · apply foldl_preserve _ (fun S : SteadyStateImplicitSolver K => S.step)
    intro S j
    rfl
  · apply foldl_preserve _ (fun S : SteadyStateImplicitSolver K => S.initres)
    intro S j
    rfl

/-- The counters and the norms at the end of one outer iteration of `solve()`. -/
theorem solveIteration_step (E : Externals K) (L : LinearExternals K) (cfg : SteadyConfig K)
    (m : UMesh2dh K) (s : SteadyStateImplicitSolver K) :
    (solveIteration E L cfg m s).step = s.step + 1
      ∧ (solveIteration E L cfg m s).resi = massResidual E m (solveIteration E L cfg m s).du
      ∧ (solveIteration E L cfg m s).initres
          = if s.step = 0 then (solveIteration E L cfg m s).resi else s.initres := by
  have hstep : ∀ t : SteadyStateImplicitSolver K,
      (whileLoop (linCond cfg) (linearIteration E L m) cfg.linmaxiter.toNat t).1.step
        = t.step := by
    intro t
    apply whileLoop_preserve (linCond cfg) (linearIteration E L m)
      (fun S : SteadyStateImplicitSolver K => S.step)
    intro S
    rfl
  have hinit : ∀ t : SteadyStateImplicitSolver K,
      (whileLoop (linCond cfg) (linearIteration E L m) cfg.linmaxiter.toNat t).1.initres
        = t.initres := by
    intro t
    apply whileLoop_preserve (linCond cfg) (linearIteration E L m)
      (fun S : SteadyStateImplicitSolver K => S.initres)
    intro S
    rfl
  refine ⟨?_, rfl, ?_⟩
  · simp only [solveIteration, hstep, assembleAndFactor, (addPseudoTimeAndFactor_step L m _).1]
  · simp only [solveIteration, hstep, hinit, assembleAndFactor,
      (addPseudoTimeAndFactor_step L m _).1, (addPseudoTimeAndFactor_step L m _).2]

/-- C15 (iteration caps): given fuel for `max(steadymaxiter, 0)` passes, the outer loop of
`SteadyStateImplicitSolver::solve` executes at most `max(steadymaxiter, 0)` iterations, more
fuel changes nothing, and at its exit `step >= steadymaxiter` or `resi/initres` is not above
`steadytol`; the linear loop, entered with `linstep = 0` and given fuel for
`max(linmaxiter, 0)` passes (as each outer iteration does), executes at most
`max(linmaxiter, 0)` iterations, exits with its condition false, and more fuel changes
nothing. -/
theorem solve_iteration_caps (E : Externals K) (L : LinearExternals K) (cfg : SteadyConfig K)
    (m : UMesh2dh K) (s : SteadyStateImplicitSolver K) :
    (∀ fuel : ℕ, cfg.steadymaxiter.toNat ≤ fuel →
        ((solve E L cfg m s fuel).2 : ℤ) ≤ max cfg.steadymaxiter 0
          ∧ (cfg.steadymaxiter ≤ (solve E L cfg m s fuel).1.step
              ∨ ¬ (solve E L cfg m s fuel).1.resi / (solve E L cfg m s fuel).1.initres
                  > cfg.steadytol)
          ∧ solve E L cfg m s fuel = solve E L cfg m s cfg.steadymaxiter.toNat)
      ∧ (∀ (t : SteadyStateImplicitSolver K) (fuel : ℕ), t.linstep = 0 →
          cfg.linmaxiter.toNat ≤ fuel →
          ((whileLoop (linCond cfg) (linearIteration E L m) fuel t).2 : ℤ) ≤ max cfg.linmaxiter 0
            ∧ ¬ linCond cfg (whileLoop (linCond cfg) (linearIteration E L m) fuel t).1
            ∧ whileLoop (linCond cfg) (linearIteration E L m) fuel t
                = whileLoop (linCond cfg) (linearIteration E L m) cfg.linmaxiter.toNat t) := by
  constructor
  · intro fuel hfuel
    have h := whileLoop_counter (steadyCond cfg) (solveIteration E L cfg m)
      (fun S : SteadyStateImplicitSolver K => S.step) cfg.steadymaxiter
      (fun S => (solveIteration_step E L cfg m S).1) (fun S hS => hS.2) fuel
      { s with step := 0, resi := 1.0, initres := 1.0 } (by simpa using hfuel)
    obtain ⟨h1, h2, -, h4⟩ := h
    simp only [sub_zero] at h1 h4
    refine ⟨h1, ?_, h4⟩
    unfold steadyCond at h2
    by_cases hr : (solve E L cfg m s fuel).1.resi / (solve E L cfg m s fuel).1.initres
        > cfg.steadytol
    · left
      by_contra hlt
      exact h2 ⟨hr, not_le.mp hlt⟩
    · right
      exact hr
  · intro t fuel ht hfuel
    have h := whileLoop_counter (linCond cfg) (linearIteration E L m)
      (fun S : SteadyStateImplicitSolver K => S.linstep) cfg.linmaxiter
      (fun _ => rfl) (fun S hS => hS.2) fuel t (by simpa [ht] using hfuel)
    obtain ⟨h1, h2, -, h4⟩ := h
    simp only [ht, sub_zero] at h1 h4
    exact ⟨h1, h2, h4⟩

theorem sum_range_list (n : ℕ) (x : ℕ → K) :
    ((List.range n).map x).sum = ∑ k in Finset.range n, x k := by
  rfl

/-- The norm of `solve()` as a sum over the cells. -/
theorem massResidual_eq (E : Externals K) (m : UMesh2dh K) (v : ℤ → Vars K) :
    massResidual E m v
      = E.sqrt (∑ iel in Finset.range m.gnelem, v iel 0 * v iel 0 * m.garea iel) := by
  unfold massResidual
  rw [foldl_ev_add _ (fun r : K => r) (fun iel : ℕ => v iel 0 * v iel 0 * m.garea iel)
    (fun _ _ => rfl), zero_add, sum_range_list]

theorem solveIteration_iterate_step (E : Externals K) (L : LinearExternals K)
    (cfg : SteadyConfig K) (m : UMesh2dh K) (s : SteadyStateImplicitSolver K) (k : ℕ) :
    ((solveIteration E L cfg m)^[k] s).step = s.step + k := by
  induction k with
  | zero => simp
  | succ k ih =>
    rw [Function.iterate_succ_apply', (solveIteration_step E L cfg m _).1, ih]
    push_cast
    ring

/-- C16 (convergence metric): at the end of every outer iteration of
`SteadyStateImplicitSolver::solve`, `resi` is `sqrt` of the sum over the cells of
`du[cell](0)^2 * area(cell)`; this norm only reads component 0 of the increment; and `initres`,
set to `resi` in the iteration with `step = 0`, is still that value after any number of
further iterations. -/
theorem solve_mass_residual (E : Externals K) (L : LinearExternals K) (cfg : SteadyConfig K)
    (m : UMesh2dh K) :
    (∀ s : SteadyStateImplicitSolver K,
        (solveIteration E L cfg m s).resi
          = E.sqrt (∑ iel in Finset.range m.gnelem,
              (solveIteration E L cfg m s).du iel 0 ^ 2 * m.garea iel))
      ∧ (∀ du₁ du₂ : ℤ → Vars K, (∀ c, du₁ c 0 = du₂ c 0) →
          massResidual E m du₁ = massResidual E m du₂)
      ∧ (∀ s : SteadyStateImplicitSolver K, s.step = 0 → ∀ k : ℕ,
          ((solveIteration E L cfg m)^[k + 1] s).initres = (solveIteration E L cfg m s).resi) := by
  refine ⟨?_, ?_, ?_⟩
  · intro s
    rw [(solveIteration_step E L cfg m s).2.1, massResidual_eq]
    congr 1
    apply Finset.sum_congr rfl
    intro iel _
    ring
  · intro du₁ du₂ h
    rw [massResidual_eq, massResidual_eq]
    congr 1
    apply Finset.sum_congr rfl
    intro iel _
    rw [h]
  · intro s hs k
    induction k with
    | zero =>
      rw [zero_add, Function.iterate_one, (solveIteration_step E L cfg m s).2.2, if_pos hs]
    | succ k ih =>
      rw [Function.iterate_succ_apply', (solveIteration_step E L cfg m _).2.2,
        solveIteration_iterate_step, hs]
      have hne : ¬ ((0 : ℤ) + ((k + 1 : ℕ) : ℤ) = 0) := by
        push_cast
        omega
      rw [if_neg hne, ih]

/-- The value `dtmin` after the first loop of the time-step computation: the minimum of its
initial value `1.0` and of `curCFL*(area/integ)` of the cells. -/
theorem computeTimeSteps_foldl (m : UMesh2dh K) (curCFL : K) (integ dtl : ℤ → K) (n : ℕ) :
    ((List.range n).foldl (fun (acc : (ℤ → K) × K) (iel : ℕ) =>
      let dtl1 := Function.update acc.1 (iel : ℤ) (curCFL * (m.garea iel / integ iel))
      (dtl1, if dtl1 iel < acc.2 then dtl1 iel else acc.2)) (dtl, 1.0)).2
      = (List.range n).foldl (fun (d : K) (iel : ℕ) =>
          min d (curCFL * (m.garea iel / integ iel))) 1.0 := by
  induction n with
  | zero => rfl
  | succ n ih =>
    rw [foldl_range_succ, foldl_range_succ]
    simp only [Function.update_same] at ih ⊢
    rw [ih]
    generalize (List.range n).foldl (fun (d : K) (iel : ℕ) =>
          min d (curCFL * (m.garea iel / integ iel))) 1.0 = d
    generalize curCFL * (m.garea n / integ n) = x
    by_cases h : x < d
    · rw [if_pos h, min_eq_right h.le]
    · rw [if_neg h, min_eq_left (not_lt.mp h)]

/-- The time step that `SteadyStateImplicitSolver::solve` gives every cell: the minimum of
`1.0` and of `curCFL*(area/integ)` over the cells. -/
theorem computeTimeSteps_apply (m : UMesh2dh K) (curCFL : K) (integ dtl : ℤ → K) (c : ℤ)
    (hc : isCell m c) :
    computeTimeSteps m curCFL integ dtl c
      = (List.range m.gnelem).foldl (fun (d : K) (iel : ℕ) =>
          min d (curCFL * (m.garea iel / integ iel))) 1.0 := by
  unfold computeTimeSteps
  simp only [if_pos hc]
  exact computeTimeSteps_foldl m curCFL integ dtl m.gnelem

/-- C12, evaluated on the two-cell mesh with `curCFL = 8` and `integ = 4` in both cells of
area 1: `curCFL*area/integ` is 2 in both cells, so their minimum is 2, but the time step that
`solve()` leaves in both cells is 1, the initial value of `dtmin`. -/
theorem computeTimeSteps_capped :
    ((8 : ℚ) * ((quadMesh : UMesh2dh ℚ).garea 0 / (fun _ => (4 : ℚ)) (0 : ℤ)) = 2
        ∧ (8 : ℚ) * ((quadMesh : UMesh2dh ℚ).garea 1 / (fun _ => (4 : ℚ)) (1 : ℤ)) = 2)
      ∧ computeTimeSteps (quadMesh : UMesh2dh ℚ) 8 (fun _ => 4) (fun _ => 0) 0 = 1
      ∧ computeTimeSteps (quadMesh : UMesh2dh ℚ) 8 (fun _ => 4) (fun _ => 0) 1 = 1 := by
  refine ⟨?_, ?_, ?_⟩
  · constructor <;> norm_num [quadMesh]
  · rw [computeTimeSteps_apply _ _ _ _ _ (by decide)]
    norm_num [quadMesh, List.range_succ]
  · rw [computeTimeSteps_apply _ _ _ _ _ (by decide)]
    norm_num [quadMesh, List.range_succ]

/-- A loop over the cells whose pass `k` changes an observed quantity of cell `c` only when
`c = k`, and then by `F`. -/
theorem foldl_range_local {σ α : Type} (step : σ → ℕ → σ) (ev : σ → α) (c : ℤ) (F : α → α)
    (hother : ∀ S (k : ℕ), c ≠ (k : ℤ) → ev (step S k) = ev S)
    (hsame : ∀ S (k : ℕ), c = (k : ℤ) → ev (step S k) = F (ev S)) (n : ℕ) (S : σ) :
    ev ((List.range n).foldl step S)
      = if 0 ≤ c ∧ c < (n : ℤ) then F (ev S) else ev S := by
  induction n with
  | zero =>
    have : ¬ (0 ≤ c ∧ c < ((0 : ℕ) : ℤ)) := by push_cast; omega
    rw [if_neg this]
    rfl
  | succ n ih =>
    rw [foldl_range_succ]
    by_cases hcn : c = (n : ℤ)
    · rw [hsame _ n hcn, ih]
      have h1 : ¬ (0 ≤ c ∧ c < (n : ℤ)) := by omega
      have h2 : 0 ≤ c ∧ c < ((n + 1 : ℕ) : ℤ) := by push_cast; omega
      rw [if_neg h1, if_pos h2]
    · rw [hother _ n hcn, ih]
      by_cases h1 : 0 ≤ c ∧ c < (n : ℤ)
      · have h2 : 0 ≤ c ∧ c < ((n + 1 : ℕ) : ℤ) := by push_cast; omega
        rw [if_pos h1, if_pos h2]
      · have h2 : ¬ (0 ≤ c ∧ c < ((n + 1 : ℕ) : ℤ)) := by push_cast; omega
        rw [if_neg h1, if_neg h2]

/-- Adding `x` to the 4 diagonal entries of block `c` adds `x` times the identity to it. -/
theorem addBlock_diagonal (D : ℤ → Block K) (c : ℤ) (x : K) (c' : ℤ) :
    addBlock (addBlock (addBlock (addBlock D c 0 0 x) c 1 1 x) c 2 2 x) c 3 3 x c'
      = if c' = c then D c' + x • (1 : Block K) else D c' := by
  by_cases h : c' = c
  · rw [if_pos h]
    ext a b
    simp only [addBlock_apply, h, true_and, Matrix.add_apply, Matrix.smul_apply,
      Matrix.one_apply, smul_eq_mul]
    fin_cases a <;> fin_cases b <;> simp
  · rw [if_neg h]
    ext a b
    simp [addBlock_apply, h]

/-- The diagonal block, its factorisation and the pivot vector of a cell `c` of the mesh after
the factorisation loop of `SteadyStateImplicitSolver::solve`. -/
theorem addPseudoTimeAndFactor_apply (L : LinearExternals K) (m : UMesh2dh K)
    (s : SteadyStateImplicitSolver K) (c : ℤ) (hc : isCell m c) :
    (addPseudoTimeAndFactor L m s).lhs.diag c
        = s.lhs.diag c + (m.garea c / s.dtl c) • (1 : Block K)
      ∧ (addPseudoTimeAndFactor L m s).ludiag c
        = (L.LUfactor (s.lhs.diag c + (m.garea c / s.dtl c) • (1 : Block K)) (s.diagp c)).1
      ∧ (addPseudoTimeAndFactor L m s).diagp c
        = (L.LUfactor (s.lhs.diag c + (m.garea c / s.dtl c) • (1 : Block K)) (s.diagp c)).2 := by
  have h := foldl_range_local
    (fun (s : SteadyStateImplicitSolver K) (iel : ℕ) =>
      let d := addBlock s.lhs.diag (iel : ℤ) 0 0 (m.garea iel / s.dtl iel)
      let d := addBlock d (iel : ℤ) 1 1 (m.garea iel / s.dtl iel)
      let d := addBlock d (iel : ℤ) 2 2 (m.garea iel / s.dtl iel)
      let d := addBlock d (iel : ℤ) 3 3 (m.garea iel / s.dtl iel)
      let lu := Function.update s.ludiag (iel : ℤ) (d iel)
      { s with
        lhs := { s.lhs with diag := d },
        ludiag := Function.update lu (iel : ℤ) (L.LUfactor (lu iel) (s.diagp iel)).1,
        diagp := Function.update s.diagp (iel : ℤ) (L.LUfactor (lu iel) (s.diagp iel)).2 })
    (fun S : SteadyStateImplicitSolver K => (S.lhs.diag c, S.ludiag c, S.diagp c, S.dtl c)) c
    (fun x : Block K × Block K × (Fin 4 → ℤ) × K =>
      (x.1 + (m.garea c / x.2.2.2) • (1 : Block K),
        (L.LUfactor (x.1 + (m.garea c / x.2.2.2) • (1 : Block K)) x.2.2.1).1,
        (L.LUfactor (x.1 + (m.garea c / x.2.2.2) • (1 : Block K)) x.2.2.1).2, x.2.2.2))
    (by
      intro S k hk
      simp only [addBlock_diagonal, if_neg hk, Function.update_noteq hk])
    (by
      intro S k hk
      subst hk
      simp only [addBlock_diagonal, if_true, Function.update_same])
    m.gnelem s
  rw [if_pos (show 0 ≤ c ∧ c < (m.gnelem : ℤ) from hc)] at h
  simp only [Prod.mk.injEq] at h
  exact ⟨h.1, h.2.1, h.2.2.1⟩

/-- The diagonal block and the pivot vector of a cell `c` of the mesh after the factorisation
loop of `SteadyStateImplicitSolverMF::solve`. -/
theorem assembleAndFactorMF_apply (E : Externals K) (L : LinearExternals K) (m : UMesh2dh K)
    (u : ℤ → Vars K) (ug : ℕ → Vars K) (dtl : ℤ → K) (t : ImplicitSolverMF K)
    (diagp : ℤ → Fin 4 → ℤ) (c : ℤ) (hc : isCell m c) :
    (assembleAndFactorMF E L m u ug dtl t diagp).1.diag c
        = (L.LUfactor ((compute_LHS_MF E m u ug t).diag c + (m.garea c / dtl c) • (1 : Block K))
            (diagp c)).1 := by
  have h := foldl_range_local
    (fun (acc : ImplicitSolverMF K × (ℤ → Fin 4 → ℤ)) (iel : ℕ) =>
      let d := addBlock acc.1.diag (iel : ℤ) 0 0 (m.garea iel / dtl iel)
      let d := addBlock d (iel : ℤ) 1 1 (m.garea iel / dtl iel)
      let d := addBlock d (iel : ℤ) 2 2 (m.garea iel / dtl iel)
      let d := addBlock d (iel : ℤ) 3 3 (m.garea iel / dtl iel)
      (({ acc.1 with diag := Function.update d (iel : ℤ) (L.LUfactor (d iel) (acc.2 iel)).1 } :
          ImplicitSolverMF K),
        Function.update acc.2 (iel : ℤ) (L.LUfactor (d iel) (acc.2 iel)).2))
    (fun acc : ImplicitSolverMF K × (ℤ → Fin 4 → ℤ) => (acc.1.diag c, acc.2 c)) c
    (fun x : Block K × (Fin 4 → ℤ) =>
      ((L.LUfactor (x.1 + (m.garea c / dtl c) • (1 : Block K)) x.2).1,
        (L.LUfactor (x.1 + (m.garea c / dtl c) • (1 : Block K)) x.2).2))
    (by
      intro S k hk
      simp only [addBlock_diagonal, if_neg hk, Function.update_noteq hk])
    (by
      intro S k hk
      subst hk
      simp only [addBlock_diagonal, if_true, Function.update_same])
    m.gnelem (compute_LHS_MF E m u ug t, diagp)
  rw [if_pos (show 0 ≤ c ∧ c < (m.gnelem : ℤ) from hc)] at h
  simp only [Prod.mk.injEq] at h
  exact h.1

/-- C11 (pseudo-time term before factorisation): in `SteadyStateImplicitSolver::solve` the
block handed to `LUfactor` for a cell `iel`, and left in `diag[iel]`, is the block that
`compute_LHS` assembled plus `area(iel)/dtl(iel)` times the identity (the 4 diagonal entries
shifted, the 12 off-diagonal entries unchanged); in `SteadyStateImplicitSolverMF::solve` the
block handed to `LUfactor` is the block that the matrix-free `compute_LHS` assembled plus
`area(iel)/dtl(iel)` times the identity. -/
theorem solve_factorizes_shifted_block (E : Externals K) (L : LinearExternals K)
    (m : UMesh2dh K) (iel : ℤ) (hiel : isCell m iel) :
    (∀ s : SteadyStateImplicitSolver K,
        (assembleAndFactor E L m s).ludiag iel
            = (L.LUfactor ((compute_LHS E m s.base.u s.base.ug s.lhs).diag iel
                + (m.garea iel / s.dtl iel) • (1 : Block K)) (s.diagp iel)).1
          ∧ (assembleAndFactor E L m s).lhs.diag iel
            = (compute_LHS E m s.base.u s.base.ug s.lhs).diag iel
                + (m.garea iel / s.dtl iel) • (1 : Block K))
      ∧ (∀ (u : ℤ → Vars K) (ug : ℕ → Vars K) (dtl : ℤ → K) (t : ImplicitSolverMF K)
          (diagp : ℤ → Fin 4 → ℤ),
          (assembleAndFactorMF E L m u ug dtl t diagp).1.diag iel
            = (L.LUfactor ((compute_LHS_MF E m u ug t).diag iel
                + (m.garea iel / dtl iel) • (1 : Block K)) (diagp iel)).1) := by
  constructor
  · intro s
    have h := addPseudoTimeAndFactor_apply L m
      { s with lhs := compute_LHS E m s.base.u s.base.ug s.lhs } iel hiel
    exact ⟨h.2.1, h.1⟩
  · intro u ug dtl t diagp
    exact assembleAndFactorMF_apply E L m u ug dtl t diagp iel hiel

/-- C18, evaluated at an unknown limiter name and at an unknown linear-solver name:
constructing the solver with the limiter name "FOO" (flux "ROE", linear solver "BJ"), and with
the linear-solver name "FOO" (flux "ROE", limiter "NONE"), writes no error line, the lines
written being the usual progress messages, and returns with the limiter pointer, respectively
the solver pointer, unset; with the unknown flux name "FOO" the sibling selection does write
the error line "! Flux scheme not available!". -/
theorem ImplicitSolver_ctor_unknown_name_silent :
    (¬ reportsError (ImplicitSolver_ctor 1 ("ROE") ("GREENGAUSS") ("FOO") ("BJ"))
      ∧ (ImplicitSolver_ctor 1 ("ROE") ("GREENGAUSS") ("FOO") ("BJ")).cout
          = [Message.settingUp 1, Message.usingRoe, Message.reconstructionIs ("GREENGAUSS"),
              Message.noReconstruction, Message.bjUsed]
      ∧ (ImplicitSolver_ctor 1 ("ROE") ("GREENGAUSS") ("FOO") ("BJ")).lim = none)
    ∧ (¬ reportsError (ImplicitSolver_ctor 1 ("ROE") ("GREENGAUSS") ("NONE") ("FOO"))
      ∧ (ImplicitSolver_ctor 1 ("ROE") ("GREENGAUSS") ("NONE") ("FOO")).cout
          = [Message.settingUp 1, Message.usingRoe, Message.reconstructionIs ("GREENGAUSS"),
              Message.noReconstruction, Message.noLimiter]
      ∧ (ImplicitSolver_ctor 1 ("ROE") ("GREENGAUSS") ("NONE") ("FOO")).solver = none)
    ∧ (reportsError (ImplicitSolver_ctor 1 ("FOO") ("GREENGAUSS") ("NONE") ("BJ"))
      ∧ (ImplicitSolver_ctor 1 ("FOO") ("GREENGAUSS") ("NONE") ("BJ")).inviflux = none) := by
  decide

/-- The flux selection of the constructor, the sibling of the limiter and linear-solver
selections: constructing the solver with an inviscid flux name outside `VANLEER`, `ROE`,
`HLLC` writes the error line "! Flux scheme not available!" during construction and yields no
usable solver, the flux pointer being left unset. -/
theorem ImplicitSolver_ctor_unknown_flux (order : ℤ)
    (invflux reconst limiter linear_solver : String)
    (h1 : invflux ≠ "VANLEER") (h2 : invflux ≠ "ROE") (h3 : invflux ≠ "HLLC") :
    reportsError (ImplicitSolver_ctor order invflux reconst limiter linear_solver)
      ∧ (ImplicitSolver_ctor order invflux reconst limiter linear_solver).inviflux = none
      ∧ ¬ usable (ImplicitSolver_ctor order invflux reconst limiter linear_solver) := by
  have hb : (ImplicitSolverBase_ctor order invflux reconst limiter).inviflux = none := by
    simp [ImplicitSolverBase_ctor, h1, h2, h3]
  have hr : Message.fluxNotAvailable ∈ (ImplicitSolverBase_ctor order invflux reconst limiter).cout := by
    simp only [ImplicitSolverBase_ctor, h1, h2, h3, if_false]
    split_ifs <;> simp
  have hi : (ImplicitSolver_ctor order invflux reconst limiter linear_solver).inviflux = none := by
    unfold ImplicitSolver_ctor
    split_ifs <;> simp [hb]
  refine ⟨?_, hi, ?_⟩
  · unfold reportsError ImplicitSolver_ctor
    split_ifs <;> simp [hr]
  · unfold usable
    rw [hi]
    simp

theorem ImplicitSolver_ctor_unknown_flux_witness :
    (("FOO" : String) ≠ "VANLEER" ∧ ("FOO" : String) ≠ "ROE" ∧ ("FOO" : String) ≠ "HLLC")
      ∧ reportsError (ImplicitSolver_ctor 2 ("FOO") ("GREENGAUSS") ("NONE") ("SSOR"))
      ∧ (ImplicitSolver_ctor 2 ("FOO") ("GREENGAUSS") ("NONE") ("SSOR")).inviflux = none
      ∧ ¬ usable (ImplicitSolver_ctor 2 ("FOO") ("GREENGAUSS") ("NONE") ("SSOR")) :=
  ⟨by decide, ImplicitSolver_ctor_unknown_flux 2 ("FOO") ("GREENGAUSS") ("NONE") ("SSOR")
    (by decide) (by decide) (by decide)⟩

/-- A quantity that the passes of a loop over the members of `L` do not change is the same
after the loop. -/
theorem foldl_preserve_mem {σ β α : Type} (step : σ → β → σ) (p : σ → α) (L : List β)
    (h : ∀ S, ∀ j ∈ L, p (step S j) = p S) (S : σ) : p (L.foldl step S) = p S := by
  induction L generalizing S with
  | nil => rfl
  | cons j L ih =>
    rw [List.foldl_cons, ih (fun S k hk => h S k (List.mem_cons_of_mem j hk)),
      h S j (List.mem_cons_self j L)]

/-- `compute_boundary_states` leaves the rows of the faces that are not boundary faces as
they were. -/
theorem compute_boundary_states_frame (m : UMesh2dh K) (uinf : Vars K) (ins bs : ℕ → Vars K)
    (f : ℕ) (hf : m.gnbface ≤ f) :
    compute_boundary_states m uinf ins bs f = bs f := by
  unfold compute_boundary_states
  apply foldl_preserve_mem _ (fun b : ℕ → Vars K => b f)
  intro S ied hied
  have h : f ≠ ied := by
    rw [List.mem_range] at hied
    omega
  funext v
  by_cases h4 : m.ggallfa ied 3 = inflow_outflow_id
  · simp only [h4, if_true]
    rw [foldl_setEntry_row, if_neg h]
    by_cases h2 : inflow_outflow_id = (solid_wall_id : K)
    · rw [if_pos h2]
      simp [setEntry_apply, h]
    · rw [if_neg h2]
  · simp only [if_neg h4]
    by_cases h2 : m.ggallfa ied 3 = solid_wall_id
    · rw [if_pos h2]
      simp [setEntry_apply, h]
    · rw [if_neg h2]

/-- The left and right face states that first-order `compute_RHS` hands to the flux: the
states of the left cell and, at interior faces, of the right cell. -/
theorem compute_RHS_face_states (E : Externals K) (m : UMesh2dh K) (s : ImplicitSolverBase K)
    (horder : s.order ≠ 2) (f : ℕ) (hf : f < m.gnaface) :
    (compute_RHS E m s).uleft f = s.u (m.gintfac f 0)
      ∧ (m.gnbface ≤ f → (compute_RHS E m s).uright f = s.u (m.gintfac f 1)) := by
  have hl1 : ∀ f', ((List.range m.gnbface).foldl (fun ul ied =>
      (List.finRange 4).foldl (fun ul ivar =>
        setEntry ul ied ivar (s.u (m.gintfac ied 0) ivar)) ul) s.uleft) f'
      = if f' ∈ List.range m.gnbface then s.u (m.gintfac f' 0) else s.uleft f' := by
    intro f'
    rw [foldl_ev_set _ (fun ul : ℕ → Vars K => ul f') (fun ied => f' = ied)
      (s.u (m.gintfac f' 0))]
    · simp
    · intro S ied
      funext v
      rw [foldl_setEntry_row]
      by_cases h : f' = ied
      · subst h; simp
      · simp [h]
  have hpair : ∀ (lr : (ℕ → Vars K) × (ℕ → Vars K)) (ied f' : ℕ),
      ((List.finRange 4).foldl (fun (lr : (ℕ → Vars K) × (ℕ → Vars K)) ivar =>
        (setEntry lr.1 ied ivar (s.u (m.gintfac ied 0) ivar),
         setEntry lr.2 ied ivar (s.u (m.gintfac ied 1) ivar))) lr).1 f'
        = (if f' = ied then s.u (m.gintfac f' 0) else lr.1 f')
      ∧ ((List.finRange 4).foldl (fun (lr : (ℕ → Vars K) × (ℕ → Vars K)) ivar =>
        (setEntry lr.1 ied ivar (s.u (m.gintfac ied 0) ivar),
         setEntry lr.2 ied ivar (s.u (m.gintfac ied 1) ivar))) lr).2 f'
        = (if f' = ied then s.u (m.gintfac f' 1) else lr.2 f') := by
    intro lr ied f'
    constructor
    · funext v
      rw [foldl_ev_set _ (fun lr : (ℕ → Vars K) × (ℕ → Vars K) => lr.1 f' v)
        (fun i => f' = ied ∧ v = i) (s.u (m.gintfac f' 0) v)]
      · by_cases h : f' = ied
        · simp [h]
        · simp [h]
      · intro S i
        simp only [setEntry_apply]
        by_cases h : f' = ied ∧ v = i
        · rw [if_pos h, if_pos h, h.1, h.2]
        · rw [if_neg h, if_neg h]
    · funext v
      rw [foldl_ev_set _ (fun lr : (ℕ → Vars K) × (ℕ → Vars K) => lr.2 f' v)
        (fun i => f' = ied ∧ v = i) (s.u (m.gintfac f' 1) v)]
      · by_cases h : f' = ied
        · simp [h]
        · simp [h]
      · intro S i
        simp only [setEntry_apply]
        by_cases h : f' = ied ∧ v = i
        · rw [if_pos h, if_pos h, h.1, h.2]
        · rw [if_neg h, if_neg h]
  have hint : ∀ (lr : (ℕ → Vars K) × (ℕ → Vars K)) (f' : ℕ),
      ((loopRange m.gnbface m.gnaface).foldl (fun lr ied =>
        (List.finRange 4).foldl (fun (lr : (ℕ → Vars K) × (ℕ → Vars K)) ivar =>
          (setEntry lr.1 ied ivar (s.u (m.gintfac ied 0) ivar),
           setEntry lr.2 ied ivar (s.u (m.gintfac ied 1) ivar))) lr) lr).1 f'
        = (if f' ∈ loopRange m.gnbface m.gnaface then s.u (m.gintfac f' 0) else lr.1 f')
      ∧ ((loopRange m.gnbface m.gnaface).foldl (fun lr ied =>
        (List.finRange 4).foldl (fun (lr : (ℕ → Vars K) × (ℕ → Vars K)) ivar =>
          (setEntry lr.1 ied ivar (s.u (m.gintfac ied 0) ivar),
           setEntry lr.2 ied ivar (s.u (m.gintfac ied 1) ivar))) lr) lr).2 f'
        = (if f' ∈ loopRange m.gnbface m.gnaface then s.u (m.gintfac f' 1) else lr.2 f') := by
    intro lr f'
    constructor
    · rw [foldl_ev_set _ (fun lr : (ℕ → Vars K) × (ℕ → Vars K) => lr.1 f')
        (fun ied => f' = ied) (s.u (m.gintfac f' 0))]
      · simp
      · intro S ied
        exact (hpair S ied f').1
    · rw [foldl_ev_set _ (fun lr : (ℕ → Vars K) × (ℕ → Vars K) => lr.2 f')
        (fun ied => f' = ied) (s.u (m.gintfac f' 1))]
      · simp
      · intro S ied
        exact (hpair S ied f').2
  simp only [compute_RHS, if_neg horder]
  constructor
  · rw [(hint _ f).1]
    by_cases h : f ∈ loopRange m.gnbface m.gnaface
    · rw [if_pos h]
    · rw [if_neg h]
      have : f ∈ List.range m.gnbface := by
        rw [mem_loopRange] at h
        rw [List.mem_range]
        omega
      dsimp only
      rw [hl1, if_pos this]
  · intro hge
    rw [compute_boundary_states_frame _ _ _ _ _ hge, (hint _ f).2,
      if_pos ((mem_loopRange _ _ _).mpr ⟨hge, hf⟩)]


/-- The residual of a cell `c` of the mesh after `compute_RHS`: the sum over all faces of the
scattered face fluxes. -/
theorem compute_RHS_residual_apply (E : Externals K) (m : UMesh2dh K) (s : ImplicitSolverBase K)
    (c : ℤ) (hc : isCell m c) (ivar : Fin 4) :
    (compute_RHS E m s).residual c ivar
      = ∑ f in Finset.range m.gnaface,
          (-(if c = m.gintfac f 0
              then fluxp E m (compute_RHS E m s).uleft (compute_RHS E m s).uright f ivar else 0)
            + (if isCell m (m.gintfac f 1) ∧ c = m.gintfac f 1
              then fluxp E m (compute_RHS E m s).uleft (compute_RHS E m s).uright f ivar
              else 0)) := by
  rw [← sum_range_list]
  simp only [compute_RHS]
  rw [foldl_ev_add _ (fun acc : (ℤ → Vars K) × (ℤ → K) => acc.1 c ivar) _
    (fun S f => rhsFace_residual E m _ _ S f c ivar)]
  simp [zeros, hc]

/-- C17 (free-stream preservation): if every cell holds the same state `U`, the ghost state
that `compute_RHS` computes at every boundary face equals `U`, the flux evaluator gives
`flux(U, U, n) = n0*Fx + n1*Fy` (consistent and linear in the normal) and every cell is closed
(the sum of outward normal times length over its faces is zero), then first-order
`compute_RHS` leaves a zero residual in every cell and every variable. -/
theorem compute_RHS_uniform_state (E : Externals K) (m : UMesh2dh K) (s : ImplicitSolverBase K)
    (U Fx Fy : Vars K) (horder : s.order ≠ 2)
    (hleft : ∀ f, f < m.gnaface → isCell m (m.gintfac f 0))
    (hint : ∀ f, m.gnbface ≤ f → f < m.gnaface → isCell m (m.gintfac f 1))
    (hu : ∀ c, isCell m c → s.u c = U)
    (hghost : ∀ f, f < m.gnbface → (compute_RHS E m s).uright f = U)
    (hflux : ∀ n0 n1 i, E.get_flux U U n0 n1 i = n0 * Fx i + n1 * Fy i)
    (hclosed : ∀ c, isCell m c →
      (∑ f in Finset.range m.gnaface, ((if m.gintfac f 0 = c then (1 : K) else 0)
          - (if m.gintfac f 1 = c then 1 else 0)) * m.ggallfa f 0 * m.ggallfa f 2 = 0)
      ∧ (∑ f in Finset.range m.gnaface, ((if m.gintfac f 0 = c then (1 : K) else 0)
          - (if m.gintfac f 1 = c then 1 else 0)) * m.ggallfa f 1 * m.ggallfa f 2 = 0))
    (c : ℤ) (hc : isCell m c) (ivar : Fin 4) :
    (compute_RHS E m s).residual c ivar = 0 := by
  rw [compute_RHS_residual_apply E m s c hc ivar]
  have hterm : ∀ f ∈ Finset.range m.gnaface,
      (-(if c = m.gintfac f 0
          then fluxp E m (compute_RHS E m s).uleft (compute_RHS E m s).uright f ivar else 0)
        + (if isCell m (m.gintfac f 1) ∧ c = m.gintfac f 1
          then fluxp E m (compute_RHS E m s).uleft (compute_RHS E m s).uright f ivar else 0))
      = -(Fx ivar * (((if m.gintfac f 0 = c then (1 : K) else 0)
          - (if m.gintfac f 1 = c then 1 else 0)) * m.ggallfa f 0 * m.ggallfa f 2))
        - Fy ivar * (((if m.gintfac f 0 = c then (1 : K) else 0)
          - (if m.gintfac f 1 = c then 1 else 0)) * m.ggallfa f 1 * m.ggallfa f 2) := by
    intro f hf
    rw [Finset.mem_range] at hf
    have hL : (compute_RHS E m s).uleft f = U := by
      rw [(compute_RHS_face_states E m s horder f hf).1, hu _ (hleft f hf)]
    have hR : (compute_RHS E m s).uright f = U := by
      by_cases hb : f < m.gnbface
      · exact hghost f hb
      · rw [(compute_RHS_face_states E m s horder f hf).2 (not_lt.mp hb),
          hu _ (hint f (not_lt.mp hb) hf)]
    have hF : fluxp E m (compute_RHS E m s).uleft (compute_RHS E m s).uright f ivar
        = (m.ggallfa f 0 * Fx ivar + m.ggallfa f 1 * Fy ivar) * m.ggallfa f 2 := by
      unfold fluxp
      rw [hL, hR, hflux]
    rw [hF]
    by_cases h0 : c = m.gintfac f 0
    · by_cases h1 : c = m.gintfac f 1
      · have hc1 : isCell m (m.gintfac f 1) := h1 ▸ hc
        rw [if_pos h0, if_pos ⟨hc1, h1⟩, if_pos h0.symm, if_pos h1.symm]
        ring
      · have h1' : ¬ (isCell m (m.gintfac f 1) ∧ c = m.gintfac f 1) := fun h => h1 h.2
        rw [if_pos h0, if_neg h1', if_pos h0.symm, if_neg (fun h => h1 h.symm)]
        ring
    · by_cases h1 : c = m.gintfac f 1
      · have hc1 : isCell m (m.gintfac f 1) := h1 ▸ hc
        rw [if_neg h0, if_pos ⟨hc1, h1⟩, if_neg (fun h => h0 h.symm), if_pos h1.symm]
        ring
      · have h1' : ¬ (isCell m (m.gintfac f 1) ∧ c = m.gintfac f 1) := fun h => h1 h.2
        rw [if_neg h0, if_neg h1', if_neg (fun h => h0 h.symm), if_neg (fun h => h1 h.symm)]
        ring
  rw [Finset.sum_congr rfl hterm, Finset.sum_sub_distrib, Finset.sum_neg_distrib,
    ← Finset.mul_sum, ← Finset.mul_sum, (hclosed c hc).1, (hclosed c hc).2]
  ring

/-- The Euler normal flux is linear in the normal. -/
theorem eulerNormalFlux_linear (U : Vars K) (n0 n1 : K) (i : Fin 4) :
    eulerNormalFlux U n0 n1 i
      = n0 * eulerNormalFlux U 1 0 i + n1 * eulerNormalFlux U 0 1 i := by
  fin_cases i <;> simp [eulerNormalFlux] <;> ring

theorem solve_factorizes_shifted_block_witness :
    isCell (quadMesh : UMesh2dh ℚ) 1
      ∧ ((assembleAndFactor extStd linStd quadMesh (steadyStd : SteadyStateImplicitSolver ℚ)).ludiag 1
            = ((linStd : LinearExternals ℚ).LUfactor
                ((compute_LHS extStd quadMesh (steadyStd : SteadyStateImplicitSolver ℚ).base.u
                    (steadyStd : SteadyStateImplicitSolver ℚ).base.ug
                    (steadyStd : SteadyStateImplicitSolver ℚ).lhs).diag 1
                  + ((quadMesh : UMesh2dh ℚ).garea 1
                      / (steadyStd : SteadyStateImplicitSolver ℚ).dtl 1) • (1 : Block ℚ))
                ((steadyStd : SteadyStateImplicitSolver ℚ).diagp 1)).1
          ∧ (assembleAndFactor extStd linStd quadMesh
                (steadyStd : SteadyStateImplicitSolver ℚ)).lhs.diag 1
            = (compute_LHS extStd quadMesh (steadyStd : SteadyStateImplicitSolver ℚ).base.u
                    (steadyStd : SteadyStateImplicitSolver ℚ).base.ug
                    (steadyStd : SteadyStateImplicitSolver ℚ).lhs).diag 1
                  + ((quadMesh : UMesh2dh ℚ).garea 1
                      / (steadyStd : SteadyStateImplicitSolver ℚ).dtl 1) • (1 : Block ℚ)) :=
  ⟨by decide,
    (solve_factorizes_shifted_block extStd linStd quadMesh 1 (by decide)).1 steadyStd⟩

theorem jacobianVectorProduct_apply_witness :
    isCell (quadMesh : UMesh2dh ℚ) 1
      ∧ jacobianVectorProduct quadMesh (lhsStd : ImplicitSolver ℚ) uStd uStd 1
        = ((lhsStd : ImplicitSolver ℚ).diag 1).mulVec (uStd 1)
          + ∑ f in Finset.Ico (quadMesh : UMesh2dh ℚ).gnbface (quadMesh : UMesh2dh ℚ).gnaface,
              (if (quadMesh : UMesh2dh ℚ).gintfac f 1 = 1
                then ((lhsStd : ImplicitSolver ℚ).lower f).mulVec
                  (uStd ((quadMesh : UMesh2dh ℚ).gintfac f 0)) else 0)
          + ∑ f in Finset.Ico (quadMesh : UMesh2dh ℚ).gnbface (quadMesh : UMesh2dh ℚ).gnaface,
              (if (quadMesh : UMesh2dh ℚ).gintfac f 0 = 1
                then ((lhsStd : ImplicitSolver ℚ).upper f).mulVec
                  (uStd ((quadMesh : UMesh2dh ℚ).gintfac f 1)) else 0) :=
  ⟨by decide, jacobianVectorProduct_apply quadMesh lhsStd uStd uStd 1 (by decide)⟩

theorem compute_LHS_boundary_blocks_untouched_witness :
    ((0 : ℕ) < (quadMesh : UMesh2dh ℚ).gnbface
        ∧ (lhsStd : ImplicitSolver ℚ).diag = (lhsStdBoundaryCleared : ImplicitSolver ℚ).diag)
      ∧ ((compute_LHS extStd quadMesh uStd ugStd (lhsStd : ImplicitSolver ℚ)).lower 0
            = (lhsStd : ImplicitSolver ℚ).lower 0
          ∧ (compute_LHS extStd quadMesh uStd ugStd (lhsStd : ImplicitSolver ℚ)).upper 0
            = (lhsStd : ImplicitSolver ℚ).upper 0)
      ∧ jacobianVectorProduct (quadMesh : UMesh2dh ℚ) lhsStd uStd uStd
          = jacobianVectorProduct (quadMesh : UMesh2dh ℚ) lhsStdBoundaryCleared uStd uStd :=
  ⟨⟨by decide, rfl⟩,
    (compute_LHS_boundary_blocks_untouched extStd quadMesh uStd ugStd lhsStd).1 0 (by decide),
    (compute_LHS_boundary_blocks_untouched extStd quadMesh uStd ugStd lhsStd).2
      lhsStd lhsStdBoundaryCleared uStd uStd rfl
      (fun f h1 h2 => by
        have h : ¬ f < 6 := by
          simp only [quadMesh] at h1
          omega
        simp [lhsStdBoundaryCleared, h])⟩

theorem solve_iteration_caps_witness :
    ((cfgStd : SteadyConfig ℚ).steadymaxiter.toNat ≤ 5
        ∧ (steadyStd : SteadyStateImplicitSolver ℚ).linstep = 0
        ∧ (cfgStd : SteadyConfig ℚ).linmaxiter.toNat ≤ 4)
      ∧ (((solve extStd linStd cfgStd quadMesh (steadyStd : SteadyStateImplicitSolver ℚ) 5).2 : ℤ)
            ≤ max (cfgStd : SteadyConfig ℚ).steadymaxiter 0
          ∧ ((cfgStd : SteadyConfig ℚ).steadymaxiter
                ≤ (solve extStd linStd cfgStd quadMesh
                    (steadyStd : SteadyStateImplicitSolver ℚ) 5).1.step
              ∨ ¬ (solve extStd linStd cfgStd quadMesh
                    (steadyStd : SteadyStateImplicitSolver ℚ) 5).1.resi
                  / (solve extStd linStd cfgStd quadMesh
                    (steadyStd : SteadyStateImplicitSolver ℚ) 5).1.initres
                  > (cfgStd : SteadyConfig ℚ).steadytol)
          ∧ solve extStd linStd cfgStd quadMesh (steadyStd : SteadyStateImplicitSolver ℚ) 5
              = solve extStd linStd cfgStd quadMesh (steadyStd : SteadyStateImplicitSolver ℚ)
                  (cfgStd : SteadyConfig ℚ).steadymaxiter.toNat)
      ∧ (((whileLoop (linCond (cfgStd : SteadyConfig ℚ))
              (linearIteration extStd linStd quadMesh) 4 steadyStd).2 : ℤ)
            ≤ max (cfgStd : SteadyConfig ℚ).linmaxiter 0
          ∧ ¬ linCond (cfgStd : SteadyConfig ℚ) (whileLoop (linCond (cfgStd : SteadyConfig ℚ))
              (linearIteration extStd linStd quadMesh) 4 steadyStd).1
          ∧ whileLoop (linCond (cfgStd : SteadyConfig ℚ))
              (linearIteration extStd linStd quadMesh) 4 steadyStd
            = whileLoop (linCond (cfgStd : SteadyConfig ℚ))
              (linearIteration extStd linStd quadMesh)
              (cfgStd : SteadyConfig ℚ).linmaxiter.toNat steadyStd) :=
  ⟨⟨by decide, rfl, by decide⟩,
    (solve_iteration_caps extStd linStd cfgStd quadMesh steadyStd).1 5 (by decide),
    (solve_iteration_caps extStd linStd cfgStd quadMesh steadyStd).2 steadyStd 4 rfl
      (by decide)⟩

theorem solve_mass_residual_witness :
    ((∀ c, (uStd : ℤ → Vars ℚ) c 0 = (fun c => ![uStd c 0, 7, 7, 7]) c 0)
        ∧ (steadyStd : SteadyStateImplicitSolver ℚ).step = 0)
      ∧ massResidual (extStd : Externals ℚ) quadMesh uStd
          = massResidual (extStd : Externals ℚ) quadMesh (fun c => ![uStd c 0, 7, 7, 7])
      ∧ ((solveIteration extStd linStd cfgStd quadMesh)^[2 + 1]
            (steadyStd : SteadyStateImplicitSolver ℚ)).initres
          = (solveIteration extStd linStd cfgStd quadMesh
              (steadyStd : SteadyStateImplicitSolver ℚ)).resi :=
  ⟨⟨fun _ => rfl, rfl⟩,
    (solve_mass_residual extStd linStd cfgStd quadMesh).2.1 uStd
      (fun c => ![uStd c 0, 7, 7, 7]) (fun _ => rfl),
    (solve_mass_residual extStd linStd cfgStd quadMesh).2.2 steadyStd rfl 2⟩

theorem farfieldMesh_closed (c : ℤ) (hc : isCell (farfieldMesh : UMesh2dh ℚ) c) :
    (∑ f in Finset.range (farfieldMesh : UMesh2dh ℚ).gnaface,
        ((if (farfieldMesh : UMesh2dh ℚ).gintfac f 0 = c then (1 : ℚ) else 0)
          - (if (farfieldMesh : UMesh2dh ℚ).gintfac f 1 = c then 1 else 0))
          * (farfieldMesh : UMesh2dh ℚ).ggallfa f 0 * (farfieldMesh : UMesh2dh ℚ).ggallfa f 2 = 0)
      ∧ (∑ f in Finset.range (farfieldMesh : UMesh2dh ℚ).gnaface,
        ((if (farfieldMesh : UMesh2dh ℚ).gintfac f 0 = c then (1 : ℚ) else 0)
          - (if (farfieldMesh : UMesh2dh ℚ).gintfac f 1 = c then 1 else 0))
          * (farfieldMesh : UMesh2dh ℚ).ggallfa f 1 * (farfieldMesh : UMesh2dh ℚ).ggallfa f 2
          = 0) := by
  obtain ⟨h0, h1⟩ := hc
  have h2 : c < 2 := h1
  have hc01 : c = 0 ∨ c = 1 := by omega
  rcases hc01 with rfl | rfl <;>
    constructor <;> simp [farfieldMesh, quadMesh, Finset.sum_range_succ]

theorem farfieldMesh_ghost (f : ℕ) (hf : f < (farfieldMesh : UMesh2dh ℚ).gnbface) :
    (compute_RHS extStd farfieldMesh (uniformStd : ImplicitSolverBase ℚ)).uright f
      = ![1, 1, 0, 3] := by
  have htag : (farfieldMesh : UMesh2dh ℚ).ggallfa f 3 = inflow_outflow_id := by
    have hf6 : f < 6 := hf
    simp [farfieldMesh, hf6, inflow_outflow_id]
  simp only [compute_RHS, compute_boundary_states]
  rw [compute_boundary_states_row _ _ _ _ f htag, if_pos (List.mem_range.mpr hf)]
  rfl

theorem compute_RHS_uniform_state_witness :
    ((uniformStd : ImplicitSolverBase ℚ).order ≠ 2 ∧ isCell (farfieldMesh : UMesh2dh ℚ) 1
        ∧ (∀ f, f < (farfieldMesh : UMesh2dh ℚ).gnbface →
            (compute_RHS extStd farfieldMesh (uniformStd : ImplicitSolverBase ℚ)).uright f
              = ![1, 1, 0, 3]))
      ∧ (compute_RHS extStd farfieldMesh (uniformStd : ImplicitSolverBase ℚ)).residual 1 0 = 0 :=
  ⟨⟨by decide, by decide, farfieldMesh_ghost⟩,
    compute_RHS_uniform_state extStd farfieldMesh uniformStd ![1, 1, 0, 3]
      (eulerNormalFlux ![1, 1, 0, 3] 1 0) (eulerNormalFlux ![1, 1, 0, 3] 0 1)
      (by decide) (by decide)
      (fun f h1 h2 => by
        have : f = 6 := by
          have h1' : 6 ≤ f := h1
          have h2' : f < 7 := h2
          omega
        subst this
        decide)
      (fun _ _ => rfl) farfieldMesh_ghost
      (fun n0 n1 i => by
        show (eulerNormalFlux ![1, 1, 0, 3] n0 n1 i + eulerNormalFlux ![1, 1, 0, 3] n0 n1 i) / 2
          = _
        rw [eulerNormalFlux_linear]
        ring)
      farfieldMesh_closed 1 (by decide) 0⟩

theorem compute_boundary_states_inflow_witness :
    ((1 : ℕ) < (quadMesh : UMesh2dh ℚ).gnbface
        ∧ (quadMesh : UMesh2dh ℚ).ggallfa 1 3 = inflow_outflow_id)
      ∧ compute_boundary_states (quadMesh : UMesh2dh ℚ) ![1, 0, 1, 3] ugStd ugStd 1
          = ![1, 0, 1, 3] :=
  ⟨⟨by decide, by norm_num [quadMesh, inflow_outflow_id]⟩,
    compute_boundary_states_inflow quadMesh ![1, 0, 1, 3] ugStd ugStd 1 (by decide)
      (by norm_num [quadMesh, inflow_outflow_id])⟩

theorem compute_RHS_boundary_face_frame_witness :
    (¬ isCell (quadMesh : UMesh2dh ℚ) ((quadMesh : UMesh2dh ℚ).gintfac 2 1)
        ∧ (0 : ℤ) ≠ (quadMesh : UMesh2dh ℚ).gintfac 2 0)
      ∧ (rhsFace (extStd : Externals ℚ) quadMesh ugStd ugStd (uStd, fun _ => 0) 2).1 0
          = (uStd : ℤ → Vars ℚ) 0
      ∧ (rhsFace (extStd : Externals ℚ) quadMesh ugStd ugStd (uStd, fun _ => 0) 2).2 0
          = (fun _ => (0 : ℚ)) (0 : ℤ) :=
  ⟨⟨by decide, by decide⟩,
    compute_RHS_boundary_face_frame extStd quadMesh ugStd ugStd (uStd, fun _ => 0) 2 0
      (by decide) (by decide)⟩

/-- What the pass of face `ied` adds to the eigenvalue integral of cell `c` in `compute_RHS`. -/
theorem rhsFace_integ_apply (E : Externals K) (m : UMesh2dh K) (uleft uright : ℕ → Vars K)
    (acc : (ℤ → Vars K) × (ℤ → K)) (ied : ℕ) (c : ℤ) :
    (rhsFace E m uleft uright acc ied).2 c
      = acc.2 c
        + ((if c = m.gintfac ied 0
            then ownLambda E (uleft ied) (m.ggallfa ied 0) (m.ggallfa ied 1) * m.ggallfa ied 2
            else 0)
          + (if isCell m (m.gintfac ied 1) ∧ c = m.gintfac ied 1
            then ownLambda E (uright ied) (m.ggallfa ied 0) (m.ggallfa ied 1) * m.ggallfa ied 2
            else 0)) := by
  simp only [rhsFace, ownLambda]
  generalize m.gintfac ied 0 = l
  generalize m.gintfac ied 1 = r
  by_cases hrel : isCell m r
  · simp only [if_pos hrel, true_and, Function.update_apply]
    by_cases h1 : c = r
    · by_cases h0 : c = l
      · have h2 : r = l := h1 ▸ h0
        rw [if_pos h1, if_pos h2, if_pos h0, if_pos ⟨hrel, h1⟩, h0]
        ring
      · have h2 : ¬ r = l := h1 ▸ h0
        rw [if_pos h1, if_neg h2, if_neg h0, if_pos ⟨hrel, h1⟩, h1]
        ring
    · by_cases h0 : c = l
      · rw [if_neg h1, if_pos h0, if_pos h0, if_neg (fun h => h1 h.2), h0]
        ring
      · rw [if_neg h1, if_neg h0, if_neg h0, if_neg (fun h => h1 h.2)]
        ring
  · have hr : ¬ (isCell m r ∧ c = r) := fun h => hrel h.1
    simp only [if_neg hrel, Function.update_apply]
    by_cases h0 : c = l
    · rw [if_pos h0, if_pos h0, if_neg hr, h0]
      ring
    · rw [if_neg h0, if_neg h0, if_neg hr]
      ring

/-- C21 (amended): what `compute_RHS` integrates for time-step sizing is formed from one face
state at a time.  The integral of a cell `c` after `compute_RHS` is its previous value plus,
for every face whose left cell is `c`, `(|v.n| + c)*len` of the left face state alone and, for
every face whose right index is the cell `c`, `(|v.n| + c)*len` of the right face state
alone. -/
theorem compute_RHS_integ_own_state (E : Externals K) (m : UMesh2dh K)
    (s : ImplicitSolverBase K) (c : ℤ) :
    (compute_RHS E m s).integ c
      = s.integ c + ∑ f in Finset.range m.gnaface,
          ((if c = m.gintfac f 0
            then ownLambda E ((compute_RHS E m s).uleft f) (m.ggallfa f 0) (m.ggallfa f 1)
              * m.ggallfa f 2 else 0)
          + (if isCell m (m.gintfac f 1) ∧ c = m.gintfac f 1
            then ownLambda E ((compute_RHS E m s).uright f) (m.ggallfa f 0) (m.ggallfa f 1)
              * m.ggallfa f 2 else 0)) := by
  rw [← sum_range_list]
  simp only [compute_RHS]
  exact foldl_ev_add (rhsFace E m _ _) (fun acc : (ℤ → Vars K) × (ℤ → K) => acc.2 c) _
    (fun S f => rhsFace_integ_apply E m _ _ S f c) _ _

/-- The face states of the interior face of the two-cell mesh in first-order `compute_RHS` with
the cell states `uShear`. -/
theorem shearStd_face_states (E : Externals ℚ) :
    (compute_RHS E quadMesh (shearStd : ImplicitSolverBase ℚ)).uleft 6 = ![1, 0, 0, 5 / 2]
      ∧ (compute_RHS E quadMesh (shearStd : ImplicitSolverBase ℚ)).uright 6 = ![1, 0, 1, 3] := by
  have h := compute_RHS_face_states E quadMesh (shearStd : ImplicitSolverBase ℚ)
    (by decide) 6 (by decide)
  rw [h.1, h.2 (by decide)]
  constructor
  · simp [shearStd, uShear, quadMesh]
  · simp [shearStd, uShear, quadMesh]

/-- C21, evaluated at the interior face of the two-cell mesh with the cell states
`(1, 0, 0, 5/2)` and `(1, 0, 1, 3)` (equal sound speed, normal velocities 0 and 1): the pass
of that face in `compute_RHS` adds `6/5` to the integral of the left cell and `11/5` to the
integral of the right cell, and `lambda*len` of the same face in `compute_LHS` is `69/40`; with
any `sqrt` the amount of the right cell exceeds that of the left cell by 1. -/
theorem compute_RHS_integ_not_roe_lambda :
    (rhsFace extStd quadMesh (compute_RHS extStd quadMesh (shearStd : ImplicitSolverBase ℚ)).uleft
        (compute_RHS extStd quadMesh (shearStd : ImplicitSolverBase ℚ)).uright
        (fun _ => 0, fun _ => 0) 6).2 0 = 6 / 5
      ∧ (rhsFace extStd quadMesh
          (compute_RHS extStd quadMesh (shearStd : ImplicitSolverBase ℚ)).uleft
          (compute_RHS extStd quadMesh (shearStd : ImplicitSolverBase ℚ)).uright
          (fun _ => 0, fun _ => 0) 6).2 1 = 11 / 5
      ∧ roeLambda (extStd : Externals ℚ) (uShear ((quadMesh : UMesh2dh ℚ).gintfac 6 0))
          (uShear ((quadMesh : UMesh2dh ℚ).gintfac 6 1)) ((quadMesh : UMesh2dh ℚ).ggallfa 6 0)
          ((quadMesh : UMesh2dh ℚ).ggallfa 6 1) * (quadMesh : UMesh2dh ℚ).ggallfa 6 2 = 69 / 40
      ∧ ∀ E : Externals ℚ,
          (rhsFace E quadMesh (compute_RHS E quadMesh (shearStd : ImplicitSolverBase ℚ)).uleft
            (compute_RHS E quadMesh (shearStd : ImplicitSolverBase ℚ)).uright
            (fun _ => 0, fun _ => 0) 6).2 1
          = (rhsFace E quadMesh (compute_RHS E quadMesh (shearStd : ImplicitSolverBase ℚ)).uleft
            (compute_RHS E quadMesh (shearStd : ImplicitSolverBase ℚ)).uright
            (fun _ => 0, fun _ => 0) 6).2 0 + 1 := by
  refine ⟨?_, ?_, ?_, ?_⟩
  · rw [rhsFace_integ_apply, (shearStd_face_states extStd).1, (shearStd_face_states extStd).2]
    simp [ownLambda, quadMesh, extStd, g, isCell]
    norm_num
  · rw [rhsFace_integ_apply, (shearStd_face_states extStd).1, (shearStd_face_states extStd).2]
    simp [ownLambda, quadMesh, extStd, g, isCell]
    norm_num
  · simp [roeLambda, quadMesh, extStd, g, uShear]
    norm_num
    rw [abs_of_pos (by norm_num)]
    norm_num
  · intro E
    rw [rhsFace_integ_apply, rhsFace_integ_apply, (shearStd_face_states E).1,
      (shearStd_face_states E).2]
    simp [ownLambda, quadMesh, g, isCell]
    norm_num
    ring

/-- C28 (no division by zero in the CFL schedule): for every step and every pair of integers
`switchstepi`, `switchstep`, the CFL computation of `solve()` with its division checked returns
a value, the value of `curCFL`.  The interpolation branch is reached only when
`switchstepi <= step < switchstep`, and then `switchstep - switchstepi >= 1` and the divisor is
not zero; when `switchstep <= switchstepi` the schedule is `cfl_init` for
`step < switchstepi` and `cfl` otherwise. -/
theorem curCFL_never_divides_by_zero (cfl_init cfl : K) (switchstepi switchstep step : ℤ) :
    curCFL_checked cfl_init cfl switchstepi switchstep step
        = some (curCFL cfl_init cfl switchstepi switchstep step)
      ∧ ((¬ step < switchstepi ∧ step < switchstep) →
          (switchstepi ≤ step ∧ step < switchstep) ∧ 1 ≤ switchstep - switchstepi
            ∧ ((switchstep - switchstepi : ℤ) : K) ≠ 0)
      ∧ (switchstep ≤ switchstepi →
          curCFL cfl_init cfl switchstepi switchstep step
            = if step < switchstepi then cfl_init else cfl) := by
  have hdiv : (¬ step < switchstepi ∧ step < switchstep) →
      ((switchstep - switchstepi : ℤ) : K) ≠ 0 := by
    intro h
    have h1 : switchstep - switchstepi ≠ 0 := by omega
    exact Int.cast_ne_zero.mpr h1
  refine ⟨?_, ?_, ?_⟩
  · unfold curCFL_checked curCFL
    by_cases h1 : step < switchstepi
    · rw [if_pos h1, if_pos h1]
    · rw [if_neg h1, if_neg h1]
      by_cases h2 : step < switchstep
      · rw [if_pos h2, if_pos h2, if_neg (hdiv ⟨h1, h2⟩)]
      · rw [if_neg h2, if_neg h2]
  · intro h
    exact ⟨⟨not_lt.mp h.1, h.2⟩, by omega, hdiv h⟩
  · intro h
    unfold curCFL
    by_cases h1 : step < switchstepi
    · rw [if_pos h1, if_pos h1]
    · have h2 : ¬ step < switchstep := by omega
      rw [if_neg h1, if_neg h2, if_neg h1]

theorem curCFL_never_divides_by_zero_witness :
    ((¬ (5 : ℤ) < 2 ∧ (5 : ℤ) < 10) ∧ (2 : ℤ) ≤ 10)
    ∧ curCFL_checked (1 : ℚ) 100 2 10 5 = some (curCFL (1 : ℚ) 100 2 10 5)
    ∧ (((2 : ℤ) ≤ 5 ∧ (5 : ℤ) < 10) ∧ (1 : ℤ) ≤ 10 - 2 ∧ (((10 - 2 : ℤ) : ℤ) : ℚ) ≠ 0)
    ∧ curCFL (1 : ℚ) 100 10 2 5 = if (5 : ℤ) < 10 then 1 else 100 :=
  ⟨⟨⟨by decide, by decide⟩, by decide⟩,
    (curCFL_never_divides_by_zero (1 : ℚ) 100 2 10 5).1,
    (curCFL_never_divides_by_zero (1 : ℚ) 100 2 10 5).2.1 ⟨by decide, by decide⟩,
    (curCFL_never_divides_by_zero (1 : ℚ) 100 10 2 5).2.2 (by decide)⟩

/-- C27 (block-column sum): after `ImplicitSolver::compute_LHS`, for every cell `c` of the mesh
and every entry `(a, b)`, the diagonal block of `c` plus the lower blocks of the interior
faces whose left cell is `c` plus the upper blocks of the interior faces whose right cell is
`c` equals the sum of the contributions of the boundary faces of `c`; and the pass of an
interior face `f` adds `-lower[f]` to the diagonal block of its left cell and `-upper[f]` to
the diagonal block of its right cell. -/
theorem compute_LHS_block_column_sum (E : Externals K) (m : UMesh2dh K) (u : ℤ → Vars K)
    (ug : ℕ → Vars K) (s : ImplicitSolver K) (c : ℤ) (hc : isCell m c) (a b : Fin 4) :
    ((compute_LHS E m u ug s).diag c a b
        + ∑ f in Finset.Ico m.gnbface m.gnaface,
            (if c = m.gintfac f 0 then (compute_LHS E m u ug s).lower f a b else 0)
        + ∑ f in Finset.Ico m.gnbface m.gnaface,
            (if c = m.gintfac f 1 then (compute_LHS E m u ug s).upper f a b else 0)
      = ∑ f in Finset.range m.gnbface, diagBoundary E m u ug c a b f)
    ∧ ∀ (t : ImplicitSolver K) (f : ℕ),
        (lhsInteriorFace E m u t f).diag c a b
          = t.diag c a b
            + (if c = m.gintfac f 0 then -(lhsInteriorFace E m u t f).lower f a b else 0)
            + (if c = m.gintfac f 1 then -(lhsInteriorFace E m u t f).upper f a b else 0) := by
  constructor
  · rw [compute_LHS_diag_apply E m u ug s c hc, sum_range_list, sum_loopRange, add_assoc,
      add_assoc, ← Finset.sum_add_distrib, ← Finset.sum_add_distrib]
    have hzero : ∀ f ∈ Finset.Ico m.gnbface m.gnaface,
        diagInterior E m u c a b f
          + ((if c = m.gintfac f 0 then (compute_LHS E m u ug s).lower f a b else 0)
            + (if c = m.gintfac f 1 then (compute_LHS E m u ug s).upper f a b else 0)) = 0 := by
      intro f hf
      rw [Finset.mem_Ico] at hf
      rw [(lhs_lower_upper_entry E m u ug s f hf.1 hf.2 a b).1,
        (lhs_lower_upper_entry E m u ug s f hf.1 hf.2 a b).2]
      unfold diagInterior
      by_cases h0 : c = m.gintfac f 0
      · by_cases h1 : c = m.gintfac f 1
        · simp only [if_pos h0, if_pos h1]
          ring
        · simp only [if_pos h0, if_neg h1]
          ring
      · by_cases h1 : c = m.gintfac f 1
        · simp only [if_neg h0, if_pos h1]
          ring
        · simp only [if_neg h0, if_neg h1]
          ring
    rw [Finset.sum_congr rfl hzero, Finset.sum_const_zero, add_zero]
  · intro t f
    rw [lhsInteriorFace_diag, lhsInteriorFace_lower, lhsInteriorFace_upper, if_pos rfl, if_pos rfl]
    by_cases h0 : c = m.gintfac f 0
    · by_cases h1 : c = m.gintfac f 1
      · simp only [if_pos h0, if_pos h1]
        ring
      · simp only [if_pos h0, if_neg h1]
        ring
    · by_cases h1 : c = m.gintfac f 1
      · simp only [if_neg h0, if_pos h1]
        ring
      · simp only [if_neg h0, if_neg h1]
        ring

theorem compute_LHS_block_column_sum_witness :
    isCell (quadMesh : UMesh2dh ℚ) 1
    ∧ (compute_LHS extStd quadMesh uStd ugStd (lhsStd : ImplicitSolver ℚ)).diag 1 1 2
        + ∑ f in Finset.Ico (quadMesh : UMesh2dh ℚ).gnbface (quadMesh : UMesh2dh ℚ).gnaface,
            (if (1 : ℤ) = (quadMesh : UMesh2dh ℚ).gintfac f 0
              then (compute_LHS extStd quadMesh uStd ugStd (lhsStd : ImplicitSolver ℚ)).lower f 1 2
              else 0)
        + ∑ f in Finset.Ico (quadMesh : UMesh2dh ℚ).gnbface (quadMesh : UMesh2dh ℚ).gnaface,
            (if (1 : ℤ) = (quadMesh : UMesh2dh ℚ).gintfac f 1
              then (compute_LHS extStd quadMesh uStd ugStd (lhsStd : ImplicitSolver ℚ)).upper f 1 2
              else 0)
      = ∑ f in Finset.range (quadMesh : UMesh2dh ℚ).gnbface,
          diagBoundary extStd quadMesh uStd ugStd 1 1 2 f :=
  ⟨by decide,
    (compute_LHS_block_column_sum extStd quadMesh uStd ugStd lhsStd 1 (by decide) 1 2).1⟩

/-- C25, the update at the end of a linear iteration of `solve()`: for every cell `c` and
variable `i` the stored linear-system residual is `res.get(c,i) - (A*du)(c,i)`, with `res` the
local matrix of ones and `A*du` the result of `jacobianVectorProduct(du)`; it is
`residual(c,i) - (A*du)(c,i)` exactly when `res.get(c,i)` equals `residual(c,i)`; and for every
variable `i > 0` the read `res.get(c,i)` is outside the `nvars x 1` matrix `res`. -/
theorem linearIteration_afresidual_reads_res (E : Externals K) (L : LinearExternals K)
    (m : UMesh2dh K) (s : SteadyStateImplicitSolver K) (c : ℤ) (hc : isCell m c) (i : Fin 4) :
    (linearIteration E L m s).afresidual c i
        = L.resGet c i
          - jacobianVectorProduct m s.lhs (linearIteration E L m s).du s.afresidual c i
      ∧ ((linearIteration E L m s).afresidual c i
          = (linearIteration E L m s).base.residual c i
            - jacobianVectorProduct m s.lhs (linearIteration E L m s).du s.afresidual c i
        ↔ L.resGet c i = s.base.residual c i)
      ∧ (i ≠ 0 → ¬ resInBounds c i) := by
  have h1 : (linearIteration E L m s).afresidual c i
      = L.resGet c i
        - jacobianVectorProduct m s.lhs (linearIteration E L m s).du s.afresidual c i := by
    simp only [linearIteration, if_pos hc]
  have h2 : (linearIteration E L m s).base = s.base := rfl
  refine ⟨h1, ?_, ?_⟩
  · rw [h1, h2]
    constructor
    · intro h
      exact sub_left_injective h
    · intro h
      rw [h]
  · intro hi hb
    apply hi
    apply Fin.ext
    have := hb.2
    simp only [Fin.val_zero]
    omega

theorem linearIteration_afresidual_reads_res_witness :
    isCell (farfieldMesh : UMesh2dh ℚ) 1
    ∧ ((linearIteration extStd linStd farfieldMesh
          (steadyUniform : SteadyStateImplicitSolver ℚ)).afresidual 1 0
        = (linStd : LinearExternals ℚ).resGet 1 0
          - jacobianVectorProduct farfieldMesh (steadyUniform : SteadyStateImplicitSolver ℚ).lhs
              (linearIteration extStd linStd farfieldMesh
                (steadyUniform : SteadyStateImplicitSolver ℚ)).du
              (steadyUniform : SteadyStateImplicitSolver ℚ).afresidual 1 0)
    ∧ (linStd : LinearExternals ℚ).resGet 1 0 = 1
    ∧ (steadyUniform : SteadyStateImplicitSolver ℚ).base
        = compute_RHS extStd farfieldMesh uniformStd
    ∧ ¬ resInBounds 1 1 :=
  ⟨by decide,
    (linearIteration_afresidual_reads_res extStd linStd farfieldMesh steadyUniform 1
      (by decide) 0).1,
    rfl, rfl,
    (linearIteration_afresidual_reads_res extStd linStd farfieldMesh
      (steadyUniform : SteadyStateImplicitSolver ℚ) 1 (by decide) 1).2.2 (by decide)⟩

/-- The body of the loop of `compute_boundary_states` only writes the row of its own face, and
at a solid-wall face it leaves there the interior state with the momentum changed by
`-2*vni*n*rho`. -/
theorem compute_boundary_states_wall_row (m : UMesh2dh K) (uinf : Vars K) (ins bs : ℕ → Vars K)
    (f : ℕ) (htag : m.ggallfa f 3 = solid_wall_id) (L : List ℕ) :
    (L.foldl (fun bs ied =>
      let nx := m.ggallfa ied 0
      let ny := m.ggallfa ied 1
      let vni := (ins ied 1 * nx + ins ied 2 * ny) / ins ied 0
      let bs1 :=
        if m.ggallfa ied 3 = solid_wall_id then
          let b0 := setEntry bs ied 0 (ins ied 0)
          let b1 := setEntry b0 ied 1 (ins ied 1 - 2 * vni * nx * b0 ied 0)
          let b2 := setEntry b1 ied 2 (ins ied 2 - 2 * vni * ny * b1 ied 0)
          setEntry b2 ied 3 (ins ied 3)
        else bs
      if m.ggallfa ied 3 = inflow_outflow_id then
        (List.finRange 4).foldl (fun b i => setEntry b ied i (uinf i)) bs1
      else bs1) bs) f
      = if f ∈ L then
          ![ins f 0,
            ins f 1 - 2 * ((ins f 1 * m.ggallfa f 0 + ins f 2 * m.ggallfa f 1) / ins f 0)
              * m.ggallfa f 0 * ins f 0,
            ins f 2 - 2 * ((ins f 1 * m.ggallfa f 0 + ins f 2 * m.ggallfa f 1) / ins f 0)
              * m.ggallfa f 1 * ins f 0,
            ins f 3]
        else bs f := by
  have h4 : ¬ (solid_wall_id : K) = inflow_outflow_id := by
    simp [solid_wall_id, inflow_outflow_id]
  rw [foldl_ev_set _ (fun b : ℕ → Vars K => b f) (fun ied => f = ied)
    ![ins f 0,
      ins f 1 - 2 * ((ins f 1 * m.ggallfa f 0 + ins f 2 * m.ggallfa f 1) / ins f 0)
        * m.ggallfa f 0 * ins f 0,
      ins f 2 - 2 * ((ins f 1 * m.ggallfa f 0 + ins f 2 * m.ggallfa f 1) / ins f 0)
        * m.ggallfa f 1 * ins f 0,
      ins f 3]]
  · simp
  · intro S ied
    by_cases h : f = ied
    · subst h
      simp only [htag, if_true, if_neg h4]
      funext v
      fin_cases v <;> simp [setEntry_apply]
    · simp only [if_neg h]
      funext v
      by_cases h4' : m.ggallfa ied 3 = inflow_outflow_id
      · simp only [h4', if_true]
        rw [foldl_setEntry_row, if_neg h]
        by_cases h2 : m.ggallfa ied 3 = solid_wall_id
        · rw [← h4', if_pos h2]
          simp [setEntry_apply, h]
        · rw [← h4', if_neg h2]
      · simp only [if_neg h4']
        by_cases h2 : m.ggallfa ied 3 = solid_wall_id
        · rw [if_pos h2]
          simp [setEntry_apply, h]
        · rw [if_neg h2]

/-- C29 (solid-wall ghost state): at a boundary face `f` tagged as solid wall, with unit normal
`n` and an interior state of non-zero density, `compute_boundary_states` leaves a ghost state
with the density and total energy of the interior state and momentum `m - 2*(m.n)*n`; its
normal momentum is the negated normal momentum of the interior state, its tangential momentum
is unchanged, and `compute_boundary_states` applied to the ghost states gives back the
interior state at `f`. -/
theorem compute_boundary_states_wall (m : UMesh2dh K) (uinf : Vars K) (ins bs bs' : ℕ → Vars K)
    (f : ℕ) (hf : f < m.gnbface) (htag : m.ggallfa f 3 = solid_wall_id)
    (hn : m.ggallfa f 0 ^ 2 + m.ggallfa f 1 ^ 2 = 1) (hrho : ins f 0 ≠ 0) :
    (compute_boundary_states m uinf ins bs f 0 = ins f 0
      ∧ compute_boundary_states m uinf ins bs f 3 = ins f 3
      ∧ compute_boundary_states m uinf ins bs f 1
          = ins f 1 - 2 * (ins f 1 * m.ggallfa f 0 + ins f 2 * m.ggallfa f 1) * m.ggallfa f 0
      ∧ compute_boundary_states m uinf ins bs f 2
          = ins f 2 - 2 * (ins f 1 * m.ggallfa f 0 + ins f 2 * m.ggallfa f 1) * m.ggallfa f 1)
    ∧ (compute_boundary_states m uinf ins bs f 1 * m.ggallfa f 0
          + compute_boundary_states m uinf ins bs f 2 * m.ggallfa f 1
        = -(ins f 1 * m.ggallfa f 0 + ins f 2 * m.ggallfa f 1)
      ∧ compute_boundary_states m uinf ins bs f 1 * m.ggallfa f 1
          - compute_boundary_states m uinf ins bs f 2 * m.ggallfa f 0
        = ins f 1 * m.ggallfa f 1 - ins f 2 * m.ggallfa f 0)
    ∧ compute_boundary_states m uinf (compute_boundary_states m uinf ins bs) bs' f = ins f := by
  have hrow : ∀ (i b : ℕ → Vars K), compute_boundary_states m uinf i b f
      = ![i f 0,
          i f 1 - 2 * ((i f 1 * m.ggallfa f 0 + i f 2 * m.ggallfa f 1) / i f 0)
            * m.ggallfa f 0 * i f 0,
          i f 2 - 2 * ((i f 1 * m.ggallfa f 0 + i f 2 * m.ggallfa f 1) / i f 0)
            * m.ggallfa f 1 * i f 0,
          i f 3] := by
    intro i b
    unfold compute_boundary_states
    rw [compute_boundary_states_wall_row m uinf i b f htag, if_pos (List.mem_range.mpr hf)]
  have h0 : compute_boundary_states m uinf ins bs f 0 = ins f 0 := by
    rw [hrow]; rfl
  have h3 : compute_boundary_states m uinf ins bs f 3 = ins f 3 := by
    rw [hrow]; rfl
  have h1 : compute_boundary_states m uinf ins bs f 1
      = ins f 1 - 2 * (ins f 1 * m.ggallfa f 0 + ins f 2 * m.ggallfa f 1) * m.ggallfa f 0 := by
    rw [hrow]
    show ins f 1 - 2 * ((ins f 1 * m.ggallfa f 0 + ins f 2 * m.ggallfa f 1) / ins f 0)
      * m.ggallfa f 0 * ins f 0 = _
    field_simp
  have h2 : compute_boundary_states m uinf ins bs f 2
      = ins f 2 - 2 * (ins f 1 * m.ggallfa f 0 + ins f 2 * m.ggallfa f 1) * m.ggallfa f 1 := by
    rw [hrow]
    show ins f 2 - 2 * ((ins f 1 * m.ggallfa f 0 + ins f 2 * m.ggallfa f 1) / ins f 0)
      * m.ggallfa f 1 * ins f 0 = _
    field_simp
  have hnormal : compute_boundary_states m uinf ins bs f 1 * m.ggallfa f 0
      + compute_boundary_states m uinf ins bs f 2 * m.ggallfa f 1
      = -(ins f 1 * m.ggallfa f 0 + ins f 2 * m.ggallfa f 1) := by
    rw [h1, h2]
    linear_combination
      (-2 * (ins f 1 * m.ggallfa f 0 + ins f 2 * m.ggallfa f 1)) * hn
  refine ⟨⟨h0, h3, h1, h2⟩, ⟨hnormal, ?_⟩, ?_⟩
  · rw [h1, h2]
    ring
  · rw [hrow (compute_boundary_states m uinf ins bs) bs', hnormal, h0, h3]
    funext v
    fin_cases v
    · rfl
    · show compute_boundary_states m uinf ins bs f 1
        - 2 * (-(ins f 1 * m.ggallfa f 0 + ins f 2 * m.ggallfa f 1) / ins f 0)
          * m.ggallfa f 0 * ins f 0 = ins f 1
      rw [h1]
      field_simp
      ring
    · show compute_boundary_states m uinf ins bs f 2
        - 2 * (-(ins f 1 * m.ggallfa f 0 + ins f 2 * m.ggallfa f 1) / ins f 0)
          * m.ggallfa f 1 * ins f 0 = ins f 2
      rw [h2]
      field_simp
      ring
    · rfl

theorem compute_boundary_states_wall_witness :
    ((0 : ℕ) < (quadMesh : UMesh2dh ℚ).gnbface
      ∧ (quadMesh : UMesh2dh ℚ).ggallfa 0 3 = solid_wall_id
      ∧ (quadMesh : UMesh2dh ℚ).ggallfa 0 0 ^ 2 + (quadMesh : UMesh2dh ℚ).ggallfa 0 1 ^ 2 = 1
      ∧ (ugStd : ℕ → Vars ℚ) 0 0 ≠ 0)
    ∧ compute_boundary_states (quadMesh : UMesh2dh ℚ) ![1, 0, 1, 3]
        (compute_boundary_states (quadMesh : UMesh2dh ℚ) ![1, 0, 1, 3] ugStd ugStd) ugStd 0
      = (ugStd : ℕ → Vars ℚ) 0 :=
  ⟨⟨by decide, by simp [quadMesh, solid_wall_id], by simp [quadMesh], by simp [ugStd]⟩,
    (compute_boundary_states_wall (quadMesh : UMesh2dh ℚ) ![1, 0, 1, 3] ugStd ugStd ugStd 0
      (by decide) (by simp [quadMesh, solid_wall_id]) (by simp [quadMesh])
      (by simp [ugStd])).2.2⟩

/-- What the loop over the variables for one node of a cell adds to `up` and `areasum`: the
state times the area to the row of the point, and the area once per variable. -/
theorem pointAddCell_apply (p : ℤ) (U : Vars K) (area : K) (acc : (ℤ → Vars K) × (ℤ → K))
    (q : ℤ) (v : Fin 4) :
    (pointAddCell p U area acc).1 q v = acc.1 q v + (if q = p then U v * area else 0)
      ∧ (pointAddCell p U area acc).2 q = acc.2 q + (if q = p then 4 * area else 0) := by
  constructor
  · unfold pointAddCell
    rw [foldl_ev_add _ (fun S : (ℤ → Vars K) × (ℤ → K) => S.1 q v)
      (fun ivar => if q = p ∧ v = ivar then U ivar * area else 0)]
    · by_cases h : q = p
      · simp only [h, true_and, if_true]
        rw [sum_finRange_ite v (fun i => U i * area)]
      · simp [h]
    · intro S ivar
      simp only [setEntry_apply]
      by_cases h : q = p ∧ v = ivar
      · rw [if_pos h, if_pos h, h.1, h.2]
      · rw [if_neg h, if_neg h, add_zero]
  · unfold pointAddCell
    rw [foldl_ev_add _ (fun S : (ℤ → Vars K) × (ℤ → K) => S.2 q)
      (fun _ => if q = p then area else 0)]
    · by_cases h : q = p
      · simp [h, finRange_four]
        ring
      · simp [h]
    · intro S ivar
      simp only [Function.update_apply]
      by_cases h : q = p
      · rw [if_pos h, if_pos h, h]
      · rw [if_neg h, if_neg h, add_zero]

/-- A sum over the variables that selects the term of one variable under a side condition. -/
theorem sum_finRange_ite_and (P : Prop) [Decidable P] (v : Fin 4) (x : Fin 4 → K) :
    ((List.finRange 4).map (fun i => if P ∧ v = i then x i else 0)).sum
      = if P then x v else 0 := by
  by_cases h : P
  · simp only [h, true_and, if_true]
    exact sum_finRange_ite v x
  · simp [h]

/-- What the loop over the variables for one boundary face adds to `up` and `areasum`. -/
theorem pointAddFace_apply (ip1 ip2 : ℤ) (U : Vars K) (area : K)
    (acc : (ℤ → Vars K) × (ℤ → K)) (q : ℤ) (v : Fin 4) :
    (pointAddFace ip1 ip2 U area acc).1 q v
        = acc.1 q v + ((if q = ip1 then U v * area else 0) + (if q = ip2 then U v * area else 0))
      ∧ (pointAddFace ip1 ip2 U area acc).2 q
        = acc.2 q + ((if q = ip1 then 4 * area else 0) + (if q = ip2 then 4 * area else 0)) := by
  constructor
  · unfold pointAddFace
    rw [foldl_ev_add _ (fun S : (ℤ → Vars K) × (ℤ → K) => S.1 q v)
      (fun ivar => (if q = ip1 ∧ v = ivar then U ivar * area else 0)
        + (if q = ip2 ∧ v = ivar then U ivar * area else 0))]
    · rw [List.sum_map_add, sum_finRange_ite_and (q = ip1) v (fun i => U i * area),
        sum_finRange_ite_and (q = ip2) v (fun i => U i * area)]
    · intro S ivar
      simp only [setEntry_apply]
      by_cases hv : v = ivar
      · subst hv
        by_cases h1 : q = ip1
        · subst h1
          by_cases h2 : q = ip2
          · subst h2
            simp
            ring
          · have h2' : ¬ ip2 = q := fun h => h2 h.symm
            simp [h2, h2']
        · by_cases h2 : q = ip2
          · subst h2
            simp [h1]
          · simp [h1, h2]
      · simp [hv]
  · unfold pointAddFace
    rw [foldl_ev_add _ (fun S : (ℤ → Vars K) × (ℤ → K) => S.2 q)
      (fun _ => (if q = ip1 then area else 0) + (if q = ip2 then area else 0))]
    · simp only [finRange_four, List.map_cons, List.map_nil, List.sum_cons, List.sum_nil]
      by_cases h1 : q = ip1
      · by_cases h2 : q = ip2
        · rw [if_pos h1, if_pos h2, if_pos h1, if_pos h2]
          ring
        · rw [if_pos h1, if_neg h2, if_pos h1, if_neg h2]
          ring
      · by_cases h2 : q = ip2
        · rw [if_neg h1, if_pos h2, if_neg h1, if_pos h2]
          ring
        · rw [if_neg h1, if_neg h2, if_neg h1, if_neg h2]
          ring
    · intro S ivar
      simp only [Function.update_apply]
      by_cases h1 : q = ip1
      · subst h1
        by_cases h2 : q = ip2
        · subst h2
          simp
          ring
        · have h2' : ¬ ip2 = q := fun h => h2 h.symm
          simp [h2, h2']
      · by_cases h2 : q = ip2
        · subst h2
          simp [h1]
        · simp [h1, h2]

/-- The array `areasum` of `postprocess_point` before the division: every node of a cell and
every end point of a boundary face adds the cell area once per variable. -/
theorem pointSums_areasum (m : UMesh2dh K) (u : ℤ → Vars K) (ug : ℕ → Vars K) (q : ℤ) :
    (pointSums m u ug).2 q
      = ∑ ielem in Finset.range m.gnelem, ∑ inode in Finset.range (m.gnnode (ielem : ℤ)),
          (if q = m.ginpoel (ielem : ℤ) inode then 4 * m.garea (ielem : ℤ) else 0)
        + ∑ iface in Finset.range m.gnbface,
          ((if q = m.gintfac iface 2 then 4 * m.garea (m.gintfac iface 0) else 0)
            + (if q = m.gintfac iface 3 then 4 * m.garea (m.gintfac iface 0) else 0)) := by
  unfold pointSums
  rw [← sum_range_list, ← sum_range_list]
  simp only []
  rw [foldl_ev_add _ (fun S : (ℤ → Vars K) × (ℤ → K) => S.2 q)
      (fun iface => (if q = m.gintfac iface 2 then 4 * m.garea (m.gintfac iface 0) else 0)
        + (if q = m.gintfac iface 3 then 4 * m.garea (m.gintfac iface 0) else 0))
      (fun S iface => (pointAddFace_apply _ _ _ _ S q 0).2),
    foldl_ev_add _ (fun S : (ℤ → Vars K) × (ℤ → K) => S.2 q)
      (fun ielem : ℕ => ∑ inode in Finset.range (m.gnnode (ielem : ℤ)),
        (if q = m.ginpoel (ielem : ℤ) inode then 4 * m.garea (ielem : ℤ) else 0))]
  · simp
  · intro S ielem
    rw [← sum_range_list]
    exact foldl_ev_add
      (fun acc inode => pointAddCell (m.ginpoel (ielem : ℤ) inode) (u ielem) (m.garea ielem) acc)
      (fun S : (ℤ → Vars K) × (ℤ → K) => S.2 q)
      (fun inode => if q = m.ginpoel (ielem : ℤ) inode then 4 * m.garea (ielem : ℤ) else 0)
      (fun S inode => (pointAddCell_apply _ _ _ S q 0).2) _ _

/-- A property that every pass of a loop keeps holds after the loop. -/
theorem foldl_invariant {σ β : Type} (step : σ → β → σ) (P : σ → Prop) (L : List β)
    (h : ∀ S j, j ∈ L → P S → P (step S j)) (S : σ) (hS : P S) : P (L.foldl step S) := by
  induction L generalizing S with
  | nil => exact hS
  | cons j L ih =>
    rw [List.foldl_cons]
    exact ih (fun S k hk => h S k (List.mem_cons_of_mem j hk)) _
      (h S j (List.mem_cons_self j L) hS)

/-- With one state `U` in every cell and at every boundary face, the sums `up` of
`postprocess_point` are `U` times a quarter of `areasum`. -/
theorem pointSums_uniform (m : UMesh2dh K) (u : ℤ → Vars K) (ug : ℕ → Vars K) (U : Vars K)
    (hu : ∀ c, isCell m c → u c = U) (hg : ∀ f, f < m.gnbface → ug f = U) (q : ℤ) (v : Fin 4) :
    (pointSums m u ug).1 q v * 4 = U v * (pointSums m u ug).2 q := by
  have key : ∀ q v, (pointSums m u ug).1 q v * 4 = U v * (pointSums m u ug).2 q := by
    unfold pointSums
    simp only []
    apply foldl_invariant _
      (fun S : (ℤ → Vars K) × (ℤ → K) => ∀ q v, S.1 q v * 4 = U v * S.2 q)
    · intro S iface hiface hS q v
      rw [(pointAddFace_apply _ _ _ _ S q v).1, (pointAddFace_apply _ _ _ _ S q v).2,
        hg iface (List.mem_range.mp hiface)]
      by_cases h1 : q = m.gintfac iface 2
      · by_cases h2 : q = m.gintfac iface 3
        · simp only [if_pos h1, if_pos h2]
          linear_combination hS q v
        · simp only [if_pos h1, if_neg h2]
          linear_combination hS q v
      · by_cases h2 : q = m.gintfac iface 3
        · simp only [if_neg h1, if_pos h2]
          linear_combination hS q v
        · simp only [if_neg h1, if_neg h2]
          linear_combination hS q v
    · apply foldl_invariant _
        (fun S : (ℤ → Vars K) × (ℤ → K) => ∀ q v, S.1 q v * 4 = U v * S.2 q)
      · intro S ielem hielem hS
        have hcell : isCell m (ielem : ℤ) :=
          ⟨Int.natCast_nonneg _, Int.ofNat_lt.mpr (List.mem_range.mp hielem)⟩
        apply foldl_invariant _
          (fun S : (ℤ → Vars K) × (ℤ → K) => ∀ q v, S.1 q v * 4 = U v * S.2 q)
        · intro S inode _ hS q v
          rw [(pointAddCell_apply _ _ _ S q v).1, (pointAddCell_apply _ _ _ S q v).2,
            hu _ hcell]
          by_cases h1 : q = m.ginpoel (ielem : ℤ) inode
          · rw [if_pos h1, if_pos h1]
            linear_combination hS q v
          · rw [if_neg h1, if_neg h1]
            linear_combination hS q v
        · exact hS
      · intro q v
        simp
  exact key q v

/-- With one state `U` of non-zero density in every cell and at every boundary face,
`postprocess_point` emits at every point with non-zero `areasum` a quarter of the density and
of the pressure of `U`, and the velocity and the Mach number of `U`. -/
theorem postprocess_point_uniform (E : Externals K) (m : UMesh2dh K) (u : ℤ → Vars K)
    (ug : ℕ → Vars K) (U : Vars K) (hu : ∀ c, isCell m c → u c = U)
    (hg : ∀ f, f < m.gnbface → ug f = U) (p : ℤ) (hp : isPoint m p)
    (ha : (pointSums m u ug).2 p ≠ 0) (hrho : U 0 ≠ 0) :
    (postprocess_point E m u ug).scalars p 0 = U 0 / 4
      ∧ (postprocess_point E m u ug).scalars p 2
          = (g - 1) * (U 3 - 0.5 * ((U 1) ^ 2 + (U 2) ^ 2) / U 0) / 4
      ∧ (postprocess_point E m u ug).velocities p = ![U 1 / U 0, U 2 / U 0]
      ∧ (postprocess_point E m u ug).scalars p 1
          = E.sqrt ((U 1 / U 0) ^ 2 + (U 2 / U 0) ^ 2)
            / E.sqrt (g * ((g - 1) * (U 3 - 0.5 * ((U 1) ^ 2 + (U 2) ^ 2) / U 0)) / U 0) := by
  have hup : ∀ v, (pointSums m u ug).1 p v / (pointSums m u ug).2 p = U v / 4 := by
    intro v
    have h := pointSums_uniform m u ug U hu hg p v
    field_simp
    linear_combination h
  have hv1 : U 1 / 4 / (U 0 / 4) = U 1 / U 0 := by
    field_simp
  have hv2 : U 2 / 4 / (U 0 / 4) = U 2 / U 0 := by
    field_simp
  have hv3 : U 3 / 4 / (U 0 / 4) = U 3 / U 0 := by
    field_simp
  refine ⟨?_, ?_, ?_, ?_⟩
  · simp only [postprocess_point, if_pos hp, hup]
    rfl
  · simp only [postprocess_point, if_pos hp, hup]
    show U 0 / 4 * (g - 1) * (U 3 / 4 / (U 0 / 4)
      - 0.5 * ((U 1 / 4 / (U 0 / 4)) ^ 2 + (U 2 / 4 / (U 0 / 4)) ^ 2)) = _
    rw [hv1, hv2, hv3]
    field_simp
    ring
  · simp only [postprocess_point, if_pos hp, hup, hv1, hv2]
  · simp only [postprocess_point, if_pos hp, hup]
    show E.sqrt ((U 1 / 4 / (U 0 / 4)) ^ 2 + (U 2 / 4 / (U 0 / 4)) ^ 2)
      / E.sqrt (g * (U 0 / 4 * (g - 1) * (U 3 / 4 / (U 0 / 4)
        - 0.5 * ((U 1 / 4 / (U 0 / 4)) ^ 2 + (U 2 / 4 / (U 0 / 4)) ^ 2))) / (U 0 / 4)) = _
    rw [hv1, hv2, hv3]
    congr 2
    field_simp
    ring

/-- The array `areasum` on the two-cell mesh at point 0 (one cell, two boundary faces) and at
point 2 (two cells, two boundary faces). -/
theorem quadMesh_areasum (u : ℤ → Vars ℚ) (ug : ℕ → Vars ℚ) :
    (pointSums (quadMesh : UMesh2dh ℚ) u ug).2 0 = 12
      ∧ (pointSums (quadMesh : UMesh2dh ℚ) u ug).2 2 = 16 := by
  constructor
  · rw [pointSums_areasum]
    simp [quadMesh, Finset.sum_range_succ]
    norm_num
  · rw [pointSums_areasum]
    simp [quadMesh, Finset.sum_range_succ]
    norm_num

/-- C26, evaluated on the two-cell mesh with the state `U = (1, 1, 0, 3)` (density 1,
pressure 1) in both cells and at all six boundary faces: at point 0 and at point 2
`postprocess_point` emits density `1/4` and pressure `1/4`, a quarter of the density and
pressure of `U`, and the velocity `(1, 0)` of `U`. -/
theorem postprocess_point_uniform_quarter :
    ((postprocess_point extStd (quadMesh : UMesh2dh ℚ) (fun _ => ![1, 1, 0, 3])
        (fun _ => ![1, 1, 0, 3])).scalars 0 0 = 1 / 4
      ∧ (postprocess_point extStd (quadMesh : UMesh2dh ℚ) (fun _ => ![1, 1, 0, 3])
        (fun _ => ![1, 1, 0, 3])).scalars 0 2 = 1 / 4
      ∧ (postprocess_point extStd (quadMesh : UMesh2dh ℚ) (fun _ => ![1, 1, 0, 3])
        (fun _ => ![1, 1, 0, 3])).velocities 0 = ![1, 0])
    ∧ ((postprocess_point extStd (quadMesh : UMesh2dh ℚ) (fun _ => ![1, 1, 0, 3])
        (fun _ => ![1, 1, 0, 3])).scalars 2 0 = 1 / 4
      ∧ (postprocess_point extStd (quadMesh : UMesh2dh ℚ) (fun _ => ![1, 1, 0, 3])
        (fun _ => ![1, 1, 0, 3])).scalars 2 2 = 1 / 4
      ∧ (postprocess_point extStd (quadMesh : UMesh2dh ℚ) (fun _ => ![1, 1, 0, 3])
        (fun _ => ![1, 1, 0, 3])).velocities 2 = ![1, 0])
    ∧ (![1, 1, 0, 3] : Vars ℚ) 0 = 1
    ∧ ((g : ℚ) - 1) * ((![1, 1, 0, 3] : Vars ℚ) 3
        - 0.5 * (((![1, 1, 0, 3] : Vars ℚ) 1) ^ 2 + ((![1, 1, 0, 3] : Vars ℚ) 2) ^ 2)
          / (![1, 1, 0, 3] : Vars ℚ) 0) = 1 := by
  have h0 := postprocess_point_uniform extStd (quadMesh : UMesh2dh ℚ) (fun _ => ![1, 1, 0, 3])
    (fun _ => ![1, 1, 0, 3]) ![1, 1, 0, 3] (fun _ _ => rfl) (fun _ _ => rfl) 0 (by decide)
    (by rw [(quadMesh_areasum _ _).1]; norm_num) (by simp)
  have h2 := postprocess_point_uniform extStd (quadMesh : UMesh2dh ℚ) (fun _ => ![1, 1, 0, 3])
    (fun _ => ![1, 1, 0, 3]) ![1, 1, 0, 3] (fun _ _ => rfl) (fun _ _ => rfl) 2 (by decide)
    (by rw [(quadMesh_areasum _ _).2]; norm_num) (by simp)
  have hp : ((g : ℚ) - 1) * ((![1, 1, 0, 3] : Vars ℚ) 3
      - 0.5 * (((![1, 1, 0, 3] : Vars ℚ) 1) ^ 2 + ((![1, 1, 0, 3] : Vars ℚ) 2) ^ 2)
        / (![1, 1, 0, 3] : Vars ℚ) 0) = 1 := by
    simp [g]
    norm_num
  refine ⟨⟨?_, ?_, ?_⟩, ⟨?_, ?_, ?_⟩, by simp, hp⟩
  · rw [h0.1]; simp
  · rw [h0.2.1, hp]
  · rw [h0.2.2.1]; simp
  · rw [h2.1]; simp
  · rw [h2.2.1, hp]
  · rw [h2.2.2.1]; simp

/-- C22, evaluated on the hybrid mesh of a triangle (cell 0) and a quadrilateral (cell 1):
`writeMeshToVtu` writes the offsets `3, 8`, whereas the connectivity rows it writes have 3
and 4 entries, so cell 1 ends at position 7 of the connectivity array, the value that
`writeScalarsVectorToVtu_CellData` writes. -/
theorem writeMeshToVtu_offsets_hybrid :
    (writeMeshToVtu (hybridMesh : UMesh2dh ℚ)).offsets = [3, 8]
      ∧ (writeMeshToVtu (hybridMesh : UMesh2dh ℚ)).connectivity = [[0, 1, 2], [1, 3, 4, 2]]
      ∧ ((writeMeshToVtu (hybridMesh : UMesh2dh ℚ)).connectivity.map List.length).sum = 7
      ∧ ∀ x y : Array2d ℚ,
          (writeScalarsVectorToVtu_CellData (hybridMesh : UMesh2dh ℚ) x y).offsets = [3, 7] := by
  refine ⟨by decide, by decide, by decide, fun x y => rfl⟩

/-- C23, evaluated on the mesh of one 9-node quadrilateral: the connectivity row that
`writeMeshToVtu` writes for the cell has 9 entries and its last entry is the cell-centred
point 8, while the cell type written is 23, the 8-node quadrilateral, and the offset written
is 9. -/
theorem writeMeshToVtu_nine_node_row :
    (writeMeshToVtu (quad9Mesh : UMesh2dh ℚ)).connectivity = [[0, 1, 2, 3, 4, 5, 6, 7, 8]]
      ∧ ((writeMeshToVtu (quad9Mesh : UMesh2dh ℚ)).connectivity.map List.length) = [9]
      ∧ (writeMeshToVtu (quad9Mesh : UMesh2dh ℚ)).types = [23]
      ∧ (writeMeshToVtu (quad9Mesh : UMesh2dh ℚ)).offsets = [9] := by
  refine ⟨by decide, by decide, by decide, by decide⟩

/-- A loop each of whose passes raises an observed counter by one exactly when `P` holds of
the index counts the indices with `P`. -/
theorem foldl_count {σ β : Type} (step : σ → β → σ) (ev : σ → ℕ) (P : β → Prop)
    [DecidablePred P] (h : ∀ S j, ev (step S j) = ev S + if P j then 1 else 0)
    (L : List β) (S : σ) :
    ev (L.foldl step S) = ev S + L.countP (fun j => decide (P j)) := by
  induction L generalizing S with
  | nil => simp
  | cons j L ih =>
    rw [List.foldl_cons, ih, h, List.countP_cons]
    by_cases hj : P j
    · simp [hj]
      ring
    · simp [hj]

omit [LinearOrderedField K] in
/-- The rank of a face among the faces with a marker, one face further. -/
theorem markerRank_succ (m : UMesh2dh K) (iwbcm : ℤ) (f : ℕ) :
    markerRank m iwbcm (f + 1)
      = markerRank m iwbcm f + if m.gintfacbtags f 0 = iwbcm then 1 else 0 := by
  unfold markerRank
  rw [List.range_succ, List.countP_append]
  by_cases h : m.gintfacbtags f 0 = iwbcm
  · simp [h]
  · simp [h]

omit [LinearOrderedField K] in
/-- The rank grows with the face index. -/
theorem markerRank_mono (m : UMesh2dh K) (iwbcm : ℤ) (a b : ℕ) (hab : a ≤ b) :
    markerRank m iwbcm a ≤ markerRank m iwbcm b := by
  induction b, hab using Nat.le_induction with
  | base => exact le_rfl
  | succ b _ ih =>
    rw [markerRank_succ]
    exact le_trans ih (Nat.le_add_right _ _)

/-- The face counter of `computeSurfaceData` after the first `n` boundary faces. -/
theorem surfaceLoop_facecoun (F : FlowOutput K) (m : UMesh2dh K) (u : ℤ → Vars K)
    (grad : ℤ → Fin 2 → Vars K) (iwbcm : ℤ) (output : ℕ → Vars K) (n : ℕ) :
    (surfaceLoop F m u grad iwbcm output n).facecoun = markerRank m iwbcm n := by
  unfold surfaceLoop markerRank
  rw [foldl_count _ (fun S : SurfaceData K => S.facecoun)
    (fun iface => m.gintfacbtags iface 0 = iwbcm)]
  · simp
  · intro S j
    by_cases h : m.gintfacbtags j 0 = iwbcm
    · simp [h, surfaceFace]
    · simp [h]

/-- The loop of `computeSurfaceData` one face further. -/
theorem surfaceLoop_succ (F : FlowOutput K) (m : UMesh2dh K) (u : ℤ → Vars K)
    (grad : ℤ → Fin 2 → Vars K) (iwbcm : ℤ) (output : ℕ → Vars K) (n : ℕ) :
    surfaceLoop F m u grad iwbcm output (n + 1)
      = if m.gintfacbtags n 0 = iwbcm
        then surfaceFace F m u grad (surfaceLoop F m u grad iwbcm output n) n
        else surfaceLoop F m u grad iwbcm output n := by
  unfold surfaceLoop
  rw [List.range_succ, List.foldl_append]
  rfl

/-- The matrix `output` after the pass of a face: the row of the face counter holds the face
centre, `(p - pinf)*2` and `2*tauw` of the face, the other rows are as before. -/
theorem surfaceFace_output (F : FlowOutput K) (m : UMesh2dh K) (u : ℤ → Vars K)
    (grad : ℤ → Fin 2 → Vars K) (acc : SurfaceData K) (iface : ℕ) (r : ℕ) :
    (surfaceFace F m u grad acc iface).output r
      = if r = acc.facecoun then
          ![faceCentre F m iface 0, faceCentre F m iface 1,
            (F.phy.getPressureFromConserved (u (m.gintfac iface 0))
              - F.phy.getFreestreamPressure) * 2.0,
            2.0 * tauw F m u grad iface]
        else acc.output r := by
  funext j
  by_cases h : r = acc.facecoun
  · rw [if_pos h]
    subst h
    fin_cases j <;> simp [surfaceFace, setEntry_apply]
  · rw [if_neg h]
    simp [surfaceFace, setEntry_apply, h]

/-- The wall shear stress that the code computes is `mu*((grad v + grad v^T) n).t` with
`t = (n1, -n0)`. -/
theorem tauw_eq (F : FlowOutput K) (m : UMesh2dh K) (u : ℤ → Vars K)
    (grad : ℤ → Fin 2 → Vars K) (f : ℕ) :
    2.0 * tauw F m u grad f = surfaceCf F m u grad f := by
  simp only [tauw, surfaceCf, Matrix.dotProduct, Matrix.mulVec, Fin.sum_univ_two,
    Matrix.add_apply, Matrix.transpose_apply, Matrix.cons_val_zero, Matrix.cons_val_one,
    Matrix.head_cons, Fin.val_zero, Fin.val_one]
  have h2 : (2.0 : K) = 2 := by norm_num
  rw [h2]
  ring

/-- The rows of `output` that the first `n` passes of the loop of `computeSurfaceData` have
filled: the row of a face `f < n` with the marker is the rank of `f` among the faces with the
marker, and holds the coefficients of `f` in columns 2 and 3. -/
theorem surfaceLoop_rows (F : FlowOutput K) (m : UMesh2dh K) (u : ℤ → Vars K)
    (grad : ℤ → Fin 2 → Vars K) (iwbcm : ℤ) (output : ℕ → Vars K) (n f : ℕ) (hf : f < n)
    (htag : m.gintfacbtags f 0 = iwbcm) :
    (surfaceLoop F m u grad iwbcm output n).output (markerRank m iwbcm f) 2
        = surfaceCp F m u f
      ∧ (surfaceLoop F m u grad iwbcm output n).output (markerRank m iwbcm f) 3
        = surfaceCf F m u grad f := by
  induction n with
  | zero => exact absurd hf (Nat.not_lt_zero f)
  | succ n ih =>
    rw [surfaceLoop_succ]
    by_cases hn : m.gintfacbtags n 0 = iwbcm
    · rw [if_pos hn, surfaceFace_output, surfaceLoop_facecoun]
      by_cases hfn : f = n
      · subst hfn
        rw [if_pos rfl]
        constructor
        · show (F.phy.getPressureFromConserved (u (m.gintfac f 0))
            - F.phy.getFreestreamPressure) * 2.0 = _
          unfold surfaceCp
          have h2 : (2.0 : K) = 2 := by norm_num
          rw [h2]
          ring
        · exact tauw_eq F m u grad f
      · have hlt : f < n := lt_of_le_of_ne (Nat.lt_succ_iff.mp hf) hfn
        have h1 : markerRank m iwbcm (f + 1) ≤ markerRank m iwbcm n :=
          markerRank_mono m iwbcm _ _ hlt
        rw [markerRank_succ, if_pos htag] at h1
        have hne : ¬ markerRank m iwbcm f = markerRank m iwbcm n := by omega
        rw [if_neg hne]
        exact ih hlt
    · rw [if_neg hn]
      have hfn : f ≠ n := fun h => hn (h ▸ htag)
      exact ih (lt_of_le_of_ne (Nat.lt_succ_iff.mp hf) hfn)

/-- The sums that the loop of `computeSurfaceData` accumulates over the first `n` boundary
faces: total length, lift, pressure drag and friction drag, each summed over the faces with
the marker. -/
theorem surfaceLoop_sums (F : FlowOutput K) (m : UMesh2dh K) (u : ℤ → Vars K)
    (grad : ℤ → Fin 2 → Vars K) (iwbcm : ℤ) (output : ℕ → Vars K) (n : ℕ) :
    (surfaceLoop F m u grad iwbcm output n).totallen
        = ∑ f in (Finset.range n).filter (fun f => m.gintfacbtags f 0 = iwbcm),
            m.gfacemetric f 2
      ∧ (surfaceLoop F m u grad iwbcm output n).Cl
        = ∑ f in (Finset.range n).filter (fun f => m.gintfacbtags f 0 = iwbcm),
            surfaceCp F m u f
              * (m.gfacemetric f 0 * (-F.av 1) + m.gfacemetric f 1 * F.av 0) * m.gfacemetric f 2
      ∧ (surfaceLoop F m u grad iwbcm output n).Cdp
        = ∑ f in (Finset.range n).filter (fun f => m.gintfacbtags f 0 = iwbcm),
            surfaceCp F m u f
              * (m.gfacemetric f 0 * F.av 0 + m.gfacemetric f 1 * F.av 1) * m.gfacemetric f 2
      ∧ (surfaceLoop F m u grad iwbcm output n).Cdf
        = ∑ f in (Finset.range n).filter (fun f => m.gintfacbtags f 0 = iwbcm),
            surfaceCf F m u grad f
              * (m.gfacemetric f 1 * F.av 0 - m.gfacemetric f 0 * F.av 1)
              * m.gfacemetric f 2 := by
  have h2 : (2.0 : K) = 2 := by norm_num
  refine ⟨?_, ?_, ?_, ?_⟩
  · rw [Finset.sum_filter, ← sum_range_list]
    unfold surfaceLoop
    rw [foldl_ev_add _ (fun S : SurfaceData K => S.totallen)
      (fun f => if m.gintfacbtags f 0 = iwbcm then m.gfacemetric f 2 else 0)]
    · simp
    · intro S j
      by_cases h : m.gintfacbtags j 0 = iwbcm
      · simp [h, surfaceFace]
      · simp [h]
  · rw [Finset.sum_filter, ← sum_range_list]
    unfold surfaceLoop
    rw [foldl_ev_add _ (fun S : SurfaceData K => S.Cl)
      (fun f => if m.gintfacbtags f 0 = iwbcm then surfaceCp F m u f
        * (m.gfacemetric f 0 * (-F.av 1) + m.gfacemetric f 1 * F.av 0) * m.gfacemetric f 2
        else 0)]
    · simp
    · intro S j
      by_cases h : m.gintfacbtags j 0 = iwbcm
      · simp only [if_pos h, surfaceFace, setEntry_apply, surfaceCp, h2]
        simp [-mul_eq_mul_left_iff, -mul_eq_mul_right_iff, -mul_eq_zero]
        ring
      · simp [h]
  · rw [Finset.sum_filter, ← sum_range_list]
    unfold surfaceLoop
    rw [foldl_ev_add _ (fun S : SurfaceData K => S.Cdp)
      (fun f => if m.gintfacbtags f 0 = iwbcm then surfaceCp F m u f
        * (m.gfacemetric f 0 * F.av 0 + m.gfacemetric f 1 * F.av 1) * m.gfacemetric f 2
        else 0)]
    · simp
    · intro S j
      by_cases h : m.gintfacbtags j 0 = iwbcm
      · simp only [if_pos h, surfaceFace, setEntry_apply, surfaceCp, h2]
        simp [-mul_eq_mul_left_iff, -mul_eq_mul_right_iff, -mul_eq_zero]
        ring
      · simp [h]
  · rw [Finset.sum_filter, ← sum_range_list]
    unfold surfaceLoop
    rw [foldl_ev_add _ (fun S : SurfaceData K => S.Cdf)
      (fun f => if m.gintfacbtags f 0 = iwbcm then surfaceCf F m u grad f
        * (m.gfacemetric f 1 * F.av 0 - m.gfacemetric f 0 * F.av 1) * m.gfacemetric f 2
        else 0)]
    · simp
    · intro S j
      by_cases h : m.gintfacbtags j 0 = iwbcm
      · simp only [if_pos h, ← tauw_eq, surfaceFace, setEntry_apply]
        simp
      · simp [h]

/-- C24 (surface coefficients): for a marker `iwbcm` carried by at least one boundary face of
positive length, `FlowOutput::computeSurfaceData` stores for every boundary face `f` with the
marker, in the row that is the rank of `f` among these faces, `Cp = 2*(p(left cell) - p_inf)`
in column 2 and `Cf = 2*tau_w`, `tau_w = mu*((grad v + grad v^T) n).t`, `t = (n1, -n0)`, in
column 3, and returns `Cl = sum(Cp*(n.flownormal)*len)/sum(len)`,
`Cdp = sum(Cp*(n.av)*len)/sum(len)` and `Cdf = sum(Cf*(t.av)*len)/sum(len)`, the sums taken
over the boundary faces with the marker, `flownormal = (-av1, av0)`; the divisor `sum(len)` is
positive when no boundary face has negative length. -/
theorem computeSurfaceData_coefficients (F : FlowOutput K) (m : UMesh2dh K) (u : ℤ → Vars K)
    (grad : ℤ → Fin 2 → Vars K) (iwbcm : ℤ) (output : ℕ → Vars K)
    (h : ∃ f, f < m.gnbface ∧ m.gintfacbtags f 0 = iwbcm ∧ 0 < m.gfacemetric f 2) :
    (∀ f, f < m.gnbface → m.gintfacbtags f 0 = iwbcm →
      (computeSurfaceData F m u grad iwbcm output).output (markerRank m iwbcm f) 2
          = surfaceCp F m u f
        ∧ (computeSurfaceData F m u grad iwbcm output).output (markerRank m iwbcm f) 3
          = surfaceCf F m u grad f)
    ∧ (computeSurfaceData F m u grad iwbcm output).Cl
        = (∑ f in (Finset.range m.gnbface).filter (fun f => m.gintfacbtags f 0 = iwbcm),
            surfaceCp F m u f
              * (m.gfacemetric f 0 * (-F.av 1) + m.gfacemetric f 1 * F.av 0)
              * m.gfacemetric f 2)
          / ∑ f in (Finset.range m.gnbface).filter (fun f => m.gintfacbtags f 0 = iwbcm),
              m.gfacemetric f 2
    ∧ (computeSurfaceData F m u grad iwbcm output).Cdp
        = (∑ f in (Finset.range m.gnbface).filter (fun f => m.gintfacbtags f 0 = iwbcm),
            surfaceCp F m u f
              * (m.gfacemetric f 0 * F.av 0 + m.gfacemetric f 1 * F.av 1)
              * m.gfacemetric f 2)
          / ∑ f in (Finset.range m.gnbface).filter (fun f => m.gintfacbtags f 0 = iwbcm),
              m.gfacemetric f 2
    ∧ (computeSurfaceData F m u grad iwbcm output).Cdf
        = (∑ f in (Finset.range m.gnbface).filter (fun f => m.gintfacbtags f 0 = iwbcm),
            surfaceCf F m u grad f
              * (m.gfacemetric f 1 * F.av 0 - m.gfacemetric f 0 * F.av 1)
              * m.gfacemetric f 2)
          / ∑ f in (Finset.range m.gnbface).filter (fun f => m.gintfacbtags f 0 = iwbcm),
              m.gfacemetric f 2
    ∧ ((∀ f, f < m.gnbface → 0 ≤ m.gfacemetric f 2) →
        0 < ∑ f in (Finset.range m.gnbface).filter (fun f => m.gintfacbtags f 0 = iwbcm),
              m.gfacemetric f 2) := by
  have hs := surfaceLoop_sums F m u grad iwbcm output m.gnbface
  refine ⟨?_, ?_, ?_, ?_, ?_⟩
  · intro f hf htag
    exact surfaceLoop_rows F m u grad iwbcm output m.gnbface f hf htag
  · show (surfaceLoop F m u grad iwbcm output m.gnbface).Cl
      / (surfaceLoop F m u grad iwbcm output m.gnbface).totallen = _
    rw [hs.1, hs.2.1]
  · show (surfaceLoop F m u grad iwbcm output m.gnbface).Cdp
      / (surfaceLoop F m u grad iwbcm output m.gnbface).totallen = _
    rw [hs.1, hs.2.2.1]
  · show (surfaceLoop F m u grad iwbcm output m.gnbface).Cdf
      / (surfaceLoop F m u grad iwbcm output m.gnbface).totallen = _
    rw [hs.1, hs.2.2.2]
  · intro hlen
    obtain ⟨f, hf, htag, hpos⟩ := h
    apply Finset.sum_pos'
    · intro i hi
      exact hlen i (Finset.mem_range.mp (Finset.mem_filter.mp hi).1)
    · exact ⟨f, Finset.mem_filter.mpr ⟨Finset.mem_range.mpr hf, htag⟩, hpos⟩

theorem computeSurfaceData_coefficients_witness :
    (∃ f, f < (quadMesh : UMesh2dh ℚ).gnbface ∧ (quadMesh : UMesh2dh ℚ).gintfacbtags f 0 = 2
      ∧ 0 < (quadMesh : UMesh2dh ℚ).gfacemetric f 2)
    ∧ ((computeSurfaceData flowStd (quadMesh : UMesh2dh ℚ) uStd (flowStd.getGradients uStd) 2
          ugStd).output (markerRank (quadMesh : UMesh2dh ℚ) 2 3) 2
        = surfaceCp flowStd (quadMesh : UMesh2dh ℚ) uStd 3
      ∧ (computeSurfaceData flowStd (quadMesh : UMesh2dh ℚ) uStd (flowStd.getGradients uStd) 2
          ugStd).output (markerRank (quadMesh : UMesh2dh ℚ) 2 3) 3
        = surfaceCf flowStd (quadMesh : UMesh2dh ℚ) uStd (flowStd.getGradients uStd) 3)
    ∧ 0 < ∑ f in (Finset.range (quadMesh : UMesh2dh ℚ).gnbface).filter
          (fun f => (quadMesh : UMesh2dh ℚ).gintfacbtags f 0 = 2),
        (quadMesh : UMesh2dh ℚ).gfacemetric f 2 :=
  ⟨⟨0, by decide, by decide, by simp [quadMesh]⟩,
    (computeSurfaceData_coefficients flowStd (quadMesh : UMesh2dh ℚ) uStd
      (flowStd.getGradients uStd) 2 ugStd ⟨0, by decide, by decide, by simp [quadMesh]⟩).1 3
      (by decide) (by decide),
    (computeSurfaceData_coefficients flowStd (quadMesh : UMesh2dh ℚ) uStd
      (flowStd.getGradients uStd) 2 ugStd ⟨0, by decide, by decide, by simp [quadMesh]⟩).2.2.2.2
      (fun f hf => by
        have hf6 : f < 6 := hf
        interval_cases f <;> simp [quadMesh])⟩

/-- The inner loop of the counting loop of `exportSurfaceData` for one face with marker `tag`
raises entry `im` of the counters by one exactly when `im` is among the first `n` indices and
`bcm[im]` is the marker. -/
theorem countInner_apply (tag : ℤ) (bcm : List ℤ) (n : ℕ) (nf : ℕ → ℕ) (im : ℕ) :
    ((List.range n).foldl (fun (nf : ℕ → ℕ) k =>
        if tag = bcm.getD k 0 then Function.update nf k (nf k + 1) else nf) nf) im
      = nf im + if im < n ∧ tag = bcm.getD im 0 then 1 else 0 := by
  induction n with
  | zero => simp
  | succ n ih =>
    rw [List.range_succ, List.foldl_append, List.foldl_cons, List.foldl_nil]
    by_cases ht : tag = bcm.getD n 0
    · rw [if_pos ht, Function.update_apply]
      by_cases hn : im = n
      · subst hn
        rw [if_pos rfl, ih]
        simp [ht]
      · rw [if_neg hn, ih]
        have h1 : (im < n + 1 ∧ tag = bcm.getD im 0) ↔ (im < n ∧ tag = bcm.getD im 0) := by
          constructor
          · intro h
            exact ⟨lt_of_le_of_ne (Nat.lt_succ_iff.mp h.1) hn, h.2⟩
          · intro h
            exact ⟨Nat.lt_succ_of_lt h.1, h.2⟩
        simp only [h1]
    · rw [if_neg ht, ih]
      have h1 : (im < n + 1 ∧ tag = bcm.getD im 0) ↔ (im < n ∧ tag = bcm.getD im 0) := by
        constructor
        · intro h
          have hne : im ≠ n := fun hc => ht (hc ▸ h.2)
          exact ⟨lt_of_le_of_ne (Nat.lt_succ_iff.mp h.1) hne, h.2⟩
        · intro h
          exact ⟨Nat.lt_succ_of_lt h.1, h.2⟩
      simp only [h1]

omit [LinearOrderedField K] in
/-- The counter `nwbfaces[im]` of `exportSurfaceData` is the number of boundary faces whose
marker is `wbcm[im]`. -/
theorem countMarkerFaces_wall (m : UMesh2dh K) (wbcm obcm : List ℤ) (im : ℕ)
    (him : im < wbcm.length) :
    (countMarkerFaces m wbcm obcm).1 im = markerRank m (wbcm.getD im 0) m.gnbface := by
  unfold countMarkerFaces markerRank
  rw [foldl_count _ (fun S : (ℕ → ℕ) × (ℕ → ℕ) => S.1 im)
    (fun iface => m.gintfacbtags iface 0 = wbcm.getD im 0)]
  · simp
  · intro S j
    simp only []
    rw [countInner_apply]
    simp [him]

/-- Every access `output(row, column)` of the first `n` passes of the loop of
`computeSurfaceData` has its row below the face counter and its column below `NDIM+2`. -/
theorem surfaceLoop_accesses (F : FlowOutput K) (m : UMesh2dh K) (u : ℤ → Vars K)
    (grad : ℤ → Fin 2 → Vars K) (iwbcm : ℤ) (output : ℕ → Vars K) (n : ℕ) :
    ∀ a ∈ (surfaceLoop F m u grad iwbcm output n).accesses,
      a.1 < (surfaceLoop F m u grad iwbcm output n).facecoun ∧ a.2 < 2 + 2 := by
  induction n with
  | zero =>
    intro a ha
    simp [surfaceLoop] at ha
  | succ n ih =>
    rw [surfaceLoop_succ]
    by_cases hn : m.gintfacbtags n 0 = iwbcm
    · rw [if_pos hn]
      intro a ha
      have hfc : (surfaceFace F m u grad (surfaceLoop F m u grad iwbcm output n) n).facecoun
          = (surfaceLoop F m u grad iwbcm output n).facecoun + 1 := rfl
      have hacc : (surfaceFace F m u grad (surfaceLoop F m u grad iwbcm output n) n).accesses
          = (surfaceLoop F m u grad iwbcm output n).accesses
            ++ [((surfaceLoop F m u grad iwbcm output n).facecoun, 0),
              ((surfaceLoop F m u grad iwbcm output n).facecoun, 1),
              ((surfaceLoop F m u grad iwbcm output n).facecoun, 2),
              ((surfaceLoop F m u grad iwbcm output n).facecoun, 3),
              ((surfaceLoop F m u grad iwbcm output n).facecoun, 2),
              ((surfaceLoop F m u grad iwbcm output n).facecoun, 3),
              ((surfaceLoop F m u grad iwbcm output n).facecoun, 2)] := rfl
      rw [hfc]
      rw [hacc, List.mem_append] at ha
      rcases ha with ha | ha
      · exact ⟨Nat.lt_succ_of_lt (ih a ha).1, (ih a ha).2⟩
      · simp only [List.mem_cons, List.mem_singleton, List.not_mem_nil, or_false] at ha
        rcases ha with rfl | rfl | rfl | rfl | rfl | rfl | rfl <;>
          exact ⟨Nat.lt_succ_self _, by norm_num⟩
    · rw [if_neg hn]
      exact ih

/-- C30 (rows of the surface output): in `FlowOutput::exportSurfaceData`, for every wall
marker `wbcm[im]` the face counter of `computeSurfaceData` at its return equals the number
`nwbfaces[im]` of rows of the matrix `output` allocated for the marker, and every access
`output(row, column)` that `computeSurfaceData` makes has `row < nwbfaces[im]` and
`column < NDIM+2`, the number of columns of `output`. -/
theorem exportSurfaceData_rows_match (F : FlowOutput K) (m : UMesh2dh K) (u : ℤ → Vars K)
    (wbcm obcm : List ℤ) (fresh : ℕ → Vars K) (im : ℕ) (him : im < wbcm.length) :
    ∃ file : SurfaceFile K,
      (exportSurfaceData F m u wbcm obcm fresh).1[im]? = some file
        ∧ file.data = computeSurfaceData F m u (F.getGradients u) (wbcm.getD im 0) fresh
        ∧ file.rows = (countMarkerFaces m wbcm obcm).1 im
        ∧ file.data.facecoun = file.rows
        ∧ ∀ a ∈ file.data.accesses, a.1 < file.rows ∧ a.2 < file.cols := by
  refine ⟨{ rows := (countMarkerFaces m wbcm obcm).1 im, cols := 2 + 2,
            data := computeSurfaceData F m u (F.getGradients u) (wbcm.getD im 0) fresh },
    ?_, rfl, rfl, ?_, ?_⟩
  · simp [exportSurfaceData, him]
  · show (surfaceLoop F m u (F.getGradients u) (wbcm.getD im 0) fresh m.gnbface).facecoun
      = (countMarkerFaces m wbcm obcm).1 im
    rw [surfaceLoop_facecoun, countMarkerFaces_wall m wbcm obcm im him]
  · intro a ha
    have h := surfaceLoop_accesses F m u (F.getGradients u) (wbcm.getD im 0) fresh m.gnbface a ha
    rw [surfaceLoop_facecoun, ← countMarkerFaces_wall m wbcm obcm im him] at h
    exact h

theorem exportSurfaceData_rows_match_witness :
    (0 < ([2] : List ℤ).length)
    ∧ ∃ file : SurfaceFile ℚ,
      (exportSurfaceData flowStd (quadMesh : UMesh2dh ℚ) uStd [2] [4] ugStd).1[0]? = some file
        ∧ file.data = computeSurfaceData flowStd (quadMesh : UMesh2dh ℚ) uStd
            (flowStd.getGradients uStd) (([2] : List ℤ).getD 0 0) ugStd
        ∧ file.rows = (countMarkerFaces (quadMesh : UMesh2dh ℚ) [2] [4]).1 0
        ∧ file.data.facecoun = file.rows
        ∧ ∀ a ∈ file.data.accesses, a.1 < file.rows ∧ a.2 < file.cols :=
  ⟨by decide,
    exportSurfaceData_rows_match flowStd (quadMesh : UMesh2dh ℚ) uStd [2] [4] ugStd 0
      (by decide)⟩

/-- The offsets that `writeScalarsVectorToVtu_CellData` writes: entry `k` is the total number
of nodes of the cells `0..k`. -/
theorem writeScalarsVectorToVtu_CellData_offsets (m : UMesh2dh K) (x y : Array2d K) :
    (writeScalarsVectorToVtu_CellData m x y).offsets
      = (List.range m.gnelem).map (fun k => ∑ i in Finset.range (k + 1), m.gnnode (i : ℤ)) := by
  have key : ∀ n : ℕ,
      (List.range n).foldl (fun (acc : ℕ × List ℕ) (i : ℕ) =>
        (acc.1 + m.gnnode (i : ℤ), acc.2 ++ [acc.1 + m.gnnode (i : ℤ)])) (0, [])
      = (∑ i in Finset.range n, m.gnnode (i : ℤ),
          (List.range n).map (fun k => ∑ i in Finset.range (k + 1), m.gnnode (i : ℤ))) := by
    intro n
    induction n with
    | zero => simp
    | succ n ih =>
      rw [List.range_succ, List.foldl_append, ih]
      simp [Finset.sum_range_succ]
  show ((List.range m.gnelem).foldl (fun (acc : ℕ × List ℕ) (i : ℕ) =>
    (acc.1 + m.gnnode (i : ℤ), acc.2 ++ [acc.1 + m.gnnode (i : ℤ)])) (0, [])).2 = _
  rw [key]

/-- The velocity gradient tensor of `computeSurfaceData` is the gradient of the velocity: if
along direction `j` the conserved variables `U t` have the derivatives `G j` at `x` and the
density is not zero there, the velocity components `U 1 / U 0` and `U 2 / U 0` have the
derivatives `gradu (U x) G 0 j` and `gradu (U x) G 1 j`. -/
theorem gradu_hasDerivAt (U : ℝ → Vars ℝ) (G : Fin 2 → Vars ℝ) (j : Fin 2) (x : ℝ)
    (hrho : HasDerivAt (fun t => U t 0) (G j 0) x)
    (hm1 : HasDerivAt (fun t => U t 1) (G j 1) x)
    (hm2 : HasDerivAt (fun t => U t 2) (G j 2) x) (h0 : U x 0 ≠ 0) :
    HasDerivAt (fun t => U t 1 / U t 0) (gradu (U x) G 0 j) x
      ∧ HasDerivAt (fun t => U t 2 / U t 0) (gradu (U x) G 1 j) x := by
  have h1 := hm1.div hrho h0
  have h2 := hm2.div hrho h0
  constructor
  · convert h1 using 1
    fin_cases j <;> simp [gradu] <;> ring
  · convert h2 using 1
    fin_cases j <;> simp [gradu] <;> ring

end theorems

end acfd
